import Mathlib

/-!
# Partial file transfer engine: valid-range tracker and sector write path

Shallow embedding of `src/transfers/partial_file.hpp` and
`src/transfers/partial_file.cpp`.  `size_t` and `uint32_t` values are natural
numbers; every operation that can wrap on the 32-bit target is written with an
explicit `% 2 ^ 32`.
-/

namespace transfers

/-- The sector size, `PartialFile::SECTOR_SIZE`. -/
def SECTOR_SIZE : Nat := 512

/-- Modulus of `size_t` and `uint32_t` on the target. -/
def SIZE_MOD : Nat := 2 ^ 32

/-- A half-open byte range `[start, end)`, `PartialFile::ValidPart`. -/
structure ValidPart where
  start : Nat
  «end» : Nat
  deriving DecidableEq, Repr

/-- The method `ValidPart::merge`: extend `this` to the right, then to the left, when `other`
touches or overlaps it. -/
def ValidPart.merge (self other : ValidPart) : ValidPart :=
  let e := if other.start ≤ self.«end» ∧ other.«end» > self.«end» then other.«end» else self.«end»
  let s := if other.start < self.start ∧ other.«end» ≥ self.start then other.start else self.start
  { start := s, «end» := e }

/-- The valid parts of a file, `PartialFile::State`. -/
structure State where
  valid_head : Option ValidPart
  valid_tail : Option ValidPart
  total_size : Nat
  deriving DecidableEq, Repr

/-- The method `State::get_valid_size`, in `size_t` arithmetic. -/
def State.get_valid_size (st : State) : Nat :=
  let bytes_head := match st.valid_head with
    | some h => (h.«end» + SIZE_MOD - h.start) % SIZE_MOD
    | none => 0
  let bytes_tail := match st.valid_tail with
    | some t => (t.«end» + SIZE_MOD - t.start) % SIZE_MOD
    | none => 0
  let bytes_overlap := match st.valid_head, st.valid_tail with
    | some h, some t => if h.«end» > t.start then (h.«end» + SIZE_MOD - t.start) % SIZE_MOD else 0
    | _, _ => 0
  ((bytes_head + bytes_tail) % SIZE_MOD + SIZE_MOD - bytes_overlap) % SIZE_MOD

/-- The state update of `PartialFile::extend_valid_part` (the progress report that follows it
does not touch the state). -/
def extend_valid_part (st : State) (new_part : ValidPart) : State :=
  -- extend head
  let head1 : Option ValidPart := match st.valid_head with
    | some h => some (h.merge new_part)
    | none => if new_part.start = 0 then some new_part else none
  let head_end := match head1 with
    | some h => h.«end»
    | none => 0
  -- extend tail
  let tail1 : Option ValidPart := match st.valid_tail with
    | some t => some (t.merge new_part)
    | none => if new_part.start > head_end then some new_part else none
  -- does head spread to the end?
  let tail2 : Option ValidPart := match head1 with
    | some h => if h.«end» = st.total_size then some h else tail1
    | none => tail1
  -- head met with tail?
  match head1, tail2 with
  | some h, some t =>
    let h2 := h.merge t
    let t2 := t.merge h2
    { valid_head := some h2, valid_tail := some t2, total_size := st.total_size }
  | _, _ => { valid_head := head1, valid_tail := tail2, total_size := st.total_size }

/-- The default-constructed state of `PartialFile::create` once `convert` has stored the size. -/
def emptyState (total_size : Nat) : State :=
  { valid_head := none, valid_tail := none, total_size := total_size }

/-- The part that a dispatched sector publishes: sector `k` of a file of `total_size` bytes. -/
def sectorPart (total_size k : Nat) : ValidPart :=
  { start := k * SECTOR_SIZE, «end» := min ((k + 1) * SECTOR_SIZE) total_size }

/-- Whether byte offset `o` lies in the half-open range of `p`. -/
def ValidPart.contains (p : ValidPart) (o : Nat) : Bool :=
  decide (p.start ≤ o) && decide (o < p.«end»)

/-- Whether byte offset `o` lies in `valid_head ∪ valid_tail`. -/
def State.covers (st : State) (o : Nat) : Bool :=
  (match st.valid_head with
    | some h => h.contains o
    | none => false) ||
  (match st.valid_tail with
    | some t => t.contains o
    | none => false)

/-- The number of byte offsets of the file that lie in `valid_head ∪ valid_tail`. -/
def State.coveredCount (st : State) : Nat :=
  ((Finset.range st.total_size).filter (fun o => st.covers o = true)).card

/-- Apply `extend_valid_part` to a sequence of parts, in order. -/
def applyParts (st : State) (parts : List ValidPart) : State :=
  parts.foldl extend_valid_part st

/-- The parts of the sectors `first, first + 1, ..., first + count - 1`, ascending. -/
def sectorRun (total_size first count : Nat) : List ValidPart :=
  (List.range' first count).map (sectorPart total_size)

/-- The parts of the sectors that start in `[lo, hi)`, ascending (`lo` sector-aligned). -/
def sectorsOf (total_size lo hi : Nat) : List ValidPart :=
  sectorRun total_size (lo / SECTOR_SIZE)
    ((hi + (SECTOR_SIZE - 1)) / SECTOR_SIZE - lo / SECTOR_SIZE)

/-- A state whose only range is the head `{0, e}`, with the tail collapsed onto it once the
head reaches the end of the file. -/
def headOnly (total e : Nat) : State :=
  ⟨some ⟨0, e⟩, if e = total then some ⟨0, e⟩ else none, total⟩

/-- The head `{0, h}`, absent while `h = 0`. -/
def headOpt (h : Nat) : Option ValidPart := if h = 0 then none else some ⟨0, h⟩

/-- A head `{0, e}` below a finished tail `{t, total}`; both become `{0, total}` when they
meet. -/
def meetState (total e t : Nat) : State :=
  if e = t then ⟨some ⟨0, total⟩, some ⟨0, total⟩, total⟩
  else ⟨headOpt e, some ⟨t, total⟩, total⟩

/-- Whether `p` is a non-empty range inside a file of `total` bytes. -/
def ValidPart.within (p : ValidPart) (total : Nat) : Bool :=
  decide (p.start < p.«end») && decide (p.«end» ≤ total)

/-- Well-formedness of the tracker: present parts are non-empty and inside the file, the head
starts at 0, and head and tail are strictly separated or the same part. -/
def State.wellFormed (st : State) : Bool :=
  (match st.valid_head with
    | some h => h.within st.total_size && decide (h.start = 0)
    | none => true) &&
  (match st.valid_tail with
    | some t => t.within st.total_size
    | none => true) &&
  (match st.valid_head, st.valid_tail with
    | some h, some t => decide (h.«end» < t.start) || decide (h = t)
    | _, _ => true)

/-- While no head is tracked, offset 0 is not covered by the tail. -/
def State.anchored (st : State) : Bool :=
  match st.valid_head, st.valid_tail with
  | none, some t => decide (0 < t.start)
  | _, _ => true

/-- Parts are non-empty and inside the file, and the head starts at 0. -/
def State.partsValid (st : State) : Bool :=
  (match st.valid_head with
    | some h => h.within st.total_size && decide (h.start = 0)
    | none => true) &&
  (match st.valid_tail with
    | some t => t.within st.total_size
    | none => true)

/-- The first four steps of `extend_valid_part`: extend the head, extend the tail, collapse the
tail onto a head that reaches the end of the file. -/
def preMeet (st : State) (new_part : ValidPart) : State :=
  let head1 : Option ValidPart := match st.valid_head with
    | some h => some (h.merge new_part)
    | none => if new_part.start = 0 then some new_part else none
  let head_end := match head1 with
    | some h => h.«end»
    | none => 0
  let tail1 : Option ValidPart := match st.valid_tail with
    | some t => some (t.merge new_part)
    | none => if new_part.start > head_end then some new_part else none
  let tail2 : Option ValidPart := match head1 with
    | some h => if h.«end» = st.total_size then some h else tail1
    | none => tail1
  { valid_head := head1, valid_tail := tail2, total_size := st.total_size }

/-- The last step of `extend_valid_part`: merge head and tail into each other. -/
def meetParts (st : State) : State :=
  match st.valid_head, st.valid_tail with
  | some h, some t =>
    { valid_head := some (h.merge t), valid_tail := some (t.merge (h.merge t)),
      total_size := st.total_size }
  | _, _ => st

/-- The state reached from the empty state by the completions of the sectors `ks`, in order. -/
def sectorWrites (total_size : Nat) (ks : List Nat) : State :=
  applyParts (emptyState total_size) (ks.map (sectorPart total_size))

/-- A request of the pool, `UsbhMscRequest`: the fields the write path reads or writes.  The
request in slot `i` carries `i` in `callback_param2`. -/
structure UsbhMscRequest where
  sector_nbr : Nat
  data : List Nat
  deriving DecidableEq, Repr

/-- The class `PartialFile::SectorPool`: capacity, count of the counting semaphore, bitmap of
the acquired slots and the requests. -/
structure SectorPool where
  size : Nat
  semaphore : Nat
  slot_mask : Nat
  pool : List UsbhMscRequest
  deriving DecidableEq, Repr

/-- The class `PartialFile`, with the calls made to the environment so far: `pokes` counts the
`lseek` calls, `takes` the `xSemaphoreTake` calls, `submits` the `usbh_msc_submit_request`
calls and `submitted` lists the accepted requests with their slots. -/
structure PartialFile where
  sector_pool : SectorPool
  write_error : Bool
  first_sector_nbr : Nat
  current_sector : Option Nat
  current_offset : Nat
  state : State
  future_extend : List ValidPart
  pokes : Nat
  takes : Nat
  submits : Nat
  submitted : List (Nat × UsbhMscRequest)
  deriving DecidableEq, Repr

/-- The answers of the environment: whether the `n`-th `lseek(file_lock, 0, SEEK_SET)` succeeds,
whether the `n`-th `usbh_msc_submit_request` returns `USBH_OK`, and the completion callbacks
`(result == USBH_OK, slot)` that the USB thread runs before the `n`-th `xSemaphoreTake`
returns. -/
structure Env where
  lseek_ok : Nat → Bool
  submit_ok : Nat → Bool
  completions : Nat → List (Bool × Nat)

/-- What a call of `PartialFile::write` does: return a value, or end in `fatal_error`. -/
inductive WriteResult where
  | returned (value : Bool) (pf : PartialFile)
  | fatal_error
  deriving DecidableEq, Repr

/-- Count of trailing one bits among the lowest `w` bits. -/
def countr_one_aux : Nat → Nat → Nat
  | 0, _ => 0
  | w + 1, m => if m % 2 = 1 then countr_one_aux w (m / 2) + 1 else 0

/-- The function `std::countr_one` on a 32-bit value. -/
def countr_one (m : Nat) : Nat := countr_one_aux 32 m

/-- The constructor `SectorPool::SectorPool`: all permits free, the bits from `size` up set. -/
def SectorPool.init (size : Nat) : SectorPool :=
  { size := size
    semaphore := size
    slot_mask := (0xFFFFFFFF <<< size) % SIZE_MOD
    pool := List.replicate size ⟨0, List.replicate SECTOR_SIZE 0⟩ }

/-- The constructor `PartialFile::PartialFile`. -/
def PartialFile.init (size first_sector : Nat) (state : State) : PartialFile :=
  { sector_pool := SectorPool.init size
    write_error := false
    first_sector_nbr := first_sector
    current_sector := none
    current_offset := 0
    state := state
    future_extend := List.replicate size ⟨0, 0⟩
    pokes := 0
    takes := 0
    submits := 0
    submitted := [] }

/-- The request in slot `slot`, `pool[slot]`. -/
def SectorPool.request (p : SectorPool) (slot : Nat) : UsbhMscRequest :=
  p.pool.getD slot ⟨0, []⟩

/-- The method `SectorPool::get_available_slot`. -/
def SectorPool.get_available_slot (p : SectorPool) : Nat := countr_one p.slot_mask

/-- The call `xSemaphoreGive` on the counting semaphore, whose maximum count is `size`. -/
def SectorPool.xSemaphoreGive (p : SectorPool) : SectorPool :=
  { p with semaphore := if p.semaphore < p.size then p.semaphore + 1 else p.semaphore }

/-- The method `SectorPool::release`. -/
def SectorPool.release (p : SectorPool) (slot : Nat) : SectorPool :=
  SectorPool.xSemaphoreGive
    { p with slot_mask := p.slot_mask &&& (0xFFFFFFFF ^^^ ((1 <<< slot) % SIZE_MOD)) }

/-- The method `PartialFile::get_sector_nbr`. -/
def PartialFile.get_sector_nbr (pf : PartialFile) (offset : Nat) : Nat :=
  let sector := (pf.first_sector_nbr + offset / SECTOR_SIZE) % SIZE_MOD
  if offset ≥ pf.state.total_size then (sector + 1) % SIZE_MOD else sector

/-- The method `PartialFile::get_offset`. -/
def PartialFile.get_offset (pf : PartialFile) (sector_nbr : Nat) : Nat :=
  ((sector_nbr + SIZE_MOD - pf.first_sector_nbr) % SIZE_MOD * SECTOR_SIZE) % SIZE_MOD

/-- The method `PartialFile::usbh_msc_finished`, the completion callback. -/
def PartialFile.usbh_msc_finished (pf : PartialFile) (result_ok : Bool) (slot : Nat) :
    PartialFile :=
  let pf1 :=
    if result_ok ∧ ¬ pf.write_error then
      { pf with state := extend_valid_part pf.state (pf.future_extend.getD slot ⟨0, 0⟩) }
    else
      { pf with write_error := true }
  { pf1 with sector_pool := pf1.sector_pool.release slot }

/-- The call `xSemaphoreTake(semaphore, timeout)`: the USB thread runs the completions the
environment schedules, then the take passes iff a permit is there.  Under `portMAX_DELAY` a
take that does not pass stands for a wait that never ends. -/
def PartialFile.xSemaphoreTake (env : Env) (pf : PartialFile) : Bool × PartialFile :=
  let pf1 := (env.completions pf.takes).foldl
    (fun p c => p.usbh_msc_finished c.1 c.2) { pf with takes := pf.takes + 1 }
  if 0 < pf1.sector_pool.semaphore then
    (true, { pf1 with
      sector_pool := { pf1.sector_pool with semaphore := pf1.sector_pool.semaphore - 1 } })
  else
    (false, pf1)

/-- The method `SectorPool::acquire`; `none` is `nullptr`. -/
def PartialFile.acquire (env : Env) (pf : PartialFile) : Option Nat × PartialFile :=
  match pf.xSemaphoreTake env with
  | (false, pf1) => (none, pf1)
  | (true, pf1) =>
    let slot := pf1.sector_pool.get_available_slot
    let slot_mask := (pf1.sector_pool.slot_mask ||| (1 <<< slot)) % SIZE_MOD
    let pool := pf1.sector_pool.pool.modify
      (fun r => { r with data := List.replicate SECTOR_SIZE 0 }) slot
    (some slot, { pf1 with
      sector_pool := { pf1.sector_pool with slot_mask := slot_mask, pool := pool } })

/-- The method `PartialFile::discard_current_sector`. -/
def PartialFile.discard_current_sector (pf : PartialFile) : PartialFile :=
  match pf.current_sector with
  | some slot => { pf with sector_pool := pf.sector_pool.release slot, current_sector := none }
  | none => pf

/-- The method `PartialFile::seek`. -/
def PartialFile.seek (pf : PartialFile) (offset : Nat) : Bool × PartialFile :=
  let new_sector := pf.get_sector_nbr offset
  match pf.current_sector with
  | some slot =>
    if (pf.sector_pool.request slot).sector_nbr = new_sector then
      (true, { pf with current_offset := offset })
    else
      (true, PartialFile.discard_current_sector { pf with current_offset := offset })
  | none => (true, PartialFile.discard_current_sector { pf with current_offset := offset })

/-- The method `PartialFile::write_current_sector` for the current sector in slot `slot`. -/
def PartialFile.write_current_sector (env : Env) (pf : PartialFile) (slot : Nat) :
    Bool × PartialFile :=
  if env.lseek_ok pf.pokes = false then
    (false, { pf with pokes := pf.pokes + 1 })
  else
    let start := pf.get_offset (pf.sector_pool.request slot).sector_nbr
    let «end» := min ((start + SECTOR_SIZE) % SIZE_MOD) pf.state.total_size
    let pf1 := { pf with
      pokes := pf.pokes + 1,
      future_extend := pf.future_extend.set slot ⟨start, «end»⟩,
      submits := pf.submits + 1 }
    if env.submit_ok pf.submits = false then
      (false, pf1)
    else
      (true, { pf1 with submitted := pf1.submitted ++ [(slot, pf1.sector_pool.request slot)] })

/-- The call `memcpy(dst + offset, src, n)` on a buffer. -/
def memcpy (dst : List Nat) (offset : Nat) (src : List Nat) (n : Nat) : List Nat :=
  dst.take offset ++ src.take n ++ dst.drop (offset + n)

/-- Outcome of one pass through the body of the `while (size)` loop of `PartialFile::write`:
the call is over, or the loop goes on with the rest of the data. -/
inductive StepResult where
  | done (r : WriteResult)
  | next (pf : PartialFile) (rest : List Nat)
  deriving DecidableEq, Repr

/-- The block `if (!current_sector) { ... }` of the write loop: the slot of the current sector,
or the value with which `write` returns early. -/
def PartialFile.open_sector (env : Env) (pf : PartialFile) :
    WriteResult ⊕ (Nat × PartialFile) :=
  match pf.current_sector with
  | some slot => Sum.inr (slot, pf)
  | none =>
    if pf.current_offset ≥ pf.state.total_size then
      Sum.inl (WriteResult.returned false pf)
    else
      let sector_nbr := pf.get_sector_nbr pf.current_offset
      match pf.acquire env with
      | (none, pf1) => Sum.inl (WriteResult.returned false pf1)
      | (some slot, pf1) =>
        let pool := pf1.sector_pool.pool.modify (fun r => { r with sector_nbr := sector_nbr }) slot
        Sum.inr (slot, { pf1 with
          current_sector := some slot,
          sector_pool := { pf1.sector_pool with pool := pool } })

/-- The part `// advance` of the write loop: `seek`, then go on with the rest of the data. -/
def PartialFile.advance (pf : PartialFile) (data : List Nat) (write_size : Nat) : StepResult :=
  match pf.seek ((pf.current_offset + write_size) % SIZE_MOD) with
  | (false, pf1) => StepResult.done (WriteResult.returned false pf1)
  | (true, pf1) => StepResult.next pf1 (data.drop write_size)

/-- The part `// write data to the sector buffer` of the write loop, after the sector was opened:
the slot of the current sector, the state after the `memcpy` and `write_size`; or the value
with which `write` returns early. -/
def PartialFile.fill_sector (env : Env) (pf : PartialFile) (data : List Nat) :
    WriteResult ⊕ (Nat × PartialFile × Nat) :=
  match pf.open_sector env with
  | Sum.inl r => Sum.inl r
  | Sum.inr (slot, pf1) =>
    let sector_offset := pf1.current_offset % SECTOR_SIZE
    let sector_remaining := SECTOR_SIZE - sector_offset
    let write_size := min data.length sector_remaining
    let pool := pf1.sector_pool.pool.modify
      (fun r => { r with data := memcpy r.data sector_offset data write_size }) slot
    Sum.inr (slot, { pf1 with sector_pool := { pf1.sector_pool with pool := pool } }, write_size)

/-- The body of the `while (size)` loop of `PartialFile::write`, with `size = data.length`. -/
def PartialFile.write_step (env : Env) (pf : PartialFile) (data : List Nat) : StepResult :=
  match pf.fill_sector env data with
  | Sum.inl r => StepResult.done r
  | Sum.inr (slot, pf2, write_size) =>
    -- flush the sector if needed
    let next_offset := (pf2.current_offset + write_size) % SIZE_MOD
    let next_sector_nbr : Nat := pf2.get_sector_nbr next_offset
    if next_offset > pf2.state.total_size then
      StepResult.done WriteResult.fatal_error
    else if next_sector_nbr ≠ (pf2.sector_pool.request slot).sector_nbr then
      match pf2.write_current_sector env slot with
      | (true, pf3) => PartialFile.advance { pf3 with current_sector := none } data write_size
      | (false, pf3) => StepResult.done (WriteResult.returned false pf3)
    else
      PartialFile.advance pf2 data write_size

/-- The loop `while (size)` of `PartialFile::write`. -/
def PartialFile.write_loop (env : Env) (pf : PartialFile) (data : List Nat) : WriteResult :=
  if hd : data = [] then
    WriteResult.returned true pf
  else
    match hs : pf.write_step env data with
    | StepResult.done r => r
    | StepResult.next pf1 rest => PartialFile.write_loop env pf1 rest
termination_by data.length
decreasing_by
  have hlen : 0 < data.length := List.length_pos.2 hd
  have hadv : ∀ (p q : PartialFile) (n : Nat), 0 < n →
      PartialFile.advance p data n = StepResult.next q rest → rest.length < data.length := by
    intro p q n hn h
    simp only [PartialFile.advance] at h
    split at h
    · simp at h
    · simp only [StepResult.next.injEq] at h
      rw [← h.2, List.length_drop]
      omega
  have hfill : ∀ (slot : Nat) (p : PartialFile) (n : Nat),
      pf.fill_sector env data = Sum.inr (slot, p, n) → 0 < n := by
    intro slot p n h
    simp only [PartialFile.fill_sector] at h
    split at h
    · simp at h
    · simp only [Sum.inr.injEq, Prod.mk.injEq] at h
      rw [← h.2.2]
      simp only [SECTOR_SIZE]
      omega
  simp only [PartialFile.write_step] at hs
  split at hs
  · simp at hs
  · rename_i slot p n hf
    have hn := hfill slot p n hf
    split at hs
    · simp at hs
    · split at hs
      · split at hs
        · exact hadv _ _ _ hn hs
        · simp at hs
      · exact hadv _ _ _ hn hs

/-- The method `PartialFile::write`, with `size = data.length`. -/
def PartialFile.write (env : Env) (pf : PartialFile) (data : List Nat) : WriteResult :=
  if pf.write_error then
    WriteResult.returned false pf
  else
    pf.write_loop env data

/-- The first loop of `SectorPool::sync`: take up to `n` permits, stop at the first take that
does not pass; the count of permits taken comes with the state. -/
def PartialFile.takeMany (env : Env) : Nat → PartialFile → Nat × PartialFile
  | 0, pf => (0, pf)
  | n + 1, pf =>
    match pf.xSemaphoreTake env with
    | (true, pf1) =>
      let r := PartialFile.takeMany env n pf1
      (r.1 + 1, r.2)
    | (false, pf1) => (0, pf1)

/-- The second loop of `SectorPool::sync`: give `n` permits back. -/
def SectorPool.giveMany : Nat → SectorPool → SectorPool
  | 0, p => p
  | n + 1, p => SectorPool.giveMany n p.xSemaphoreGive

/-- The method `SectorPool::sync`.  With `force` every take waits without bound, so a take that
does not pass never returns and neither does `sync`: the result is `none`. -/
def PartialFile.pool_sync (env : Env) (pf : PartialFile) (avoid : Nat) (force : Bool) :
    Option (Bool × PartialFile) :=
  let block := pf.sector_pool.size - avoid
  let r := PartialFile.takeMany env block pf
  if force ∧ r.1 ≠ block then
    none
  else
    some (decide (block = r.1),
      { r.2 with sector_pool := SectorPool.giveMany r.1 r.2.sector_pool })

/-- The block `if (current_sector) { ... }` of `PartialFile::sync`: copy the current sector into
a fresh one and dispatch the current one.  The result is whether `sync` goes on, the state and
`sync_avoid`. -/
def PartialFile.sync_flush (env : Env) (pf : PartialFile) : Bool × PartialFile × Nat :=
  match pf.current_sector with
  | some cur =>
    match pf.acquire env with
    | (none, pf1) => (false, pf1, 1)
    | (some copied, pf1) =>
      let src := pf1.sector_pool.request cur
      let pool := pf1.sector_pool.pool.modify
        (fun r => { r with data := src.data, sector_nbr := src.sector_nbr }) copied
      let pf2 : PartialFile := { pf1 with sector_pool := { pf1.sector_pool with pool := pool } }
      match pf2.write_current_sector env cur with
      | (true, pf3) => (true, { pf3 with current_sector := some copied }, 1)
      | (false, pf3) =>
        (false, { pf3 with sector_pool := pf3.sector_pool.release copied }, 1)
  | none => (true, pf, 0)

/-- The method `PartialFile::sync`; `none` would be a `SectorPool::sync` that never returns. -/
def PartialFile.sync (env : Env) (pf : PartialFile) : Option (Bool × PartialFile) :=
  match pf.sync_flush env with
  | (false, pf1, _) => some (false, pf1)
  | (true, pf1, sync_avoid) =>
    match pf1.pool_sync env sync_avoid false with
    | none => none
    | some (false, pf2) => some (false, pf2)
    | some (true, pf2) => some (!pf2.write_error, pf2)

/-- The method `PartialFile::reset_error`; `none` when the forced `sync` never returns. -/
def PartialFile.reset_error (env : Env) (pf : PartialFile) : Option PartialFile :=
  match pf.discard_current_sector.pool_sync env 0 true with
  | none => none
  | some (_, pf1) => some { pf1 with write_error := false }

/-- The value a call returned, if it returned. -/
def WriteResult.returnedValue : WriteResult → Option Bool
  | WriteResult.returned v _ => some v
  | WriteResult.fatal_error => none

/-- The state a call left behind, if it returned. -/
def WriteResult.returnedFile : WriteResult → Option PartialFile
  | WriteResult.returned _ pf => some pf
  | WriteResult.fatal_error => none

/-- The fields of a `PartialFile` that neither a completion callback nor a semaphore call
touches. -/
def PartialFile.sameMainThread (a b : PartialFile) : Prop :=
  a.first_sector_nbr = b.first_sector_nbr ∧ a.current_sector = b.current_sector ∧
  a.current_offset = b.current_offset ∧ a.state.total_size = b.state.total_size ∧
  a.future_extend = b.future_extend ∧ a.pokes = b.pokes ∧ a.submits = b.submits ∧
  a.submitted = b.submitted ∧ a.sector_pool.size = b.sector_pool.size

/-- Every completion callback that the environment delivers reports `USBH_OK`. -/
def Env.completionsOk (env : Env) : Prop :=
  ∀ n, ∀ c ∈ env.completions n, c.1 = true

/-- What waiting on the semaphore can change from `a` to `b`: nothing the main thread owns; the
latch is never cleared, and it is not set when every completion reports `USBH_OK`. -/
def PartialFile.waited (env : Env) (a b : PartialFile) : Prop :=
  a.sameMainThread b ∧ (a.write_error = true → b.write_error = true) ∧
  (env.completionsOk → b.write_error = a.write_error)

/-- What opening and filling the current sector can change from `a` to `b`: none of the offsets,
counters and logs of the write path; the latch is never cleared, and it is not set when every
completion reports `USBH_OK`. -/
def PartialFile.opened (env : Env) (a b : PartialFile) : Prop :=
  a.first_sector_nbr = b.first_sector_nbr ∧ a.current_offset = b.current_offset ∧
  a.state.total_size = b.state.total_size ∧ a.future_extend = b.future_extend ∧
  a.pokes = b.pokes ∧ a.submits = b.submits ∧ a.submitted = b.submitted ∧
  (a.write_error = true → b.write_error = true) ∧
  (env.completionsOk → b.write_error = a.write_error) ∧
  (a.current_sector.isSome = true → b.state = a.state ∧ b.write_error = a.write_error)

/-- The slot, the state and `write_size` with which a pass of the write loop on `data` reaches
the part `// flush the sector if needed`. -/
def PartialFile.filled (env : Env) (pf : PartialFile) (data : List Nat) :
    Nat × PartialFile × Nat :=
  match pf.fill_sector env data with
  | Sum.inr x => x
  | Sum.inl _ => (0, pf, 0)

/-- Whether a pass of the write loop on `data` calls `write_current_sector`: a sector is open
and filled, the copy ends inside the file, and on another sector number. -/
def PartialFile.dispatches (env : Env) (pf : PartialFile) (data : List Nat) : Bool :=
  match pf.fill_sector env data with
  | Sum.inr (slot, pf2, write_size) =>
    decide (¬ (pf2.current_offset + write_size) % SIZE_MOD > pf2.state.total_size) &&
    decide (pf2.get_sector_nbr ((pf2.current_offset + write_size) % SIZE_MOD)
      ≠ (pf2.sector_pool.request slot).sector_nbr)
  | Sum.inl _ => false

/-- Whether a pass of the write loop on `data` ends in `fatal_error`: a sector is open and
filled and the copy ends beyond `total_size`. -/
def PartialFile.overruns (env : Env) (pf : PartialFile) (data : List Nat) : Bool :=
  match pf.fill_sector env data with
  | Sum.inr (_, pf2, write_size) =>
    decide ((pf2.current_offset + write_size) % SIZE_MOD > pf2.state.total_size)
  | Sum.inl _ => false

/-- The passes of the write loop: `LoopPass env pf data q rest` says that the loop started on
`data` in state `pf` begins a pass (or ends) with state `q` and `rest` still to write. -/
inductive LoopPass (env : Env) : PartialFile → List Nat → PartialFile → List Nat → Prop where
  | first (pf : PartialFile) (data : List Nat) : LoopPass env pf data pf data
  | later {pf q p : PartialFile} {data rest r : List Nat} (hd : data ≠ [])
      (hs : pf.write_step env data = StepResult.next q rest) (h : LoopPass env q rest p r) :
      LoopPass env pf data p r

/-- An environment in which every poke succeeds, every submission is refused and no completion
arrives. -/
def refusingEnv : Env :=
  { lseek_ok := fun _ => true, submit_ok := fun _ => false, completions := fun _ => [] }

/-- An environment in which every poke fails (the device was swapped), every submission would
succeed and no completion arrives. -/
def swappedEnv : Env :=
  { lseek_ok := fun _ => false, submit_ok := fun _ => true, completions := fun _ => [] }

/-- An environment in which every poke and submission succeeds and no completion arrives. -/
def quietEnv : Env :=
  { lseek_ok := fun _ => true, submit_ok := fun _ => true, completions := fun _ => [] }

/-! ## Readers of the valid ranges and the download order policies

`HeadSize`, `TailSize` (constants of `PlainGcodeDownloadOrder`) are declared in a header that
is not part of the sources at hand; they are parameters of the model. -/

/-- The method `PartialFile::get_state`. -/
def PartialFile.get_state (pf : PartialFile) : State := pf.state

/-- The method `PartialFile::final_size`. -/
def PartialFile.final_size (pf : PartialFile) : Nat := pf.state.total_size

/-- The method `PartialFile::get_valid_head`. -/
def PartialFile.get_valid_head (pf : PartialFile) : Option ValidPart := pf.state.valid_head

/-- The method `PartialFile::get_valid_tail`. -/
def PartialFile.get_valid_tail (pf : PartialFile) : Option ValidPart :=
  if pf.state.valid_tail.isSome then pf.state.valid_tail else none

/-- The method `PartialFile::has_valid_head`. -/
def PartialFile.has_valid_head (pf : PartialFile) (bytes : Nat) : Bool :=
  let st := pf.get_state
  match st.valid_head with
  | some h => decide (h.start = 0) && decide (h.«end» ≥ bytes)
  | none => false

/-- The method `PartialFile::has_valid_tail`; `st.total_size - bytes` is a `size_t`
subtraction. -/
def PartialFile.has_valid_tail (pf : PartialFile) (bytes : Nat) : Bool :=
  let st := pf.get_state
  match st.valid_tail with
  | some t =>
    decide (t.start ≤ (st.total_size + SIZE_MOD - bytes) % SIZE_MOD) &&
      decide (t.«end» = st.total_size)
  | none => false

/-- Once the head reaches the end of the file the tail is the same part. -/
def State.collapsed (st : State) : Bool :=
  match st.valid_head with
  | some h => decide (h.«end» ≠ st.total_size) || decide (st.valid_tail = some h)
  | none => true

/-- The enumeration `Transfer::Action`. -/
inductive Transfer.Action where
  | Continue
  | RangeJump
  | Finished
  deriving DecidableEq, Repr

/-- The enumeration `PlainGcodeDownloadOrder::State`. -/
inductive PlainGcodeDownloadOrder.State where
  | DownloadingHeader
  | DownloadingTail
  | DownloadedBase
  | DownloadingBody
  | Finished
  deriving DecidableEq, Repr

/-- The class `Transfer::PlainGcodeDownloadOrder`. -/
structure PlainGcodeDownloadOrder where
  state : PlainGcodeDownloadOrder.State
  deriving DecidableEq, Repr

/-- The constructor `PlainGcodeDownloadOrder::PlainGcodeDownloadOrder(const PartialFile &)`. -/
def PlainGcodeDownloadOrder.new (HeadSize TailSize : Nat) (file : PartialFile) :
    PlainGcodeDownloadOrder :=
  if file.has_valid_head HeadSize then
    if file.has_valid_tail TailSize then
      if file.get_state.get_valid_size = file.final_size then
        { state := PlainGcodeDownloadOrder.State.Finished }
      else
        { state := PlainGcodeDownloadOrder.State.DownloadedBase }
    else
      { state := PlainGcodeDownloadOrder.State.DownloadingTail }
  else
    { state := PlainGcodeDownloadOrder.State.DownloadingHeader }

/-- The method `PlainGcodeDownloadOrder::step`: the action and the order afterwards. -/
def PlainGcodeDownloadOrder.step (HeadSize TailSize : Nat) (self : PlainGcodeDownloadOrder)
    (file : PartialFile) : Transfer.Action × PlainGcodeDownloadOrder :=
  match self.state with
  | PlainGcodeDownloadOrder.State.DownloadingHeader =>
    if file.has_valid_head HeadSize then
      (Transfer.Action.RangeJump, { state := PlainGcodeDownloadOrder.State.DownloadingTail })
    else
      (Transfer.Action.Continue, self)
  | PlainGcodeDownloadOrder.State.DownloadingTail =>
    if file.has_valid_tail TailSize then
      (Transfer.Action.RangeJump, { state := PlainGcodeDownloadOrder.State.DownloadedBase })
    else
      (Transfer.Action.Continue, self)
  | PlainGcodeDownloadOrder.State.DownloadedBase =>
    (Transfer.Action.Continue, { state := PlainGcodeDownloadOrder.State.DownloadingBody })
  | PlainGcodeDownloadOrder.State.DownloadingBody =>
    if file.final_size = file.get_state.get_valid_size then
      (Transfer.Action.Finished, { state := PlainGcodeDownloadOrder.State.Finished })
    else
      (Transfer.Action.Continue, self)
  | PlainGcodeDownloadOrder.State.Finished => (Transfer.Action.Finished, self)

/-- The method `PlainGcodeDownloadOrder::get_next_offset`; `none` where the code reads
`file.get_valid_head()->end` of an empty optional. -/
def PlainGcodeDownloadOrder.get_next_offset (TailSize : Nat) (self : PlainGcodeDownloadOrder)
    (file : PartialFile) : Option Nat :=
  match self.state with
  | PlainGcodeDownloadOrder.State.DownloadingHeader =>
    match file.get_valid_head with
    | some head => some head.«end»
    | none => some 0
  | PlainGcodeDownloadOrder.State.DownloadingTail =>
    match file.get_valid_tail with
    | some tail => some tail.«end»
    | none => some ((file.final_size + SIZE_MOD - TailSize) % SIZE_MOD)
  | PlainGcodeDownloadOrder.State.DownloadingBody
  | PlainGcodeDownloadOrder.State.DownloadedBase
  | PlainGcodeDownloadOrder.State.Finished =>
    match file.get_valid_head with
    | some head => some head.«end»
    | none => none

/-- Position of a state in the chain `DownloadingHeader → DownloadingTail → DownloadedBase →
DownloadingBody → Finished`. -/
def PlainGcodeDownloadOrder.State.rank : PlainGcodeDownloadOrder.State → Nat
  | PlainGcodeDownloadOrder.State.DownloadingHeader => 0
  | PlainGcodeDownloadOrder.State.DownloadingTail => 1
  | PlainGcodeDownloadOrder.State.DownloadedBase => 2
  | PlainGcodeDownloadOrder.State.DownloadingBody => 3
  | PlainGcodeDownloadOrder.State.Finished => 4

/-- A run of the policy: `step` is called on successive snapshots of the file; the actions
returned, in order, and the order at the end. -/
def PlainGcodeDownloadOrder.run (HeadSize TailSize : Nat) :
    PlainGcodeDownloadOrder → List PartialFile → List Transfer.Action × PlainGcodeDownloadOrder
  | o, [] => ([], o)
  | o, f :: fs =>
    let r := PlainGcodeDownloadOrder.run HeadSize TailSize (o.step HeadSize TailSize f).2 fs
    ((o.step HeadSize TailSize f).1 :: r.1, r.2)

/-- The file `b` is the file `a` after further sector completions: its state is that of `a`
extended by some parts. -/
def PartialFile.grownFrom (a b : PartialFile) : Prop :=
  ∃ parts : List ValidPart, b.state = applyParts a.state parts

/-- The snapshots `fs` of a file that starts as `f` and whose valid ranges only grow. -/
def growing : PartialFile → List PartialFile → Prop
  | _, [] => True
  | f, g :: gs => f.grownFrom g ∧ growing g gs

/-- The class `Transfer::GenericFileDownloadOrder`. -/
structure GenericFileDownloadOrder where
  deriving DecidableEq, Repr

/-- The method `GenericFileDownloadOrder::step`. -/
def GenericFileDownloadOrder.step (_self : GenericFileDownloadOrder) (file : PartialFile) :
    Transfer.Action :=
  if file.final_size = file.get_state.get_valid_size then
    Transfer.Action.Finished
  else
    Transfer.Action.Continue

/-- The method `GenericFileDownloadOrder::get_next_offset`. -/
def GenericFileDownloadOrder.get_next_offset (_self : GenericFileDownloadOrder)
    (file : PartialFile) : Nat :=
  match file.get_valid_head with
  | some head => head.«end»
  | none => 0

/-- The last snapshot of a file that starts as `f` and then takes the values `fs`. -/
def lastSnapshot : PartialFile → List PartialFile → PartialFile
  | f, [] => f
  | _, g :: gs => lastSnapshot g gs

/-- Starts of the tracked parts are multiples of the sector size. -/
def State.startsAligned (st : State) : Bool :=
  (match st.valid_head with
    | some h => decide (h.start % SECTOR_SIZE = 0)
    | none => true) &&
  (match st.valid_tail with
    | some t => decide (t.start % SECTOR_SIZE = 0)
    | none => true)

/-! ## The transfer controller

Of `Transfer` the members that `recoverable_failure`, `done` and the range computation of
`restart_download` read or write are modelled.  Calls on the monitor slot and on the backup
file are recorded, in order, in `effects`. -/

/-- The variant `Transfer::DownloadOrder`. -/
inductive DownloadOrder where
  | plain (order : PlainGcodeDownloadOrder)
  | generic (order : GenericFileDownloadOrder)
  deriving DecidableEq, Repr

/-- The call `std::visit([&](auto &&arg) { return arg.get_next_offset(*partial_file); },
*order)`. -/
def DownloadOrder.get_next_offset (TailSize : Nat) (order : DownloadOrder)
    (file : PartialFile) : Option Nat :=
  match order with
  | DownloadOrder.plain o => o.get_next_offset TailSize file
  | DownloadOrder.generic o => some (o.get_next_offset file)

/-- The arguments `position` and `end_range` that `Transfer::restart_download` passes to
`Download::begin`; `tail_aligned` records the value of the assertion
`tail->start % SECTOR_SIZE == 0` where it is evaluated (`true` elsewhere). -/
structure DownloadRange where
  position : Nat
  end_range : Option Nat
  tail_aligned : Bool
  deriving DecidableEq, Repr

/-- The range computation of `Transfer::restart_download`, from the value `next_offset` of
`get_next_offset`; `position` and `end_range` are `uint32_t`. -/
def Transfer.restart_download_range (next_offset : Nat) (partial_file : PartialFile) :
    DownloadRange :=
  let position := next_offset % SIZE_MOD
  let position := position / SECTOR_SIZE * SECTOR_SIZE % SIZE_MOD
  match partial_file.get_valid_tail with
  | some tail =>
    if tail.«end» = partial_file.final_size ∧ position < tail.start then
      { position := position
        end_range := some ((tail.start + SIZE_MOD - 1) % SIZE_MOD)
        tail_aligned := decide (tail.start % SECTOR_SIZE = 0) }
    else
      { position := position, end_range := none, tail_aligned := true }
  | none => { position := position, end_range := none, tail_aligned := true }

/-- The enumeration `Transfer::State`. -/
inductive Transfer.State where
  | Downloading
  | Retrying
  | Finished
  | Failed
  deriving DecidableEq, Repr

/-- The values of `Monitor::Outcome` that `transfer.cpp` passes to `done`. -/
inductive Monitor.Outcome where
  | Finished
  | Error
  | Stopped
  deriving DecidableEq, Repr

/-- A call on the monitor slot or on the backup file. -/
inductive Transfer.Effect where
  | slot_progress (state : transfers.State) (reset_estimate : Bool)
  | slot_done (outcome : Monitor.Outcome)
  | remove_backup
  | cleanup_finalize
  | truncate_backup
  deriving DecidableEq, Repr

/-- The class `Transfer`; `download` holds the range of the running `Download`. -/
structure Transfer where
  state : Transfer.State
  download : Option DownloadRange
  order : Option DownloadOrder
  partial_file : Option PartialFile
  retries_left : Nat
  restart_requested_by_jump : Bool
  is_printable : Bool
  effects : List Transfer.Effect

/-- The method `Transfer::done`. -/
def Transfer.done (self : Transfer) (state : Transfer.State) (outcome : Monitor.Outcome) :
    Transfer :=
  let t1 := { self with state := state, download := none, partial_file := none }
  let t2 :=
    if state = Transfer.State.Finished then
      let t := { t1 with effects := t1.effects ++ [Transfer.Effect.remove_backup] }
      if !t.is_printable then
        { t with effects := t.effects ++ [Transfer.Effect.cleanup_finalize] }
      else t
    else
      { t1 with effects := t1.effects ++ [Transfer.Effect.truncate_backup] }
  { t2 with effects := t2.effects ++ [Transfer.Effect.slot_done outcome] }

/-- The method `Transfer::recoverable_failure`; `none` where the code reads
`partial_file->get_state()` of an empty pointer. -/
def Transfer.recoverable_failure (self : Transfer) (is_printing : Bool) : Option Transfer :=
  if self.retries_left > 0 then
    let t1 := if !is_printing then { self with retries_left := self.retries_left - 1 } else self
    match t1.partial_file with
    | none => none
    | some pf =>
      some { t1 with
        effects := t1.effects ++ [Transfer.Effect.slot_progress pf.get_state true],
        state := Transfer.State.Retrying,
        restart_requested_by_jump := false,
        download := none }
  else
    some (self.done Transfer.State.Failed Monitor.Outcome.Error)

/-! ## The sector pool on its own

The pool as the pair of the bitmap and the count of the semaphore, driven by a sequence of
`acquire()` and `release(i)` calls (the releases of the USB thread are calls of the
sequence). -/

/-- The method `SectorPool::acquire` on the pool alone: the take passes iff a permit is there;
`none` is `nullptr`. -/
def SectorPool.acquire (p : SectorPool) : Option Nat × SectorPool :=
  if 0 < p.semaphore then
    let p1 : SectorPool := { p with semaphore := p.semaphore - 1 }
    let slot := p1.get_available_slot
    (some slot, { p1 with
      slot_mask := (p1.slot_mask ||| (1 <<< slot)) % SIZE_MOD,
      pool := p1.pool.modify (fun r => { r with data := List.replicate SECTOR_SIZE 0 }) slot })
  else
    (none, p)

/-- A call on the pool. -/
inductive SectorPool.Call where
  | acquire
  | release (slot : Nat)
  deriving DecidableEq, Repr

/-- Whether slot `i` is acquired: its bit is set in the bitmap. -/
def SectorPool.acquired (p : SectorPool) (i : Nat) : Bool :=
  decide (i < p.size) && p.slot_mask.testBit i

/-- The number of acquired slots. -/
def SectorPool.acquiredCount (p : SectorPool) : Nat :=
  ((Finset.range p.size).filter (fun i => p.slot_mask.testBit i = true)).card

/-- The pool after one call. -/
def SectorPool.call (p : SectorPool) : SectorPool.Call → SectorPool
  | SectorPool.Call.acquire => p.acquire.2
  | SectorPool.Call.release slot => p.release slot

/-- The pool after a sequence of calls. -/
def SectorPool.run (p : SectorPool) (calls : List SectorPool.Call) : SectorPool :=
  calls.foldl SectorPool.call p

/-- Every `release(i)` of the sequence targets a slot that is acquired when it is called. -/
def SectorPool.legal : SectorPool → List SectorPool.Call → Prop
  | _, [] => True
  | p, SectorPool.Call.acquire :: cs => SectorPool.legal (p.call SectorPool.Call.acquire) cs
  | p, SectorPool.Call.release slot :: cs =>
    p.acquired slot = true ∧ SectorPool.legal (p.call (SectorPool.Call.release slot)) cs

/-- The bitmap is a 32-bit value whose bits from `size` up are set, and the permits of the
semaphore are the slots that are not acquired. -/
def SectorPool.consistent (p : SectorPool) : Prop :=
  p.size < 32 ∧ p.slot_mask < SIZE_MOD ∧
  (∀ i, p.size ≤ i → i < 32 → p.slot_mask.testBit i = true) ∧
  p.acquiredCount + p.semaphore = p.size

/-! ## Transfers on the file system

The file system is an explicit state: the nodes at the names that `Transfer` uses.  An
operation succeeds iff the state allows it; `fopen` for writing, whose result `begin` does not
always check, fails also when the drive does not carry it out, which the caller of the model
supplies.  `Path`, `next_in_index`, `Monitor::allocate`, `Transfer::make_backup`,
`get_SFN_path` and `crc32_calc` are not among the sources at hand: `Path` is the destination
with its three names, the others are answered by parameters. -/

/-- A name on the drive: the destination `D` of a transfer, its partial file `D/p`, its backup
file `D/b`, the temporary file of `cleanup_finalize` and the transfer index. -/
inductive FsName where
  | destination (d : Nat)
  | partial_file (d : Nat)
  | backup_file (d : Nat)
  | temporary
  | transfer_index
  deriving DecidableEq, Repr

/-- A node of the file system: a regular file with its size, open elsewhere or not, or a
directory, holding entries beside `p` and `b` or not. -/
inductive Node where
  | file (size : Nat) (in_use : Bool)
  | dir (others : Bool)
  deriving DecidableEq, Repr

/-- The state of the file system. -/
def Fs : Type := FsName → Option Node

/-- The class `Path`: the bundle of names derived from one destination. -/
structure Path where
  dir : Nat
  deriving DecidableEq, Repr

/-- The method `Path::as_destination`. -/
def Path.as_destination (p : Path) : FsName := FsName.destination p.dir

/-- The method `Path::as_partial`. -/
def Path.as_partial (p : Path) : FsName := FsName.partial_file p.dir

/-- The method `Path::as_backup`. -/
def Path.as_backup (p : Path) : FsName := FsName.backup_file p.dir

/-- The file system with the node at `n` replaced. -/
def Fs.set (fs : Fs) (n : FsName) (v : Option Node) : Fs :=
  fun m => if m = n then v else fs m

/-- Whether the directory that holds `n` is there. -/
def Fs.parent_ok (fs : Fs) : FsName → Bool
  | FsName.partial_file d =>
    match fs (FsName.destination d) with
    | some (Node.dir _) => true
    | _ => false
  | FsName.backup_file d =>
    match fs (FsName.destination d) with
    | some (Node.dir _) => true
    | _ => false
  | _ => true

/-- Whether `stat_retry(n, &st) == 0 && S_ISREG(st.st_mode)`. -/
def Fs.is_regular (fs : Fs) (n : FsName) : Bool :=
  match fs n with
  | some (Node.file _ _) => true
  | _ => false

/-- The field `st_size` of a regular file. -/
def Fs.st_size (fs : Fs) (n : FsName) : Nat :=
  match fs n with
  | some (Node.file size _) => size
  | _ => 0

/-- The call `remove(n) == 0`: unlinks a regular file that is not in use. -/
def Fs.remove (fs : Fs) (n : FsName) : Bool × Fs :=
  match fs n with
  | some (Node.file _ false) => (true, fs.set n none)
  | _ => (false, fs)

/-- Whether the directory `n` holds a partial or a backup file. -/
def Fs.has_children (fs : Fs) : FsName → Bool
  | FsName.destination d =>
    (fs (FsName.partial_file d)).isSome || (fs (FsName.backup_file d)).isSome
  | _ => false

/-- The call `rmdir(n) == 0`: removes an empty directory. -/
def Fs.rmdir (fs : Fs) (n : FsName) : Bool × Fs :=
  match fs n with
  | some (Node.dir false) =>
    if fs.has_children n then (false, fs) else (true, fs.set n none)
  | _ => (false, fs)

/-- The call `rename(a, b) == 0`: moves a regular file that is not in use to a free name. -/
def Fs.rename (fs : Fs) (a b : FsName) : Bool × Fs :=
  match fs a, fs b with
  | some (Node.file size false), none =>
    if fs.parent_ok b then
      (true, (fs.set a none).set b (some (Node.file size false)))
    else
      (false, fs)
  | _, _ => (false, fs)

/-- The call `mkdir(n, 0777) == 0`. -/
def Fs.mkdir (fs : Fs) (n : FsName) : Bool × Fs :=
  match fs n with
  | none => if fs.parent_ok n then (true, fs.set n (some (Node.dir false))) else (false, fs)
  | some _ => (false, fs)

/-- The call `fopen(n, "w")` (or `"w+"`) with the handle closed again: creates the file empty or
truncates it, and tells whether a handle was returned.  `drive_ok` is whether the drive carries
the call out; when it does not, or the state does not allow the call, `fopen` returns `NULL`
and the drive is unchanged. -/
def Fs.create (fs : Fs) (n : FsName) (drive_ok : Bool) : Bool × Fs :=
  if drive_ok = false then (false, fs)
  else
    match fs n with
    | some (Node.dir _) => (false, fs)
    | some (Node.file _ true) => (false, fs)
    | _ => if fs.parent_ok n then (true, fs.set n (some (Node.file 0 false))) else (false, fs)

/-- The calls `fopen(n, "a")` and `fprintf` of `len` bytes. -/
def Fs.append (fs : Fs) (n : FsName) (len : Nat) : Bool × Fs :=
  match fs n with
  | some (Node.dir _) => (false, fs)
  | some (Node.file size in_use) => (true, fs.set n (some (Node.file (size + len) in_use)))
  | none => if fs.parent_ok n then (true, fs.set n (some (Node.file len false))) else (false, fs)

/-- A partial or backup file lies in a directory. -/
def Fs.consistent (fs : Fs) : Prop :=
  ∀ d, fs.parent_ok (FsName.partial_file d) = false →
    fs (FsName.partial_file d) = none ∧ fs (FsName.backup_file d) = none

/-- The enumeration `ChangedPath::Incident`, as far as `transfer.cpp` reports it. -/
inductive ChangedPath.Incident where
  | Created
  | Deleted
  deriving DecidableEq, Repr

/-- The drive and the notifications `ChangedPath::instance.changed_path(D, File, incident)`
sent so far, as pairs of the destination and the incident. -/
structure World where
  fs : Fs
  events : List (Nat × ChangedPath.Incident)

/-- The method `Transfer::cleanup_finalize`; `sfn_crc fs d` is the checksum of the short file
name path of destination `d` on the drive `fs`. -/
def Transfer.cleanup_finalize (sfn_crc : Fs → Nat → Nat) (w : World) (transfer_path : Path) :
    Bool × World :=
  let fs0 := (w.fs.remove FsName.temporary).2
  let old_SFN_crc := sfn_crc fs0 transfer_path.dir
  match fs0.rename transfer_path.as_partial FsName.temporary with
  | (false, fs1) => (false, { w with fs := fs1 })
  | (true, fs1) =>
    match fs1.rmdir transfer_path.as_destination with
    | (false, fs2) => (false, { w with fs := fs2 })
    | (true, fs2) =>
      match fs2.rename FsName.temporary transfer_path.as_destination with
      | (false, fs3) => (false, { w with fs := fs3 })
      | (true, fs3) =>
        let new_SFN_crc := sfn_crc fs3 transfer_path.dir
        if old_SFN_crc ≠ new_SFN_crc then
          (true, { fs := fs3, events := w.events ++
            [(transfer_path.dir, ChangedPath.Incident.Deleted),
             (transfer_path.dir, ChangedPath.Incident.Created)] })
        else
          (true, { fs := fs3, events := w.events ++
            [(transfer_path.dir, ChangedPath.Incident.Created)] })

/-- The method `Transfer::cleanup_remove`. -/
def Transfer.cleanup_remove (w : World) (path : Path) : Bool × World :=
  match w.fs.remove path.as_partial with
  | (false, fs1) => (false, { w with fs := fs1 })
  | (true, fs1) =>
    match fs1.remove path.as_backup with
    | (false, fs2) => (false, { w with fs := fs2 })
    | (true, fs2) =>
      match fs2.rmdir path.as_destination with
      | (false, fs3) => (false, { w with fs := fs3 })
      | (true, fs3) =>
        (true, { fs := fs3,
                 events := w.events ++ [(path.dir, ChangedPath.Incident.Deleted)] })

/-- The enumeration `IndexIter`, the result of `next_in_index`; `Ok` comes with the path read. -/
inductive IndexIter where
  | Ok (transfer_path : Path)
  | Skip
  | IndividualError
  | FatalError
  | Eof
  deriving DecidableEq, Repr

/-- The block `case IndexIter::Ok` of `Transfer::cleanup_transfers`: the flags `all_ok` and
`can_cleanup` and the drive afterwards. -/
def Transfer.cleanup_case_ok (sfn_crc : Fs → Nat → Nat) (all_ok can_cleanup : Bool) (w : World)
    (transfer_path : Path) : Bool × Bool × World :=
  let backup_file_found := w.fs.is_regular transfer_path.as_backup
  let backup_is_empty := backup_file_found && decide (w.fs.st_size transfer_path.as_backup = 0)
  let partial_file_found := w.fs.is_regular transfer_path.as_partial
  if partial_file_found && !backup_file_found then
    match Transfer.cleanup_finalize sfn_crc w transfer_path with
    | (false, w1) => (false, can_cleanup, w1)
    | (true, w1) => (all_ok, can_cleanup, w1)
  else if partial_file_found && backup_is_empty then
    match Transfer.cleanup_remove w transfer_path with
    | (false, w1) => (false, can_cleanup, w1)
    | (true, w1) => (all_ok, can_cleanup, w1)
  else if partial_file_found && backup_file_found then
    (all_ok, false, w)
  else
    (all_ok, can_cleanup, w)

/-- The loop `for (;;)` of `Transfer::cleanup_transfers` over the results `reads` of the
successive `next_in_index` calls; after the last result listed the index is at its end. -/
def Transfer.cleanup_loop (sfn_crc : Fs → Nat → Nat) :
    List IndexIter → Bool → Bool → World → Bool × Bool × World
  | [], all_ok, can_cleanup, w => (all_ok, can_cleanup, w)
  | IndexIter.Ok transfer_path :: reads, all_ok, can_cleanup, w =>
    let r := Transfer.cleanup_case_ok sfn_crc all_ok can_cleanup w transfer_path
    Transfer.cleanup_loop sfn_crc reads r.1 r.2.1 r.2.2
  | IndexIter.Skip :: reads, all_ok, can_cleanup, w =>
    Transfer.cleanup_loop sfn_crc reads all_ok can_cleanup w
  | IndexIter.IndividualError :: reads, _, can_cleanup, w =>
    Transfer.cleanup_loop sfn_crc reads false can_cleanup w
  | IndexIter.FatalError :: _, _, can_cleanup, w => (false, can_cleanup, w)
  | IndexIter.Eof :: _, all_ok, can_cleanup, w => (all_ok, can_cleanup, w)

/-- The method `Transfer::cleanup_transfers`. -/
def Transfer.cleanup_transfers (sfn_crc : Fs → Nat → Nat) (reads : List IndexIter)
    (w : World) : Bool × World :=
  if w.fs.is_regular FsName.transfer_index = false then
    (false, w)
  else
    let r := Transfer.cleanup_loop sfn_crc reads true true w
    if r.1 && r.2.1 then
      (r.1, { r.2.2 with fs := (r.2.2.fs.remove FsName.transfer_index).2 })
    else
      (r.1, r.2.2)

/-- What `cleanup_transfers` is to do with an entry, in the words of the specification. -/
inductive CleanupAction where
  | finalize
  | remove
  | leave_in_progress
  | nothing
  deriving DecidableEq, Repr

/-- The action for the entry `D`, from (partial is a regular file, backup is a regular file,
backup size). -/
def CleanupAction.of (fs : Fs) (path : Path) : CleanupAction :=
  if fs.is_regular path.as_partial = false then CleanupAction.nothing
  else if fs.is_regular path.as_backup = false then CleanupAction.finalize
  else if fs.st_size path.as_backup = 0 then CleanupAction.remove
  else CleanupAction.leave_in_progress

/-- The entry of the record of a cleanup run for one result of `next_in_index`: whether it was
a read error or a failed action, and whether it was an entry still in progress. -/
structure CleanupRecord where
  failed : Bool
  in_progress : Bool
  deriving DecidableEq, Repr

/-- The record of a cleanup run over `reads`, one entry per result that the loop handles, in
the words of the specification: a read error or a failed `cleanup_finalize` or
`cleanup_remove` counts as failed, an entry with a partial file and a non-empty backup as in
progress; the run stops after `FatalError` and at `Eof`. -/
def cleanupRecords (sfn_crc : Fs → Nat → Nat) : List IndexIter → World → List CleanupRecord
  | [], _ => []
  | IndexIter.Ok path :: reads, w =>
    match CleanupAction.of w.fs path with
    | CleanupAction.finalize =>
      ⟨!(Transfer.cleanup_finalize sfn_crc w path).1, false⟩ ::
        cleanupRecords sfn_crc reads (Transfer.cleanup_finalize sfn_crc w path).2
    | CleanupAction.remove =>
      ⟨!(Transfer.cleanup_remove w path).1, false⟩ ::
        cleanupRecords sfn_crc reads (Transfer.cleanup_remove w path).2
    | CleanupAction.leave_in_progress => ⟨false, true⟩ :: cleanupRecords sfn_crc reads w
    | CleanupAction.nothing => ⟨false, false⟩ :: cleanupRecords sfn_crc reads w
  | IndexIter.Skip :: reads, w => ⟨false, false⟩ :: cleanupRecords sfn_crc reads w
  | IndexIter.IndividualError :: reads, w => ⟨true, false⟩ :: cleanupRecords sfn_crc reads w
  | IndexIter.FatalError :: _, _ => [⟨true, false⟩]
  | IndexIter.Eof :: _, _ => []

/-- The result of `Download::begin`. -/
inductive DownloadBegin where
  | Download
  | AlreadyExists
  | RefusedRequest
  | Storage
  deriving DecidableEq, Repr

/-- The result of `Transfer::begin`. -/
inductive BeginResult where
  | Transfer
  | NoTransferSlot
  | AlreadyExists
  | Storage
  | RefusedRequest
  deriving DecidableEq, Repr

/-- The answers that `Transfer::begin` gets from outside the drive: whether the monitor has a
slot, the length of the line for the index, whether the drive carries out the first `fopen` of
the backup, how `Download::begin` ends and, when it fails, what it leaves at the name of the
partial file (nothing, or a file of some size that is still in use or not), the size the
server declares, whether the drive carries out the second `fopen` of the backup, and whether
`make_backup` succeeds and with how many bytes written. -/
structure BeginEnv where
  slot_available : Bool
  index_line : Nat
  backup_opened : Bool
  download : DownloadBegin
  partial_left : Option (Nat × Bool)
  file_size : Nat
  backup_reopened : Bool
  make_backup_ok : Bool
  backup_size : Nat

/-- Modelled from the spec: `Download::begin(request, path.as_partial())` "creates/opens the
partial file of declared size"; a successful download holds the file open.  What a failed
download leaves at the name of the partial file is not said: it is `env.partial_left`, as far
as a file can be created there. -/
def Download.begin (env : BeginEnv) (fs : Fs) (path : Path) : DownloadBegin × Fs :=
  match env.download with
  | DownloadBegin.Download =>
    match fs.create path.as_partial true with
    | (true, fs1) =>
      (DownloadBegin.Download, fs1.set path.as_partial (some (Node.file env.file_size true)))
    | (false, fs1) => (DownloadBegin.Storage, fs1)
  | failure =>
    match env.partial_left with
    | none => (failure, fs)
    | some (size, in_use) =>
      match fs.create path.as_partial true with
      | (true, fs1) => (failure, fs1.set path.as_partial (some (Node.file size in_use)))
      | (false, fs1) => (failure, fs1)

/-- The method `Transfer::store_transfer_index`. -/
def Transfer.store_transfer_index (fs : Fs) (line : Nat) : Bool × Fs :=
  match fs.append FsName.transfer_index line with
  | (false, fs1) => (false, fs1)
  | (true, fs1) => (decide (0 < line), fs1)

/-- The method `Transfer::begin`: its result and the states of the drive from the call on, one
after each operation on the drive, in order. -/
def Transfer.begin (env : BeginEnv) (fs0 : Fs) (path : Path) : BeginResult × List Fs :=
  if env.slot_available = false then
    (BeginResult.NoTransferSlot, [fs0])
  else if (fs0 path.as_destination).isSome then
    (BeginResult.AlreadyExists, [fs0])
  else
    match fs0.mkdir path.as_destination with
    | (false, fs1) => (BeginResult.Storage, [fs0, fs1])
    | (true, fs1) =>
      match Transfer.store_transfer_index fs1 env.index_line with
      | (false, fs2) => (BeginResult.Storage, [fs0, fs1, fs2])
      | (true, fs2) =>
        let fs3 := (fs2.create path.as_backup env.backup_opened).2
        match Download.begin env fs3 path with
        | (DownloadBegin.Download, fs4) =>
          match fs4.create path.as_backup env.backup_reopened with
          | (false, fs5) => (BeginResult.Storage, [fs0, fs1, fs2, fs3, fs4, fs5])
          | (true, fs5) =>
            if env.make_backup_ok then
              (BeginResult.Transfer, [fs0, fs1, fs2, fs3, fs4, fs5,
                fs5.set path.as_backup (some (Node.file env.backup_size false))])
            else
              (BeginResult.Storage, [fs0, fs1, fs2, fs3, fs4, fs5,
                fs5.set path.as_backup (some (Node.file env.backup_size false))])
        | (failure, fs4) =>
          let fs5 := (fs4.remove path.as_partial).2
          let fs6 := (fs5.remove path.as_backup).2
          let fs7 := (fs6.rmdir path.as_destination).2
          (match failure with
            | DownloadBegin.AlreadyExists => BeginResult.AlreadyExists
            | DownloadBegin.RefusedRequest => BeginResult.RefusedRequest
            | _ => BeginResult.Storage,
           [fs0, fs1, fs2, fs3, fs4, fs5, fs6, fs7])

/-- The partial file of `path` is absent, or its backup is a regular file: a cleanup will not
take the partial file for a complete one. -/
def Fs.backed (fs : Fs) (path : Path) : Prop :=
  fs path.as_partial = none ∨ ∃ size in_use, fs path.as_backup = some (Node.file size in_use)

/-! ## Passes of the write loop and the sectors they submit -/

/-- Whether a pass of the write loop goes on with the loop. -/
def StepResult.isNext : StepResult → Bool
  | StepResult.next _ _ => true
  | StepResult.done _ => false

/-- The state with which the loop goes on after a pass, if it does. -/
def StepResult.nextFile : StepResult → Option PartialFile
  | StepResult.next pf _ => some pf
  | StepResult.done _ => none

/-- An environment in which every poke and submission succeeds and the completion of slot 0
arrives, with `USBH_OK`, during the third take of the semaphore. -/
def syncEnv : Env :=
  { lseek_ok := fun _ => true
    submit_ok := fun _ => true
    completions := fun n => if n = 2 then [(true, 0)] else [] }

/-- The open sector, if any, is a request of the pool that was acquired for the sector of
`current_offset`, inside the file; and `future_extend` has a place for every request. -/
def PartialFile.sectorOpenOk (pf : PartialFile) : Prop :=
  pf.future_extend.length = pf.sector_pool.pool.length ∧
  ∀ slot, pf.current_sector = some slot →
    slot < pf.sector_pool.pool.length ∧ pf.current_offset < pf.state.total_size ∧
    (pf.sector_pool.request slot).sector_nbr
      = pf.first_sector_nbr + pf.current_offset / SECTOR_SIZE

/-- The end offset of sector `k` of a file of `total` bytes. -/
def sectorEnd (total k : Nat) : Nat := min ((k + 1) * SECTOR_SIZE) total

/-- Sector `k` of the file ends in `(lo, hi]`. -/
def sectorDue (total lo hi k : Nat) : Prop :=
  k * SECTOR_SIZE < total ∧ lo < sectorEnd total k ∧ sectorEnd total k ≤ hi

/-- A fresh 530-byte file with a pool of 4 that starts at sector 100, after `seek(512)`: at
the start of its last sector, which holds 18 bytes. -/
def lastSectorFile : PartialFile := ((PartialFile.init 4 100 (emptyState 530)).seek 512).2

/-! ## Theorems -/

/-- C4: for parts `a`, `b` with `start < end` that touch or overlap, `a.merge(b)` and
`b.merge(a)` are both the part `{min start, max end}`; when they neither touch nor overlap,
`a.merge(b)` is `a`. -/
theorem merge_comm_touching_noop_otherwise (a b : ValidPart)
    (ha : a.start < a.«end») (hb : b.start < b.«end») :
    ((a.start ≤ b.«end» ∧ b.start ≤ a.«end») →
        a.merge b = ⟨min a.start b.start, max a.«end» b.«end»⟩ ∧
        b.merge a = ⟨min a.start b.start, max a.«end» b.«end»⟩ ∧
        a.merge b = b.merge a) ∧
    (¬ (a.start ≤ b.«end» ∧ b.start ≤ a.«end») → a.merge b = a) := by
  obtain ⟨as, ae⟩ := a
  obtain ⟨bs, be⟩ := b
  simp only at ha hb
  refine ⟨fun h => ?_, fun h => ?_⟩
  · obtain ⟨h1, h2⟩ := h
    simp only at h1 h2
    have hab : ValidPart.merge ⟨as, ae⟩ ⟨bs, be⟩ = ⟨min as bs, max ae be⟩ := by
      simp only [ValidPart.merge, ValidPart.mk.injEq]
      constructor
      · split_ifs <;> omega
      · split_ifs <;> omega
    have hba : ValidPart.merge ⟨bs, be⟩ ⟨as, ae⟩ = ⟨min as bs, max ae be⟩ := by
      simp only [ValidPart.merge, ValidPart.mk.injEq]
      constructor
      · split_ifs <;> omega
      · split_ifs <;> omega
    exact ⟨hab, hba, hab.trans hba.symm⟩
  · simp only [not_and, not_le] at h
    simp only [ValidPart.merge, ValidPart.mk.injEq]
    constructor
    · split_ifs <;> omega
    · split_ifs <;> omega

/-- Witness for C4 at the adjacent sectors `{0, 512}` and `{512, 1024}`. -/
theorem merge_comm_touching_noop_otherwise_witness :
    ((0 : Nat) < 512 ∧ (512 : Nat) < 1024) ∧
    (⟨0, 512⟩ : ValidPart).merge ⟨512, 1024⟩ = ⟨0, 1024⟩ ∧
    (⟨512, 1024⟩ : ValidPart).merge ⟨0, 512⟩ = ⟨0, 1024⟩ :=
  ⟨by decide,
   ((merge_comm_touching_noop_otherwise ⟨0, 512⟩ ⟨512, 1024⟩ (by decide) (by decide)).1
      (by decide)).1,
   ((merge_comm_touching_noop_otherwise ⟨0, 512⟩ ⟨512, 1024⟩ (by decide) (by decide)).1
      (by decide)).2.1⟩

/-- Counting the offsets below `n` that lie in `[0, he)` or in `[ts, n)`. -/
theorem card_filter_range_two (n he ts : Nat) (h2 : ts ≤ n) :
    ((Finset.range n).filter (fun o => o < he ∨ ts ≤ o)).card
      = if ts < he then n else he + (n - ts) := by
  split_ifs with h
  · have : (Finset.range n).filter (fun o => o < he ∨ ts ≤ o) = Finset.range n := by
      ext o; simp only [Finset.mem_filter, Finset.mem_range]; omega
    rw [this, Finset.card_range]
  · have : (Finset.range n).filter (fun o => o < he ∨ ts ≤ o)
        = Finset.range he ∪ Finset.Ico ts n := by
      ext o
      simp only [Finset.mem_filter, Finset.mem_range, Finset.mem_union, Finset.mem_Ico]
      omega
    rw [this, Finset.card_union_of_disjoint, Finset.card_range, Nat.card_Ico]
    rw [Finset.disjoint_left]
    intro o; simp only [Finset.mem_range, Finset.mem_Ico]; omega

/-- C3: when every present part has `start < end ≤ total_size`, the head starts at 0 (H1) and
the tail ends at `total_size` (H2), `get_valid_size()` is the number of byte offsets in
`valid_head ∪ valid_tail`; it is `total_size` when both parts are `{0, total_size}`. -/
theorem get_valid_size_eq_coveredCount (st : State) (hsz : st.total_size < SIZE_MOD)
    (hh : ∀ h, st.valid_head = some h →
      h.start < h.«end» ∧ h.«end» ≤ st.total_size ∧ h.start = 0)
    (ht : ∀ t, st.valid_tail = some t →
      t.start < t.«end» ∧ t.«end» ≤ st.total_size ∧ t.«end» = st.total_size) :
    st.get_valid_size = st.coveredCount ∧
    (st.valid_head = some ⟨0, st.total_size⟩ → st.valid_tail = some ⟨0, st.total_size⟩ →
      st.get_valid_size = st.total_size) := by
  obtain ⟨hd, tl, n⟩ := st
  simp only at hsz hh ht
  have key : (State.mk hd tl n).get_valid_size = (State.mk hd tl n).coveredCount := by
    cases hd with
    | none =>
      cases tl with
      | none => simp [State.get_valid_size, State.coveredCount, State.covers, SIZE_MOD]
      | some t =>
        obtain ⟨ts, te⟩ := t
        obtain ⟨h1, h2, h3⟩ := ht _ rfl
        simp only at h1 h2 h3
        subst h3
        have hc := card_filter_range_two te 0 ts (by omega)
        simp only [Nat.not_lt_zero, false_or, if_false, Nat.zero_add] at hc
        simp only [State.coveredCount, State.covers, ValidPart.contains, Bool.false_or,
          Bool.and_eq_true, decide_eq_true_eq, State.get_valid_size]
        have hf : (Finset.range te).filter (fun o => ts ≤ o ∧ o < te)
            = (Finset.range te).filter (fun o => ts ≤ o) := by
          ext o; simp only [Finset.mem_filter, Finset.mem_range]; omega
        rw [hf, hc]
        simp only [SIZE_MOD] at hsz ⊢
        omega
    | some h =>
      obtain ⟨hs, he⟩ := h
      obtain ⟨g1, g2, g3⟩ := hh _ rfl
      simp only at g1 g2 g3
      subst g3
      cases tl with
      | none =>
        have hc := card_filter_range_two n he n (le_refl n)
        simp only [State.coveredCount, State.covers, ValidPart.contains, Bool.or_false,
          Bool.and_eq_true, decide_eq_true_eq, State.get_valid_size]
        have hf : (Finset.range n).filter (fun o => 0 ≤ o ∧ o < he)
            = (Finset.range n).filter (fun o => o < he ∨ n ≤ o) := by
          ext o; simp only [Finset.mem_filter, Finset.mem_range]; omega
        rw [hf, hc]
        simp only [SIZE_MOD] at hsz ⊢
        split_ifs <;> omega
      | some t =>
        obtain ⟨ts, te⟩ := t
        obtain ⟨h1, h2, h3⟩ := ht _ rfl
        simp only at h1 h2 h3
        subst h3
        have hc := card_filter_range_two te he ts (by omega)
        simp only [State.coveredCount, State.covers, ValidPart.contains, Bool.or_eq_true,
          Bool.and_eq_true, decide_eq_true_eq, State.get_valid_size]
        have hf : (Finset.range te).filter (fun o => (0 ≤ o ∧ o < he) ∨ (ts ≤ o ∧ o < te))
            = (Finset.range te).filter (fun o => o < he ∨ ts ≤ o) := by
          ext o; simp only [Finset.mem_filter, Finset.mem_range]; omega
        rw [hf, hc]
        simp only [SIZE_MOD] at hsz ⊢
        split_ifs <;> omega
  refine ⟨key, fun e1 e2 => ?_⟩
  simp only [State.mk.injEq] at e1 e2
  subst e1 e2
  simp only [State.get_valid_size, SIZE_MOD] at hsz ⊢
  obtain ⟨h1, -, -⟩ := hh _ rfl
  simp only at h1
  split_ifs <;> omega

/-! ### The head, tail, body write order -/

theorem extend_empty_sector0 (total : Nat) (h : 0 < total) :
    extend_valid_part (emptyState total) (sectorPart total 0)
      = headOnly total (min SECTOR_SIZE total) := by
  simp only [extend_valid_part, emptyState, sectorPart, headOnly, SECTOR_SIZE,
    ValidPart.merge]
  rcases Nat.lt_or_ge 512 total with h1 | h1
  · have e : min 512 total = 512 := by omega
    have e0 : ¬ (512 = total) := by omega
    simp [e, e0]
  · have e : min 512 total = total := by omega
    simp [e]

theorem extend_headOnly_sector (total k : Nat) (h : k * SECTOR_SIZE < total) :
    extend_valid_part (headOnly total (k * SECTOR_SIZE)) (sectorPart total k)
      = headOnly total (min ((k + 1) * SECTOR_SIZE) total) := by
  simp only [extend_valid_part, sectorPart, headOnly, SECTOR_SIZE,
    ValidPart.merge] at h ⊢
  have e0 : ¬ (k * 512 = total) := by omega
  rcases Nat.lt_or_ge ((k+1)*512) total with h1 | h1
  · have e : min ((k+1)*512) total = (k+1)*512 := by omega
    have e1 : ¬ ((k+1) * 512 = total) := by omega
    have e2 : k * 512 < (k+1) * 512 := by omega
    simp [e, e0, e1, e2]
  · have e : min ((k+1)*512) total = total := by omega
    simp [e, e0, h]

theorem applyParts_append (st : State) (xs ys : List ValidPart) :
    applyParts st (xs ++ ys) = applyParts (applyParts st xs) ys := by
  simp [applyParts, List.foldl_append]

theorem sectorRun_succ (total first count : Nat) :
    sectorRun total first (count + 1)
      = sectorRun total first count ++ [sectorPart total (first + count)] := by
  simp [sectorRun, List.range'_concat]

theorem sectorRun_append (total first m n : Nat) :
    sectorRun total first m ++ sectorRun total (first + m) n = sectorRun total first (m + n) := by
  simp [sectorRun, ← List.map_append, List.range'_append, Nat.add_comm]

theorem applyParts_snoc (st : State) (xs : List ValidPart) (p : ValidPart) :
    applyParts st (xs ++ [p]) = extend_valid_part (applyParts st xs) p := by
  simp [applyParts, List.foldl_append]

theorem headRun (total k n : Nat) (hn : n = 0 ∨ (k + n - 1) * SECTOR_SIZE < total) :
    applyParts (headOnly total (min (k * SECTOR_SIZE) total)) (sectorRun total k n)
      = headOnly total (min ((k + n) * SECTOR_SIZE) total) := by
  induction n with
  | zero => simp [sectorRun, applyParts]
  | succ n ih =>
    have hlt : (k + n) * SECTOR_SIZE < total := by
      rcases hn with hn | hn
      · omega
      · simpa using hn
    have h1 : n = 0 ∨ (k + n - 1) * SECTOR_SIZE < total := by
      simp only [SECTOR_SIZE] at hlt ⊢
      omega
    rw [sectorRun_succ, applyParts_snoc, ih h1]
    have e : min ((k + n) * SECTOR_SIZE) total = (k + n) * SECTOR_SIZE := by omega
    rw [e, extend_headOnly_sector total (k + n) hlt]
    rfl

theorem ascendingRun (total n : Nat) (h0 : 0 < total) (hn : n * SECTOR_SIZE < total + SECTOR_SIZE)
    (hpos : 1 ≤ n) :
    applyParts (emptyState total) (sectorRun total 0 n)
      = headOnly total (min (n * SECTOR_SIZE) total) := by
  obtain ⟨m, rfl⟩ : ∃ m, n = 1 + m := ⟨n - 1, by omega⟩
  rw [← sectorRun_append, applyParts_append]
  have e1 : applyParts (emptyState total) (sectorRun total 0 1)
      = headOnly total (min (1 * SECTOR_SIZE) total) := by
    simp only [sectorRun, applyParts, List.range', List.map, List.foldl, one_mul]
    exact extend_empty_sector0 total h0
  rw [e1, Nat.zero_add, headRun total 1 m]
  simp only [SECTOR_SIZE] at hn ⊢
  omega


theorem extend_mid (total k b : Nat) (hk : k < b) (ht : b * SECTOR_SIZE < total) :
    extend_valid_part ⟨headOpt (k * SECTOR_SIZE), some ⟨b * SECTOR_SIZE, total⟩, total⟩
        (sectorPart total k)
      = meetState total ((k + 1) * SECTOR_SIZE) (b * SECTOR_SIZE) := by
  simp only [SECTOR_SIZE] at ht
  by_cases h0 : k = 0 <;> by_cases hm : k + 1 = b <;>
  simp (disch := omega) only [extend_valid_part, sectorPart, headOpt, SECTOR_SIZE,
    ValidPart.merge, meetState, if_pos, if_neg] <;>
  (try simp only [State.mk.injEq, Option.some.injEq, ValidPart.mk.injEq, and_true, true_and]) <;>
  (try omega)

theorem extend_tail_first (total h b : Nat) (hb : h < b * SECTOR_SIZE)
    (ht : b * SECTOR_SIZE < total) :
    extend_valid_part ⟨headOpt h, none, total⟩ (sectorPart total b)
      = ⟨headOpt h, some ⟨b * SECTOR_SIZE, min ((b + 1) * SECTOR_SIZE) total⟩, total⟩ := by
  simp only [SECTOR_SIZE] at hb ht
  by_cases h0 : h = 0 <;>
  simp (disch := omega) only [extend_valid_part, sectorPart, headOpt, SECTOR_SIZE,
    ValidPart.merge, if_pos, if_neg]

theorem extend_tail_next (total h t k : Nat) (hb : h < t) (htk : t < k * SECTOR_SIZE)
    (ht : k * SECTOR_SIZE < total) :
    extend_valid_part ⟨headOpt h, some ⟨t, k * SECTOR_SIZE⟩, total⟩ (sectorPart total k)
      = ⟨headOpt h, some ⟨t, min ((k + 1) * SECTOR_SIZE) total⟩, total⟩ := by
  simp only [SECTOR_SIZE] at htk ht
  by_cases h0 : h = 0 <;>
  simp (disch := omega) only [extend_valid_part, sectorPart, headOpt, SECTOR_SIZE,
    ValidPart.merge, if_pos, if_neg]

theorem tailRun (total h b n : Nat) (hb : h < b * SECTOR_SIZE)
    (ht : (b + n) * SECTOR_SIZE < total) :
    applyParts ⟨headOpt h, none, total⟩ (sectorRun total b (n + 1))
      = ⟨headOpt h, some ⟨b * SECTOR_SIZE, min ((b + n + 1) * SECTOR_SIZE) total⟩, total⟩ := by
  induction n with
  | zero =>
    simp only [sectorRun, applyParts, List.range', List.map, List.foldl]
    exact extend_tail_first total h b hb (by simpa using ht)
  | succ n ih =>
    simp only [SECTOR_SIZE] at hb ht ih
    rw [sectorRun_succ, applyParts_snoc]
    simp only [SECTOR_SIZE]
    rw [ih (by omega)]
    have e : min ((b + n + 1) * 512) total = (b + (n + 1)) * SECTOR_SIZE := by
      simp only [SECTOR_SIZE]; omega
    rw [e, extend_tail_next total h (b * 512) (b + (n + 1)) hb
      (by simp only [SECTOR_SIZE]; omega) (by simp only [SECTOR_SIZE]; omega)]
    rfl

theorem midRun (total a b n : Nat) (hab : a + n ≤ b) (ht : b * SECTOR_SIZE < total) :
    applyParts (meetState total (a * SECTOR_SIZE) (b * SECTOR_SIZE)) (sectorRun total a n)
      = meetState total ((a + n) * SECTOR_SIZE) (b * SECTOR_SIZE) := by
  induction n with
  | zero => simp [sectorRun, applyParts]
  | succ n ih =>
    rw [sectorRun_succ, applyParts_snoc, ih (by omega)]
    have hne : ¬ ((a + n) * SECTOR_SIZE = b * SECTOR_SIZE) := by
      simp only [SECTOR_SIZE]; omega
    have e : meetState total ((a + n) * SECTOR_SIZE) (b * SECTOR_SIZE)
        = ⟨headOpt ((a + n) * SECTOR_SIZE), some ⟨b * SECTOR_SIZE, total⟩, total⟩ := by
      simp only [meetState, if_neg hne]
    rw [e, extend_mid total (a + n) b (by omega) ht]
    rfl

theorem headOnly_full (total : Nat) :
    headOnly total total = ⟨some ⟨0, total⟩, some ⟨0, total⟩, total⟩ := by
  simp [headOnly]

/-- C1: for `total_size > 0` and sector-aligned `h ≤ t ≤ total_size`, extending the empty state
with the sectors of `[0, h)`, then those of `[t, total_size)`, then those of `[h, t)`, each
range ascending, ends with `valid_head = valid_tail = {0, total_size}`. -/
theorem sequential_head_tail_body_completes (total h t : Nat) (h0 : 0 < total)
    (hh : SECTOR_SIZE ∣ h) (ht : SECTOR_SIZE ∣ t) (hle : h ≤ t) (htl : t ≤ total) :
    applyParts (emptyState total)
        (sectorsOf total 0 h ++ sectorsOf total t total ++ sectorsOf total h t)
      = ⟨some ⟨0, total⟩, some ⟨0, total⟩, total⟩ := by
  obtain ⟨a, rfl⟩ := hh
  obtain ⟨b, rfl⟩ := ht
  obtain ⟨N, hN⟩ : ∃ N, N = (total + (SECTOR_SIZE - 1)) / SECTOR_SIZE := ⟨_, rfl⟩
  simp only [SECTOR_SIZE] at hle htl hN
  have hN1 : total ≤ N * 512 := by omega
  have hN2 : N * 512 < total + 512 := by omega
  have hab : a ≤ b := by omega
  have hbN : b ≤ N := by omega
  have e1 : sectorsOf total 0 (SECTOR_SIZE * a) = sectorRun total 0 a := by
    simp only [sectorsOf, SECTOR_SIZE]
    congr 1
    omega
  have e2 : sectorsOf total (SECTOR_SIZE * b) total = sectorRun total b (N - b) := by
    simp only [sectorsOf, SECTOR_SIZE]
    congr 1
    · omega
    · omega
  have e3 : sectorsOf total (SECTOR_SIZE * a) (SECTOR_SIZE * b) = sectorRun total a (b - a) := by
    simp only [sectorsOf, SECTOR_SIZE]
    congr 1
    · omega
    · omega
  rw [e1, e2, e3]
  have hfull : ∀ n, 1 ≤ n → total ≤ n * 512 → n * 512 < total + 512 →
      applyParts (emptyState total) (sectorRun total 0 n)
        = ⟨some ⟨0, total⟩, some ⟨0, total⟩, total⟩ := by
    intro n hn1 hn2 hn3
    rw [ascendingRun total n h0 (by simpa [SECTOR_SIZE] using hn3) hn1]
    have : min (n * SECTOR_SIZE) total = total := by simp only [SECTOR_SIZE]; omega
    rw [this, headOnly_full]
  by_cases hcase : a = b ∨ b * 512 = total
  · -- every sector is delivered in ascending order
    have hl : sectorRun total 0 a ++ sectorRun total b (N - b) ++ sectorRun total a (b - a)
        = sectorRun total 0 N := by
      rcases hcase with hc | hc
      · subst hc
        have := sectorRun_append total 0 a (N - a)
        simp only [Nat.zero_add] at this
        rw [Nat.sub_self, this]
        simp only [sectorRun, List.range', List.map, List.append_nil]
        congr 2
        omega
      · have hbN' : N = b := by omega
        subst hbN'
        have := sectorRun_append total 0 a (N - a)
        simp only [Nat.zero_add] at this
        rw [Nat.sub_self]
        simp only [sectorRun, List.range', List.map, List.append_nil] at this ⊢
        rw [this]
        congr 2
        omega
    rw [hl]
    exact hfull N (by omega) hN1 hN2
  · simp only [not_or] at hcase
    obtain ⟨hne, hlt⟩ := hcase
    have hab' : a < b := by omega
    have hbt : b * 512 < total := by omega
    -- the head phase
    have p1 : applyParts (emptyState total) (sectorRun total 0 a)
        = ⟨headOpt (a * SECTOR_SIZE), none, total⟩ := by
      by_cases ha : a = 0
      · subst ha
        simp [sectorRun, applyParts, emptyState, headOpt]
      · rw [ascendingRun total a h0 (by simp only [SECTOR_SIZE]; omega) (by omega)]
        have : min (a * SECTOR_SIZE) total = a * SECTOR_SIZE := by
          simp only [SECTOR_SIZE]; omega
        rw [this]
        simp (disch := omega) only [headOnly, headOpt, SECTOR_SIZE, if_neg]
    -- the tail phase
    obtain ⟨n, hn⟩ : ∃ n, N - b = n + 1 := ⟨N - b - 1, by omega⟩
    have p2 : applyParts ⟨headOpt (a * SECTOR_SIZE), none, total⟩ (sectorRun total b (N - b))
        = ⟨headOpt (a * SECTOR_SIZE), some ⟨b * SECTOR_SIZE, total⟩, total⟩ := by
      rw [hn, tailRun total (a * SECTOR_SIZE) b n (by simp only [SECTOR_SIZE]; omega)
        (by simp only [SECTOR_SIZE]; omega)]
      have : min ((b + n + 1) * SECTOR_SIZE) total = total := by
        simp only [SECTOR_SIZE]; omega
      rw [this]
    -- the body phase
    have p3 := midRun total a b (b - a) (by omega) (by simpa [SECTOR_SIZE] using hbt)
    have e4 : meetState total (a * SECTOR_SIZE) (b * SECTOR_SIZE)
        = ⟨headOpt (a * SECTOR_SIZE), some ⟨b * SECTOR_SIZE, total⟩, total⟩ := by
      simp (disch := omega) only [meetState, SECTOR_SIZE, if_neg]
    have e5 : meetState total ((a + (b - a)) * SECTOR_SIZE) (b * SECTOR_SIZE)
        = ⟨some ⟨0, total⟩, some ⟨0, total⟩, total⟩ := by
      have : a + (b - a) = b := by omega
      rw [this]
      simp only [meetState, if_true]
    rw [applyParts_append, applyParts_append, p1, p2, ← e4, p3, e5]

/-- Witness for C1: `total_size = 1048576`, head of 4096 bytes, tail of 4096 bytes. -/
theorem sequential_head_tail_body_completes_witness :
    (0 < 1048576 ∧ SECTOR_SIZE ∣ 4096 ∧ SECTOR_SIZE ∣ 1044480 ∧ 4096 ≤ 1044480 ∧
      1044480 ≤ 1048576) ∧
    applyParts (emptyState 1048576)
        (sectorsOf 1048576 0 4096 ++ sectorsOf 1048576 1044480 1048576
          ++ sectorsOf 1048576 4096 1044480)
      = ⟨some ⟨0, 1048576⟩, some ⟨0, 1048576⟩, 1048576⟩ :=
  ⟨by decide,
   sequential_head_tail_body_completes 1048576 4096 1044480 (by decide) (by decide)
     (by decide) (by decide) (by decide)⟩

/-- Witness for C3: a head `{0, 1024}` overlapping a tail `{512, 2048}`. -/
theorem get_valid_size_eq_coveredCount_witness :
    (2048 < SIZE_MOD) ∧
    (⟨some ⟨0, 1024⟩, some ⟨512, 2048⟩, 2048⟩ : State).get_valid_size
      = (⟨some ⟨0, 1024⟩, some ⟨512, 2048⟩, 2048⟩ : State).coveredCount :=
  ⟨by decide,
   (get_valid_size_eq_coveredCount ⟨some ⟨0, 1024⟩, some ⟨512, 2048⟩, 2048⟩ (by decide)
      (by intro h e; cases e; decide) (by intro t e; cases e; decide)).1⟩

/-! ### Well-formedness and coverage of the tracker -/

theorem extend_valid_part_eq (st : State) (new_part : ValidPart) :
    extend_valid_part st new_part = meetParts (preMeet st new_part) := by
  simp only [extend_valid_part, meetParts, preMeet]

theorem ValidPart.merge_exists (a b : ValidPart) :
    ∃ x y, a.merge b = ⟨x, y⟩ ∧
      ((b.start ≤ a.«end» ∧ a.«end» < b.«end» ∧ y = b.«end») ∨
        ((a.«end» < b.start ∨ b.«end» ≤ a.«end») ∧ y = a.«end»)) ∧
      ((b.start < a.start ∧ a.start ≤ b.«end» ∧ x = b.start) ∨
        ((a.start ≤ b.start ∨ b.«end» < a.start) ∧ x = a.start)) := by
  refine ⟨(a.merge b).start, (a.merge b).«end», rfl, ?_, ?_⟩
  · simp only [ValidPart.merge]
    split_ifs <;> omega
  · simp only [ValidPart.merge]
    split_ifs <;> omega

theorem preMeet_spec (st : State) (new_part : ValidPart)
    (hwf : st.wellFormed = true) (hnew : new_part.within st.total_size = true) :
    (preMeet st new_part).partsValid = true ∧
    (preMeet st new_part).total_size = st.total_size ∧
    (st.anchored = true → (preMeet st new_part).anchored = true) ∧
    (∀ o, st.covers o = true → (preMeet st new_part).covers o = true) ∧
    (∀ o, (preMeet st new_part).covers o = true →
      st.covers o = true ∨ new_part.contains o = true) := by
  obtain ⟨hd, tl, n⟩ := st
  obtain ⟨s, e⟩ := new_part
  simp only [ValidPart.within, Bool.and_eq_true, decide_eq_true_eq] at hnew
  cases hd with
  | none =>
    cases tl with
    | none =>
      by_cases hs0 : s = 0
      · by_cases hc : e = n
        · have key : preMeet ⟨none, none, n⟩ ⟨s, e⟩ = ⟨some ⟨s, e⟩, some ⟨s, e⟩, n⟩ := by
            simp only [preMeet, if_pos hs0, if_pos hc]
          rw [key]
          refine ⟨?_, ?_, ?_, ?_, ?_⟩ <;> intros <;>
          (try simp only [State.wellFormed, State.partsValid, ValidPart.within, Bool.and_eq_true,
            decide_eq_true_eq, Bool.or_eq_true, ValidPart.mk.injEq, State.anchored,
            State.covers, ValidPart.contains, true_and, and_true, Bool.false_or,
            Bool.or_false, Bool.true_and, Bool.and_true, Bool.false_eq_true, false_or,
            or_false] at *) <;>
          (try omega)
        · have hgt : ¬ (s > e) := by omega
          have key : preMeet ⟨none, none, n⟩ ⟨s, e⟩ = ⟨some ⟨s, e⟩, none, n⟩ := by
            simp only [preMeet, if_pos hs0, if_neg hc, if_neg hgt]
          rw [key]
          refine ⟨?_, ?_, ?_, ?_, ?_⟩ <;> intros <;>
          (try simp only [State.wellFormed, State.partsValid, ValidPart.within, Bool.and_eq_true,
            decide_eq_true_eq, Bool.or_eq_true, ValidPart.mk.injEq, State.anchored,
            State.covers, ValidPart.contains, true_and, and_true, Bool.false_or,
            Bool.or_false, Bool.true_and, Bool.and_true, Bool.false_eq_true, false_or,
            or_false] at *) <;>
          (try omega)
      · have hgt : s > 0 := by omega
        have key : preMeet ⟨none, none, n⟩ ⟨s, e⟩ = ⟨none, some ⟨s, e⟩, n⟩ := by
          simp only [preMeet, if_neg hs0, if_pos hgt]
        rw [key]
        refine ⟨?_, ?_, ?_, ?_, ?_⟩ <;> intros <;>
        (try simp only [State.wellFormed, State.partsValid, ValidPart.within, Bool.and_eq_true,
          decide_eq_true_eq, Bool.or_eq_true, ValidPart.mk.injEq, State.anchored,
          State.covers, ValidPart.contains, true_and, and_true, Bool.false_or,
          Bool.or_false, Bool.true_and, Bool.and_true, Bool.false_eq_true, false_or,
          or_false] at *) <;>
        (try omega)
    | some t =>
      obtain ⟨ts, te⟩ := t
      obtain ⟨t1s, t1e, et1, f3, f4⟩ := ValidPart.merge_exists ⟨ts, te⟩ ⟨s, e⟩
      simp only at f3 f4
      by_cases hs0 : s = 0
      · by_cases hc : e = n
        · have key : preMeet ⟨none, some ⟨ts, te⟩, n⟩ ⟨s, e⟩ = ⟨some ⟨s, e⟩, some ⟨s, e⟩, n⟩ := by
            simp only [preMeet, if_pos hs0, if_pos hc, et1]
          rw [key]
          refine ⟨?_, ?_, ?_, ?_, ?_⟩ <;> intros <;>
          (try simp only [State.wellFormed, State.partsValid, ValidPart.within, Bool.and_eq_true,
            decide_eq_true_eq, Bool.or_eq_true, ValidPart.mk.injEq, State.anchored,
            State.covers, ValidPart.contains, true_and, and_true, Bool.false_or,
            Bool.or_false, Bool.true_and, Bool.and_true, Bool.false_eq_true, false_or,
            or_false] at *) <;>
          (try omega)
        · have key : preMeet ⟨none, some ⟨ts, te⟩, n⟩ ⟨s, e⟩ = ⟨some ⟨s, e⟩, some ⟨t1s, t1e⟩, n⟩ := by
            simp only [preMeet, if_pos hs0, if_neg hc, et1]
          rw [key]
          refine ⟨?_, ?_, ?_, ?_, ?_⟩ <;> intros <;>
          (try simp only [State.wellFormed, State.partsValid, ValidPart.within, Bool.and_eq_true,
            decide_eq_true_eq, Bool.or_eq_true, ValidPart.mk.injEq, State.anchored,
            State.covers, ValidPart.contains, true_and, and_true, Bool.false_or,
            Bool.or_false, Bool.true_and, Bool.and_true, Bool.false_eq_true, false_or,
            or_false] at *) <;>
          (try omega)
      · have key : preMeet ⟨none, some ⟨ts, te⟩, n⟩ ⟨s, e⟩ = ⟨none, some ⟨t1s, t1e⟩, n⟩ := by
          simp only [preMeet, if_neg hs0, et1]
        rw [key]
        refine ⟨?_, ?_, ?_, ?_, ?_⟩ <;> intros <;>
        (try simp only [State.wellFormed, State.partsValid, ValidPart.within, Bool.and_eq_true,
          decide_eq_true_eq, Bool.or_eq_true, ValidPart.mk.injEq, State.anchored,
          State.covers, ValidPart.contains, true_and, and_true, Bool.false_or,
          Bool.or_false, Bool.true_and, Bool.and_true, Bool.false_eq_true, false_or,
          or_false] at *) <;>
        (try omega)
  | some h =>
    obtain ⟨hs, he⟩ := h
    obtain ⟨h1s, h1e, eh1, f1, f2⟩ := ValidPart.merge_exists ⟨hs, he⟩ ⟨s, e⟩
    simp only at f1 f2
    cases tl with
    | none =>
      by_cases hc : h1e = n
      · have key : preMeet ⟨some ⟨hs, he⟩, none, n⟩ ⟨s, e⟩ = ⟨some ⟨h1s, h1e⟩, some ⟨h1s, h1e⟩, n⟩ := by
          simp only [preMeet, eh1, if_pos hc]
        rw [key]
        refine ⟨?_, ?_, ?_, ?_, ?_⟩ <;> intros <;>
        (try simp only [State.wellFormed, State.partsValid, ValidPart.within, Bool.and_eq_true,
          decide_eq_true_eq, Bool.or_eq_true, ValidPart.mk.injEq, State.anchored,
          State.covers, ValidPart.contains, true_and, and_true, Bool.false_or,
          Bool.or_false, Bool.true_and, Bool.and_true, Bool.false_eq_true, false_or,
          or_false] at *) <;>
        (try omega)
      · by_cases hgt : s > h1e
        · have key : preMeet ⟨some ⟨hs, he⟩, none, n⟩ ⟨s, e⟩ = ⟨some ⟨h1s, h1e⟩, some ⟨s, e⟩, n⟩ := by
            simp only [preMeet, eh1, if_neg hc, if_pos hgt]
          rw [key]
          refine ⟨?_, ?_, ?_, ?_, ?_⟩ <;> intros <;>
          (try simp only [State.wellFormed, State.partsValid, ValidPart.within, Bool.and_eq_true,
            decide_eq_true_eq, Bool.or_eq_true, ValidPart.mk.injEq, State.anchored,
            State.covers, ValidPart.contains, true_and, and_true, Bool.false_or,
            Bool.or_false, Bool.true_and, Bool.and_true, Bool.false_eq_true, false_or,
            or_false] at *) <;>
          (try omega)
        · have key : preMeet ⟨some ⟨hs, he⟩, none, n⟩ ⟨s, e⟩ = ⟨some ⟨h1s, h1e⟩, none, n⟩ := by
            simp only [preMeet, eh1, if_neg hc, if_neg hgt]
          rw [key]
          refine ⟨?_, ?_, ?_, ?_, ?_⟩ <;> intros <;>
          (try simp only [State.wellFormed, State.partsValid, ValidPart.within, Bool.and_eq_true,
            decide_eq_true_eq, Bool.or_eq_true, ValidPart.mk.injEq, State.anchored,
            State.covers, ValidPart.contains, true_and, and_true, Bool.false_or,
            Bool.or_false, Bool.true_and, Bool.and_true, Bool.false_eq_true, false_or,
            or_false] at *) <;>
          (try omega)
    | some t =>
      obtain ⟨ts, te⟩ := t
      obtain ⟨t1s, t1e, et1, f3, f4⟩ := ValidPart.merge_exists ⟨ts, te⟩ ⟨s, e⟩
      simp only at f3 f4
      by_cases hc : h1e = n
      · have key : preMeet ⟨some ⟨hs, he⟩, some ⟨ts, te⟩, n⟩ ⟨s, e⟩ = ⟨some ⟨h1s, h1e⟩, some ⟨h1s, h1e⟩, n⟩ := by
          simp only [preMeet, eh1, et1, if_pos hc]
        rw [key]
        refine ⟨?_, ?_, ?_, ?_, ?_⟩ <;> intros <;>
        (try simp only [State.wellFormed, State.partsValid, ValidPart.within, Bool.and_eq_true,
          decide_eq_true_eq, Bool.or_eq_true, ValidPart.mk.injEq, State.anchored,
          State.covers, ValidPart.contains, true_and, and_true, Bool.false_or,
          Bool.or_false, Bool.true_and, Bool.and_true, Bool.false_eq_true, false_or,
          or_false] at *) <;>
        (try omega)
      · have key : preMeet ⟨some ⟨hs, he⟩, some ⟨ts, te⟩, n⟩ ⟨s, e⟩ = ⟨some ⟨h1s, h1e⟩, some ⟨t1s, t1e⟩, n⟩ := by
          simp only [preMeet, eh1, et1, if_neg hc]
        rw [key]
        refine ⟨?_, ?_, ?_, ?_, ?_⟩ <;> intros <;>
        (try simp only [State.wellFormed, State.partsValid, ValidPart.within, Bool.and_eq_true,
          decide_eq_true_eq, Bool.or_eq_true, ValidPart.mk.injEq, State.anchored,
          State.covers, ValidPart.contains, true_and, and_true, Bool.false_or,
          Bool.or_false, Bool.true_and, Bool.and_true, Bool.false_eq_true, false_or,
          or_false] at *) <;>
        (try omega)

theorem meetParts_spec (m : State) (hv : m.partsValid = true) :
    (meetParts m).wellFormed = true ∧
    (meetParts m).total_size = m.total_size ∧
    (m.anchored = true → (meetParts m).anchored = true) ∧
    (∀ o, (meetParts m).covers o = true ↔ m.covers o = true) := by
  obtain ⟨hd, tl, n⟩ := m
  cases hd with
  | none =>
    cases tl with
    | none => simp [meetParts, State.wellFormed, State.partsValid] at hv ⊢
    | some t =>
      simp only [meetParts, State.wellFormed, State.partsValid] at hv ⊢
      simp [hv]
  | some h =>
    cases tl with
    | none =>
      simp only [meetParts, State.wellFormed, State.partsValid] at hv ⊢
      simp [hv]
    | some t =>
      obtain ⟨hs, he⟩ := h
      obtain ⟨ts, te⟩ := t
      obtain ⟨h2s, h2e, eh2, f5, f6⟩ := ValidPart.merge_exists ⟨hs, he⟩ ⟨ts, te⟩
      simp only at f5 f6
      obtain ⟨t2s, t2e, et2, f7, f8⟩ := ValidPart.merge_exists ⟨ts, te⟩ ⟨h2s, h2e⟩
      simp only at f7 f8
      have key : meetParts ⟨some ⟨hs, he⟩, some ⟨ts, te⟩, n⟩
          = ⟨some ⟨h2s, h2e⟩, some ⟨t2s, t2e⟩, n⟩ := by
        simp only [meetParts, eh2, et2]
      rw [key]
      refine ⟨?_, ?_, ?_, ?_⟩ <;> intros <;>
      (try simp only [State.wellFormed, State.partsValid, ValidPart.within, Bool.and_eq_true,
        decide_eq_true_eq, Bool.or_eq_true, ValidPart.mk.injEq, State.anchored,
        State.covers, ValidPart.contains, true_and, and_true, Bool.false_or,
        Bool.or_false, Bool.true_and, Bool.and_true, Bool.false_eq_true, false_or,
        or_false] at *) <;>
      (try omega)

theorem extend_valid_part_spec (st : State) (new_part : ValidPart)
    (hwf : st.wellFormed = true) (hnew : new_part.within st.total_size = true) :
    (extend_valid_part st new_part).wellFormed = true ∧
    (extend_valid_part st new_part).total_size = st.total_size ∧
    (st.anchored = true → (extend_valid_part st new_part).anchored = true) ∧
    (∀ o, st.covers o = true → (extend_valid_part st new_part).covers o = true) ∧
    (∀ o, (extend_valid_part st new_part).covers o = true →
      st.covers o = true ∨ new_part.contains o = true) := by
  obtain ⟨a1, a2, a3, a4, a5⟩ := preMeet_spec st new_part hwf hnew
  obtain ⟨b1, b2, b3, b4⟩ := meetParts_spec (preMeet st new_part) a1
  rw [extend_valid_part_eq]
  exact ⟨b1, b2.trans a2, fun h => b3 (a3 h), fun o h => (b4 o).2 (a4 o h),
    fun o h => a5 o ((b4 o).1 h)⟩

theorem sectorPart_within (total k : Nat) (hk : k * SECTOR_SIZE < total) :
    (sectorPart total k).within total = true := by
  simp only [sectorPart, ValidPart.within, SECTOR_SIZE, Bool.and_eq_true, decide_eq_true_eq]
    at hk ⊢
  omega

theorem applyParts_spec (parts : List ValidPart) (st : State) (hwf : st.wellFormed = true)
    (hp : ∀ p ∈ parts, p.within st.total_size = true) :
    (applyParts st parts).wellFormed = true ∧
    (applyParts st parts).total_size = st.total_size ∧
    (st.anchored = true → (applyParts st parts).anchored = true) := by
  induction parts generalizing st with
  | nil => exact ⟨hwf, rfl, fun h => h⟩
  | cons p ps ih =>
    obtain ⟨a1, a2, a3, -, -⟩ :=
      extend_valid_part_spec st p hwf (hp p (List.mem_cons_self _ _))
    have hp2 : ∀ q ∈ ps, q.within (extend_valid_part st p).total_size = true := by
      intro q hq
      rw [a2]
      exact hp q (List.mem_cons_of_mem _ hq)
    obtain ⟨b1, b2, b3⟩ := ih (extend_valid_part st p) a1 hp2
    exact ⟨b1, b2.trans a2, fun h => b3 (a3 h)⟩

theorem sectorWrites_spec (total : Nat) (ks : List Nat)
    (hks : ∀ k ∈ ks, k * SECTOR_SIZE < total) :
    (sectorWrites total ks).wellFormed = true ∧
    (sectorWrites total ks).total_size = total ∧
    (sectorWrites total ks).anchored = true := by
  have hp : ∀ p ∈ ks.map (sectorPart total), p.within (emptyState total).total_size = true := by
    intro p hp
    obtain ⟨k, hk, rfl⟩ := List.mem_map.1 hp
    exact sectorPart_within total k (hks k hk)
  obtain ⟨a1, a2, a3⟩ := applyParts_spec _ (emptyState total) (by simp [State.wellFormed, emptyState]) hp
  exact ⟨a1, a2, a3 (by simp [State.anchored, emptyState])⟩

/-- C2 (amended): in every state reached from the empty state by sector completions, a head
and a tail that are both present and differ satisfy `valid_head.start == 0`,
`valid_tail.end ≤ total_size` and `valid_head.end < valid_tail.start`. -/
theorem reachable_two_parts_separated (total : Nat) (ks : List Nat)
    (hks : ∀ k ∈ ks, k * SECTOR_SIZE < total) (hd tl : ValidPart)
    (h1 : (sectorWrites total ks).valid_head = some hd)
    (h2 : (sectorWrites total ks).valid_tail = some tl) (hne : hd ≠ tl) :
    hd.start = 0 ∧ tl.«end» ≤ total ∧ hd.«end» < tl.start := by
  obtain ⟨a1, a2, -⟩ := sectorWrites_spec total ks hks
  simp only [State.wellFormed, h1, h2, a2, ValidPart.within, Bool.and_eq_true,
    decide_eq_true_eq, Bool.or_eq_true] at a1
  obtain ⟨⟨⟨_, hs⟩, ⟨_, hte⟩⟩, hsep⟩ := a1
  rcases hsep with hsep | hsep
  · exact ⟨hs, hte, hsep⟩
  · exact absurd hsep hne

/-- C2 as stated fails: after sector 0 and then sector 2 of a 2048-byte file the tail is
`{1024, 1536}`, which does not end at `total_size`. -/
theorem tail_end_below_total_counterexample :
    (∀ k ∈ [0, 2], k * SECTOR_SIZE < 2048) ∧
    ¬ (∀ hd tl : ValidPart, (sectorWrites 2048 [0, 2]).valid_head = some hd →
        (sectorWrites 2048 [0, 2]).valid_tail = some tl → hd ≠ tl →
        hd.start = 0 ∧ tl.«end» = (sectorWrites 2048 [0, 2]).total_size ∧
          hd.«end» < tl.start) := by
  refine ⟨by decide, fun h => ?_⟩
  have h3 := h ⟨0, 512⟩ ⟨1024, 1536⟩ (by decide) (by decide) (by decide)
  revert h3
  decide

/-- Witness for C2 (amended): sector 0, then sector 2, of a 2048-byte file. -/
theorem reachable_two_parts_separated_witness :
    (∀ k ∈ [0, 2], k * SECTOR_SIZE < 2048) ∧
    (sectorWrites 2048 [0, 2]).valid_head = some ⟨0, 512⟩ ∧
    (sectorWrites 2048 [0, 2]).valid_tail = some ⟨1024, 1536⟩ ∧
    (⟨0, 512⟩ : ValidPart) ≠ ⟨1024, 1536⟩ ∧
    ((⟨0, 512⟩ : ValidPart).start = 0 ∧ (⟨1024, 1536⟩ : ValidPart).«end» ≤ 2048 ∧
      (⟨0, 512⟩ : ValidPart).«end» < (⟨1024, 1536⟩ : ValidPart).start) :=
  ⟨by decide, by decide, by decide, by decide,
   reachable_two_parts_separated 2048 [0, 2] (by decide) ⟨0, 512⟩ ⟨1024, 1536⟩ (by decide)
     (by decide) (by decide)⟩

theorem extend_valid_part_total_size (st : State) (p : ValidPart) :
    (extend_valid_part st p).total_size = st.total_size := by
  simp only [extend_valid_part]
  split <;> rfl

theorem sameMainThread_refl (a : PartialFile) : a.sameMainThread a :=
  ⟨rfl, rfl, rfl, rfl, rfl, rfl, rfl, rfl, rfl⟩

theorem sameMainThread_trans {a b c : PartialFile} (h1 : a.sameMainThread b)
    (h2 : b.sameMainThread c) : a.sameMainThread c := by
  obtain ⟨a1, a2, a3, a4, a5, a6, a7, a8, a9⟩ := h1
  obtain ⟨b1, b2, b3, b4, b5, b6, b7, b8, b9⟩ := h2
  exact ⟨a1.trans b1, a2.trans b2, a3.trans b3, a4.trans b4, a5.trans b5, a6.trans b6,
    a7.trans b7, a8.trans b8, a9.trans b9⟩

theorem usbh_msc_finished_frame (pf : PartialFile) (ok : Bool) (slot : Nat) :
    pf.sameMainThread (pf.usbh_msc_finished ok slot) ∧
    (pf.usbh_msc_finished ok slot).takes = pf.takes ∧
    (pf.usbh_msc_finished ok slot).sector_pool.pool = pf.sector_pool.pool ∧
    (pf.write_error = true → (pf.usbh_msc_finished ok slot).write_error = true) ∧
    (ok = true → (pf.usbh_msc_finished ok slot).write_error = pf.write_error) ∧
    pf.sector_pool.semaphore ≤ (pf.usbh_msc_finished ok slot).sector_pool.semaphore := by
  have hsem : ∀ p : SectorPool, p.semaphore ≤ (p.release slot).semaphore := by
    intro p
    simp only [SectorPool.release, SectorPool.xSemaphoreGive]
    split_ifs <;> omega
  by_cases h : ok = true ∧ ¬ pf.write_error = true
  · have e : pf.usbh_msc_finished ok slot =
        { pf with
          state := extend_valid_part pf.state (pf.future_extend.getD slot ⟨0, 0⟩),
          sector_pool := pf.sector_pool.release slot } := by
      simp only [PartialFile.usbh_msc_finished, if_pos h]
    rw [e]
    exact ⟨⟨rfl, rfl, rfl, (extend_valid_part_total_size _ _).symm, rfl, rfl, rfl, rfl, rfl⟩,
      rfl, rfl, fun h1 => absurd h1 h.2, fun _ => rfl, hsem _⟩
  · have e : pf.usbh_msc_finished ok slot =
        { pf with write_error := true, sector_pool := pf.sector_pool.release slot } := by
      simp only [PartialFile.usbh_msc_finished, if_neg h]
    rw [e]
    refine ⟨⟨rfl, rfl, rfl, rfl, rfl, rfl, rfl, rfl, rfl⟩, rfl, rfl, fun _ => rfl, ?_, hsem _⟩
    intro hok
    simp only [hok, true_and, not_not] at h
    exact h.symm

theorem completions_frame (cs : List (Bool × Nat)) (pf : PartialFile) :
    pf.sameMainThread (cs.foldl (fun p c => p.usbh_msc_finished c.1 c.2) pf) ∧
    (cs.foldl (fun p c => p.usbh_msc_finished c.1 c.2) pf).takes = pf.takes ∧
    (cs.foldl (fun p c => p.usbh_msc_finished c.1 c.2) pf).sector_pool.pool
      = pf.sector_pool.pool ∧
    (pf.write_error = true →
      (cs.foldl (fun p c => p.usbh_msc_finished c.1 c.2) pf).write_error = true) ∧
    ((∀ c ∈ cs, c.1 = true) →
      (cs.foldl (fun p c => p.usbh_msc_finished c.1 c.2) pf).write_error = pf.write_error) ∧
    pf.sector_pool.semaphore
      ≤ (cs.foldl (fun p c => p.usbh_msc_finished c.1 c.2) pf).sector_pool.semaphore := by
  induction cs generalizing pf with
  | nil => exact ⟨sameMainThread_refl pf, rfl, rfl, fun h => h, fun _ => rfl, le_refl _⟩
  | cons c cs ih =>
    obtain ⟨a1, a2, a3, a4, a5, a6⟩ := usbh_msc_finished_frame pf c.1 c.2
    obtain ⟨b1, b2, b3, b4, b5, b6⟩ := ih (pf.usbh_msc_finished c.1 c.2)
    simp only [List.foldl_cons]
    refine ⟨sameMainThread_trans a1 b1, b2.trans a2, b3.trans a3, fun h => b4 (a4 h), ?_,
      le_trans a6 b6⟩
    intro hall
    rw [b5 (fun d hd => hall d (List.mem_cons_of_mem _ hd)),
      a5 (hall c (List.mem_cons_self _ _))]

theorem waited_refl (env : Env) (a : PartialFile) : a.waited env a :=
  ⟨sameMainThread_refl a, fun h => h, fun _ => rfl⟩

theorem waited_trans {env : Env} {a b c : PartialFile} (h1 : a.waited env b)
    (h2 : b.waited env c) : a.waited env c :=
  ⟨sameMainThread_trans h1.1 h2.1, fun h => h2.2.1 (h1.2.1 h),
    fun h => (h2.2.2 h).trans (h1.2.2 h)⟩

theorem xSemaphoreTake_frame (env : Env) (pf : PartialFile) :
    pf.waited env (pf.xSemaphoreTake env).2 ∧
    (pf.xSemaphoreTake env).2.takes = pf.takes + 1 ∧
    (pf.xSemaphoreTake env).2.sector_pool.pool = pf.sector_pool.pool ∧
    (0 < pf.sector_pool.semaphore → (pf.xSemaphoreTake env).1 = true) ∧
    pf.sector_pool.semaphore ≤ (pf.xSemaphoreTake env).2.sector_pool.semaphore + 1 := by
  obtain ⟨a1, a2, a3, a4, a5, a6⟩ :=
    completions_frame (env.completions pf.takes) { pf with takes := pf.takes + 1 }
  have hw : pf.waited env ((env.completions pf.takes).foldl
      (fun p c => p.usbh_msc_finished c.1 c.2) { pf with takes := pf.takes + 1 }) :=
    ⟨a1, a4, fun h => a5 (h pf.takes)⟩
  simp only [PartialFile.xSemaphoreTake]
  split_ifs with h
  · refine ⟨hw, a2, a3, fun _ => rfl, ?_⟩
    simp only at a6 ⊢
    omega
  · refine ⟨hw, a2, a3, fun h0 => ?_, ?_⟩
    · simp only at a6
      omega
    · simp only at a6 ⊢
      omega

theorem acquire_frame (env : Env) (pf : PartialFile) :
    pf.waited env (pf.acquire env).2 ∧ (pf.acquire env).2.takes = pf.takes + 1 ∧
    (0 < pf.sector_pool.semaphore → (pf.acquire env).1.isSome = true) := by
  obtain ⟨a1, a2, -, a4, -⟩ := xSemaphoreTake_frame env pf
  simp only [PartialFile.acquire]
  split
  · rename_i q hq
    rw [hq] at a1 a2 a4
    refine ⟨a1, a2, fun h => ?_⟩
    have := a4 h
    simp at this
  · rename_i q hq
    rw [hq] at a1 a2
    exact ⟨a1, a2, fun _ => rfl⟩

theorem takeMany_frame (env : Env) (n : Nat) (pf : PartialFile) :
    pf.waited env (PartialFile.takeMany env n pf).2 ∧
    (n ≤ pf.sector_pool.semaphore → (PartialFile.takeMany env n pf).1 = n) := by
  induction n generalizing pf with
  | zero => exact ⟨waited_refl env pf, fun _ => rfl⟩
  | succ n ih =>
    obtain ⟨a1, -, -, a4, a5⟩ := xSemaphoreTake_frame env pf
    simp only [PartialFile.takeMany]
    split
    · rename_i q hq
      rw [hq] at a1 a5
      obtain ⟨b1, b2⟩ := ih q
      refine ⟨waited_trans a1 b1, fun h => ?_⟩
      simp only at a5 ⊢
      rw [b2 (by omega)]
    · rename_i q hq
      rw [hq] at a1 a4
      refine ⟨a1, fun h => ?_⟩
      have := a4 (by omega)
      simp at this

theorem giveMany_size (n : Nat) (p : SectorPool) : (SectorPool.giveMany n p).size = p.size := by
  induction n generalizing p with
  | zero => rfl
  | succ n ih =>
    simp only [SectorPool.giveMany]
    rw [ih]
    rfl

theorem pool_sync_frame (env : Env) (pf : PartialFile) (avoid : Nat) (force : Bool) :
    (∀ r q, pf.pool_sync env avoid force = some (r, q) → pf.waited env q) ∧
    (pf.sector_pool.size - avoid ≤ pf.sector_pool.semaphore →
      ∃ q, pf.pool_sync env avoid force = some (true, q)) ∧
    (force = false → ∃ r q, pf.pool_sync env avoid force = some (r, q)) := by
  obtain ⟨a1, a2⟩ := takeMany_frame env (pf.sector_pool.size - avoid) pf
  refine ⟨fun r q h => ?_, fun h => ?_, fun h => ?_⟩
  · simp only [PartialFile.pool_sync] at h
    split_ifs at h
    simp only [Option.some.injEq, Prod.mk.injEq] at h
    rw [← h.2]
    obtain ⟨⟨c1, c2, c3, c4, c5, c6, c7, c8, c9⟩, b2, b3⟩ := a1
    exact ⟨⟨c1, c2, c3, c4, c5, c6, c7, c8, c9.trans (giveMany_size _ _).symm⟩, b2, b3⟩
  · have e := a2 h
    simp only [PartialFile.pool_sync, e, ne_eq, not_true_eq_false, and_false, if_false,
      decide_True]
    exact ⟨_, rfl⟩
  · simp only [PartialFile.pool_sync, h, Bool.false_eq_true, false_and, if_false]
    exact ⟨_, _, rfl⟩

theorem write_current_sector_frame (env : Env) (pf : PartialFile) (slot : Nat) :
    (pf.write_current_sector env slot).2.write_error = pf.write_error ∧
    (pf.write_current_sector env slot).2.current_sector = pf.current_sector ∧
    (pf.write_current_sector env slot).2.current_offset = pf.current_offset ∧
    (pf.write_current_sector env slot).2.state = pf.state ∧
    (pf.write_current_sector env slot).2.sector_pool = pf.sector_pool ∧
    (pf.write_current_sector env slot).2.first_sector_nbr = pf.first_sector_nbr := by
  simp only [PartialFile.write_current_sector]
  split_ifs <;> exact ⟨rfl, rfl, rfl, rfl, rfl, rfl⟩

theorem discard_current_sector_frame (pf : PartialFile) :
    pf.discard_current_sector.write_error = pf.write_error ∧
    pf.discard_current_sector.current_sector = none ∧
    pf.discard_current_sector.current_offset = pf.current_offset ∧
    pf.discard_current_sector.state = pf.state ∧
    pf.discard_current_sector.future_extend = pf.future_extend ∧
    pf.discard_current_sector.submits = pf.submits ∧
    pf.discard_current_sector.submitted = pf.submitted ∧
    pf.discard_current_sector.first_sector_nbr = pf.first_sector_nbr := by
  simp only [PartialFile.discard_current_sector]
  split
  · exact ⟨rfl, rfl, rfl, rfl, rfl, rfl, rfl, rfl⟩
  · rename_i h
    exact ⟨rfl, h, rfl, rfl, rfl, rfl, rfl, rfl⟩

theorem seek_frame (pf : PartialFile) (offset : Nat) :
    (pf.seek offset).1 = true ∧
    (pf.seek offset).2.write_error = pf.write_error ∧
    (pf.seek offset).2.current_offset = offset ∧
    (pf.seek offset).2.state = pf.state ∧
    (pf.seek offset).2.future_extend = pf.future_extend ∧
    (pf.seek offset).2.submits = pf.submits ∧
    (pf.seek offset).2.submitted = pf.submitted ∧
    (pf.seek offset).2.first_sector_nbr = pf.first_sector_nbr := by
  simp only [PartialFile.seek]
  split
  · split_ifs
    · exact ⟨rfl, rfl, rfl, rfl, rfl, rfl, rfl, rfl⟩
    · obtain ⟨d1, -, d3, d4, d5, d6, d7, d8⟩ :=
        discard_current_sector_frame { pf with current_offset := offset }
      exact ⟨rfl, d1, d3, d4, d5, d6, d7, d8⟩
  · obtain ⟨d1, -, d3, d4, d5, d6, d7, d8⟩ :=
      discard_current_sector_frame { pf with current_offset := offset }
    exact ⟨rfl, d1, d3, d4, d5, d6, d7, d8⟩

theorem acquire_rel {env : Env} {pf q : PartialFile} {r : Option Nat}
    (h : pf.acquire env = (r, q)) : pf.waited env q := by
  have := (acquire_frame env pf).1
  rw [h] at this
  exact this

theorem write_current_sector_rel {env : Env} {pf q : PartialFile} {slot : Nat} {r : Bool}
    (h : pf.write_current_sector env slot = (r, q)) :
    q.write_error = pf.write_error ∧ q.current_sector = pf.current_sector ∧
    q.current_offset = pf.current_offset ∧ q.state = pf.state ∧
    q.sector_pool = pf.sector_pool ∧ q.first_sector_nbr = pf.first_sector_nbr := by
  have := write_current_sector_frame env pf slot
  rw [h] at this
  exact this

theorem sync_flush_keeps_latch (env : Env) (pf : PartialFile) (h : pf.write_error = true) :
    (pf.sync_flush env).2.1.write_error = true := by
  simp only [PartialFile.sync_flush]
  split
  · split
    · rename_i q hq
      exact (acquire_rel hq).2.1 h
    · rename_i copied q hq
      have hq1 := (acquire_rel hq).2.1 h
      split
      · rename_i q3 hq3
        exact (write_current_sector_rel hq3).1.trans hq1
      · rename_i q3 hq3
        exact (write_current_sector_rel hq3).1.trans hq1
  · exact h

theorem sync_keeps_latch (env : Env) (pf : PartialFile) (h : pf.write_error = true)
    (r : Bool) (q : PartialFile) (hs : pf.sync env = some (r, q)) : q.write_error = true := by
  have hf := sync_flush_keeps_latch env pf h
  simp only [PartialFile.sync] at hs
  split at hs
  · rename_i q1 n hq
    rw [hq] at hf
    simp only [Option.some.injEq, Prod.mk.injEq] at hs
    rw [← hs.2]
    exact hf
  · rename_i q1 n hq
    rw [hq] at hf
    split at hs
    · simp at hs
    · rename_i q2 hq2
      simp only [Option.some.injEq, Prod.mk.injEq] at hs
      rw [← hs.2]
      exact ((pool_sync_frame env q1 n false).1 _ _ hq2).2.1 hf
    · rename_i q2 hq2
      simp only [Option.some.injEq, Prod.mk.injEq] at hs
      rw [← hs.2]
      exact ((pool_sync_frame env q1 n false).1 _ _ hq2).2.1 hf

theorem sync_returns (env : Env) (pf : PartialFile) : ∃ r q, pf.sync env = some (r, q) := by
  simp only [PartialFile.sync]
  split
  · exact ⟨_, _, rfl⟩
  · rename_i q1 n hq
    obtain ⟨r, q, hrq⟩ := (pool_sync_frame env q1 n false).2.2 rfl
    rw [hrq]
    cases r
    · exact ⟨_, _, rfl⟩
    · exact ⟨_, _, rfl⟩

theorem reset_error_spec (env : Env) (pf : PartialFile) :
    (∀ q, pf.reset_error env = some q → q.write_error = false ∧ q.current_sector = none) ∧
    (pf.discard_current_sector.sector_pool.size ≤ pf.discard_current_sector.sector_pool.semaphore
      → ∃ q, pf.reset_error env = some q) := by
  refine ⟨fun q h => ?_, fun h => ?_⟩
  · simp only [PartialFile.reset_error] at h
    split at h
    · simp at h
    · rename_i b q1 hq1
      simp only [Option.some.injEq] at h
      rw [← h]
      refine ⟨rfl, ?_⟩
      have hw := (pool_sync_frame env _ 0 true).1 _ _ hq1
      exact hw.1.2.1.symm.trans (discard_current_sector_frame pf).2.1
  · obtain ⟨q, hq⟩ := (pool_sync_frame env pf.discard_current_sector 0 true).2.1 (by omega)
    simp only [PartialFile.reset_error, hq]
    exact ⟨_, rfl⟩

/-- C6: while `write_error` is latched `write` returns false and changes nothing; `seek`, `sync`
and the completion callback leave the latch set; `reset_error`, when it returns, clears it and
leaves no current sector, and it returns whenever all permits are free once the current
sector is discarded. -/
theorem write_refused_while_latched (env : Env) (pf : PartialFile)
    (h : pf.write_error = true) :
    (∀ data, pf.write env data = WriteResult.returned false pf) ∧
    (∀ offset, (pf.seek offset).2.write_error = true) ∧
    (∀ r q, pf.sync env = some (r, q) → q.write_error = true) ∧
    (∀ ok slot, (pf.usbh_msc_finished ok slot).write_error = true) ∧
    (∀ q, pf.reset_error env = some q → q.write_error = false ∧ q.current_sector = none) ∧
    (pf.discard_current_sector.sector_pool.size ≤ pf.discard_current_sector.sector_pool.semaphore
      → ∃ q, pf.reset_error env = some q) := by
  refine ⟨fun data => ?_, fun offset => ?_, sync_keeps_latch env pf h, fun ok slot => ?_,
    (reset_error_spec env pf).1, (reset_error_spec env pf).2⟩
  · simp only [PartialFile.write, h, if_true]
  · exact (seek_frame pf offset).2.1.trans h
  · exact (usbh_msc_finished_frame pf ok slot).2.2.2.1 h

theorem opened_of_waited {env : Env} {a b : PartialFile} (h : a.waited env b)
    (hn : a.current_sector = none) : a.opened env b := by
  obtain ⟨⟨c1, c2, c3, c4, c5, c6, c7, c8, c9⟩, b2, b3⟩ := h
  refine ⟨c1, c3, c4, c5, c6, c7, c8, b2, b3, fun hs => ?_⟩
  rw [hn] at hs
  simp at hs

theorem open_sector_inl {env : Env} {pf : PartialFile} {r : WriteResult}
    (h : pf.open_sector env = Sum.inl r) :
    ∃ q, r = WriteResult.returned false q ∧ pf.opened env q ∧ pf.current_sector = none := by
  simp only [PartialFile.open_sector] at h
  split at h
  · simp at h
  · rename_i hn
    split_ifs at h
    · simp only [Sum.inl.injEq] at h
      exact ⟨pf, h.symm, opened_of_waited (waited_refl env pf) hn, hn⟩
    · split at h
      · rename_i q hq
        simp only [Sum.inl.injEq] at h
        exact ⟨q, h.symm, opened_of_waited (acquire_rel hq) hn, hn⟩
      · simp at h

theorem open_sector_inr {env : Env} {pf q : PartialFile} {slot : Nat}
    (h : pf.open_sector env = Sum.inr (slot, q)) :
    pf.opened env q ∧ q.current_sector = some slot ∧
    (pf.current_sector = none → pf.current_offset < pf.state.total_size) ∧
    (∀ s, pf.current_sector = some s → s = slot ∧ q = pf) := by
  simp only [PartialFile.open_sector] at h
  split at h
  · rename_i s hs
    simp only [Sum.inr.injEq, Prod.mk.injEq] at h
    obtain ⟨h1, h2⟩ := h
    subst h1 h2
    refine ⟨⟨rfl, rfl, rfl, rfl, rfl, rfl, rfl, fun h => h, fun _ => rfl, fun _ => ⟨rfl, rfl⟩⟩,
      hs, fun hn => ?_, fun s2 hs2 => ?_⟩
    · rw [hn] at hs
      simp at hs
    · rw [hs] at hs2
      simp only [Option.some.injEq] at hs2
      exact ⟨hs2.symm, rfl⟩
  · rename_i hn
    split_ifs at h with hlt
    split at h
    · simp at h
    · rename_i s q1 hq
      simp only [Sum.inr.injEq, Prod.mk.injEq] at h
      obtain ⟨h1, h2⟩ := h
      subst h1
      have ho := opened_of_waited (acquire_rel hq) hn
      obtain ⟨c1, c2, c3, c4, c5, c6, c7, c8, c9, c10⟩ := ho
      rw [← h2]
      refine ⟨⟨c1, c2, c3, c4, c5, c6, c7, c8, c9, fun hs => ?_⟩, rfl, fun _ => by omega,
        fun s2 hs2 => ?_⟩
      · rw [hn] at hs
        simp at hs
      · rw [hn] at hs2
        simp at hs2

theorem fill_sector_inl {env : Env} {pf : PartialFile} {data : List Nat} {r : WriteResult}
    (h : pf.fill_sector env data = Sum.inl r) :
    ∃ q, r = WriteResult.returned false q ∧ pf.opened env q ∧ pf.current_sector = none := by
  simp only [PartialFile.fill_sector] at h
  split at h
  · rename_i r1 hr
    simp only [Sum.inl.injEq] at h
    subst h
    exact open_sector_inl hr
  · simp at h

theorem fill_sector_inr {env : Env} {pf q : PartialFile} {data : List Nat} {slot ws : Nat}
    (h : pf.fill_sector env data = Sum.inr (slot, q, ws)) :
    pf.opened env q ∧ q.current_sector = some slot ∧
    ws = min data.length (SECTOR_SIZE - pf.current_offset % SECTOR_SIZE) ∧
    (pf.current_sector = none → pf.current_offset < pf.state.total_size) := by
  simp only [PartialFile.fill_sector] at h
  split at h
  · simp at h
  · rename_i s q1 hq
    simp only [Sum.inr.injEq, Prod.mk.injEq] at h
    obtain ⟨h1, h2, h3⟩ := h
    subst h1
    obtain ⟨⟨c1, c2, c3, c4, c5, c6, c7, c8, c9, c10⟩, d2, d3, -⟩ := open_sector_inr hq
    rw [← h2, ← h3]
    exact ⟨⟨c1, c2, c3, c4, c5, c6, c7, c8, c9, c10⟩, d2, by rw [c2], d3⟩

theorem write_loop_unfold (env : Env) (pf : PartialFile) (data : List Nat) (hd : data ≠ []) :
    pf.write_loop env data =
      match pf.write_step env data with
      | StepResult.done r => r
      | StepResult.next q rest => PartialFile.write_loop env q rest := by
  rw [PartialFile.write_loop]
  simp only [hd, dite_false]
  split <;> rename_i h <;> simp only [h]

theorem write_loop_of_pass {env : Env} {pf q : PartialFile} {data rest : List Nat}
    (h : LoopPass env pf data q rest) : pf.write_loop env data = q.write_loop env rest := by
  induction h with
  | first pf data => rfl
  | later hd hs _ ih =>
    rw [write_loop_unfold env _ _ hd]
    simp only [hs]
    exact ih

theorem write_of_pass {env : Env} {pf q : PartialFile} {data rest : List Nat}
    (hw : pf.write_error = false) (h : LoopPass env pf data q rest) :
    pf.write env data = q.write_loop env rest := by
  simp only [PartialFile.write, hw, Bool.false_eq_true, if_false]
  exact write_loop_of_pass h

theorem write_loop_nil (env : Env) (pf : PartialFile) :
    pf.write_loop env [] = WriteResult.returned true pf := by
  rw [PartialFile.write_loop]
  simp

theorem advance_next {pf q : PartialFile} {data rest : List Nat} {ws : Nat}
    (h : pf.advance data ws = StepResult.next q rest) :
    rest = data.drop ws ∧ q = (pf.seek ((pf.current_offset + ws) % SIZE_MOD)).2 := by
  simp only [PartialFile.advance] at h
  split at h
  · simp at h
  · rename_i q1 hq
    simp only [StepResult.next.injEq] at h
    rw [hq]
    exact ⟨h.2.symm, h.1.symm⟩

theorem advance_done {pf : PartialFile} {data : List Nat} {ws : Nat} {r : WriteResult}
    (h : pf.advance data ws = StepResult.done r) : False := by
  simp only [PartialFile.advance] at h
  have := (seek_frame pf ((pf.current_offset + ws) % SIZE_MOD)).1
  split at h
  · rename_i q1 hq
    rw [hq] at this
    simp at this
  · simp at h

theorem write_step_done {env : Env} {pf : PartialFile} {data : List Nat} {r : WriteResult}
    (h : pf.write_step env data = StepResult.done r) :
    r = WriteResult.fatal_error ∨ ∃ q, r = WriteResult.returned false q := by
  simp only [PartialFile.write_step] at h
  split at h
  · rename_i r1 hr
    simp only [StepResult.done.injEq] at h
    obtain ⟨q, hq, -⟩ := fill_sector_inl hr
    exact Or.inr ⟨q, by rw [← h, hq]⟩
  · split_ifs at h
    · simp only [StepResult.done.injEq] at h
      exact Or.inl h.symm
    · split at h
      · exact (advance_done h).elim
      · simp only [StepResult.done.injEq] at h
        exact Or.inr ⟨_, h.symm⟩
    · exact (advance_done h).elim

theorem write_step_next {env : Env} {pf q : PartialFile} {data rest : List Nat}
    (h : pf.write_step env data = StepResult.next q rest) :
    rest = data.drop (min data.length (SECTOR_SIZE - pf.current_offset % SECTOR_SIZE)) ∧
    q.current_offset
      = (pf.current_offset + min data.length (SECTOR_SIZE - pf.current_offset % SECTOR_SIZE))
        % SIZE_MOD ∧
    q.current_offset ≤ pf.state.total_size ∧
    q.state.total_size = pf.state.total_size := by
  simp only [PartialFile.write_step] at h
  split at h
  · simp at h
  · rename_i slot p ws hf
    obtain ⟨⟨c1, c2, c3, c4, c5, c6, c7, c8, c9, c10⟩, d2, d3, d4⟩ := fill_sector_inr hf
    split_ifs at h with h1 h2
    · split at h
      · rename_i p3 hp3
        obtain ⟨e1, e2⟩ := advance_next h
        obtain ⟨w1, w2, w3, w4, w5, w6⟩ := write_current_sector_rel hp3
        have s3' := (seek_frame { p3 with current_sector := none }
            ((({ p3 with current_sector := none } : PartialFile).current_offset + ws)
              % SIZE_MOD)).2.2.1
        have s4' := (seek_frame { p3 with current_sector := none }
            ((({ p3 with current_sector := none } : PartialFile).current_offset + ws)
              % SIZE_MOD)).2.2.2.1
        rw [← e2] at s3' s4'
        simp only at s3' s4'
        rw [w3, ← c2] at s3'
        rw [d3] at e1 s3' h1
        rw [← c2, ← c3] at h1
        refine ⟨e1, s3', ?_, ?_⟩
        · rw [s3']
          omega
        · rw [s4', w4, c3]
      · simp at h
    · obtain ⟨e1, e2⟩ := advance_next h
      have s3' := (seek_frame p ((p.current_offset + ws) % SIZE_MOD)).2.2.1
      have s4' := (seek_frame p ((p.current_offset + ws) % SIZE_MOD)).2.2.2.1
      rw [← e2] at s3' s4'
      rw [← c2] at s3'
      rw [d3] at e1 s3' h1
      rw [← c2, ← c3] at h1
      refine ⟨e1, s3', ?_, ?_⟩
      · rw [s3']
        omega
      · rw [s4', c3]

theorem dispatches_filled {env : Env} {pf : PartialFile} {data : List Nat}
    (h : pf.dispatches env data = true) :
    pf.fill_sector env data = Sum.inr (pf.filled env data) ∧
    ¬ ((pf.filled env data).2.1.current_offset + (pf.filled env data).2.2) % SIZE_MOD
        > (pf.filled env data).2.1.state.total_size ∧
    (pf.filled env data).2.1.get_sector_nbr
        (((pf.filled env data).2.1.current_offset + (pf.filled env data).2.2) % SIZE_MOD)
      ≠ ((pf.filled env data).2.1.sector_pool.request (pf.filled env data).1).sector_nbr := by
  simp only [PartialFile.dispatches, PartialFile.filled] at h ⊢
  split at h
  · rename_i slot p ws hf
    simp only [Bool.and_eq_true, decide_eq_true_eq] at h
    rw [hf]
    exact ⟨rfl, h.1, h.2⟩
  · simp at h

/-- A pass of the write loop that reaches `write_current_sector` and gets `false` from it ends
the call with `false`, in the state `write_current_sector` left. -/
theorem write_loop_dispatch_refused (env : Env) (pf : PartialFile) (data : List Nat)
    (hd : data ≠ []) (h : pf.dispatches env data = true)
    (hr : ((pf.filled env data).2.1.write_current_sector env (pf.filled env data).1).1 = false) :
    pf.write_loop env data = WriteResult.returned false
      ((pf.filled env data).2.1.write_current_sector env (pf.filled env data).1).2 := by
  obtain ⟨h1, h2, h3⟩ := dispatches_filled h
  rw [write_loop_unfold env pf data hd]
  simp only [PartialFile.write_step, h1, if_neg h2, if_pos h3]
  split
  · rename_i r heq
    split at heq
    · rename_i p3 hp3
      rw [hp3] at hr
      simp at hr
    · simp only [StepResult.done.injEq] at heq
      rename_i p3 hp3
      rw [← heq, hp3]
  · rename_i q rest heq
    split at heq
    · rename_i p3 hp3
      rw [hp3] at hr
      simp at hr
    · simp at heq

theorem filled_opened {env : Env} {pf : PartialFile} {data : List Nat}
    (h : pf.dispatches env data = true) :
    pf.opened env (pf.filled env data).2.1 ∧
    (pf.filled env data).2.1.current_sector = some (pf.filled env data).1 :=
  ⟨(fill_sector_inr (dispatches_filled h).1).1, (fill_sector_inr (dispatches_filled h).1).2.1⟩

theorem acquire_state_of_quiet (env : Env) (pf : PartialFile)
    (h : env.completions pf.takes = []) : (pf.acquire env).2.state = pf.state := by
  simp only [PartialFile.acquire, PartialFile.xSemaphoreTake, h, List.foldl_nil]
  split_ifs <;> rfl

theorem open_sector_state_of_quiet {env : Env} {pf q : PartialFile} {slot : Nat}
    (h : pf.open_sector env = Sum.inr (slot, q)) (hq : env.completions pf.takes = []) :
    q.state = pf.state := by
  simp only [PartialFile.open_sector] at h
  split at h
  · simp only [Sum.inr.injEq, Prod.mk.injEq] at h
    rw [← h.2]
  · split_ifs at h
    split at h
    · simp at h
    · rename_i s q1 ha
      simp only [Sum.inr.injEq, Prod.mk.injEq] at h
      rw [← h.2]
      have := acquire_state_of_quiet env pf hq
      rw [ha] at this
      exact this

theorem filled_state_of_quiet {env : Env} {pf : PartialFile} {data : List Nat}
    (h : pf.dispatches env data = true) (hq : env.completions pf.takes = []) :
    (pf.filled env data).2.1.state = pf.state := by
  have hf := (dispatches_filled h).1
  simp only [PartialFile.fill_sector] at hf
  split at hf
  · simp at hf
  · rename_i slot q1 ho
    simp only [Sum.inr.injEq] at hf
    rw [← hf]
    exact (open_sector_state_of_quiet ho hq : q1.state = pf.state)

/-- C8: when the identity-lock poke of a dispatch fails, `write` (in whichever pass of its loop
the dispatch happens) and `sync` return false, no request is submitted, and `future_extend`,
`current_offset` and the valid-range state stay as they were when the dispatch began (the
state as at the start of the pass, unless a completion callback ran while a sector was
acquired). -/
theorem dispatch_aborted_when_poke_fails (env : Env) (pf : PartialFile)
    (hpoke : env.lseek_ok pf.pokes = false) :
    (∀ pf0 data0 data, pf0.write_error = false → LoopPass env pf0 data0 pf data →
      data ≠ [] → pf.dispatches env data = true →
      pf0.write env data0
        = WriteResult.returned false
            { (pf.filled env data).2.1 with pokes := pf.pokes + 1 } ∧
      (pf.filled env data).2.1.submits = pf.submits ∧
      (pf.filled env data).2.1.submitted = pf.submitted ∧
      (pf.filled env data).2.1.future_extend = pf.future_extend ∧
      (pf.filled env data).2.1.current_offset = pf.current_offset ∧
      (pf.current_sector.isSome = true → (pf.filled env data).2.1.state = pf.state) ∧
      (env.completions pf.takes = [] → (pf.filled env data).2.1.state = pf.state)) ∧
    (∀ cur copied q, pf.current_sector = some cur → pf.acquire env = (some copied, q) →
      ∃ q2, pf.sync env = some (false, q2) ∧ q2.submits = pf.submits ∧
        q2.submitted = pf.submitted ∧ q2.future_extend = pf.future_extend ∧
        q2.current_offset = pf.current_offset ∧ q2.state = q.state ∧
        (env.completions pf.takes = [] → q2.state = pf.state) ∧
        q2.current_sector = some cur) := by
  refine ⟨fun pf0 data0 data hw hpass hd h => ?_, fun cur copied q hc ha => ?_⟩
  · obtain ⟨⟨c1, c2, c3, c4, c5, c6, c7, c8, c9, c10⟩, d2⟩ := filled_opened h
    have hp : env.lseek_ok (pf.filled env data).2.1.pokes = false := by rw [← c5]; exact hpoke
    have e : (pf.filled env data).2.1.write_current_sector env (pf.filled env data).1
        = (false, { (pf.filled env data).2.1 with pokes := pf.pokes + 1 }) := by
      simp only [PartialFile.write_current_sector, hp, if_true, c5]
    have hl := write_loop_dispatch_refused env pf data hd h (by rw [e])
    rw [e] at hl
    refine ⟨?_, c6.symm, c7.symm, c4.symm, c2.symm, fun hs => (c10 hs).1,
      filled_state_of_quiet h⟩
    rw [write_of_pass hw hpass]
    exact hl
  · obtain ⟨⟨c1, c2, c3, c4, c5, c6, c7, c8, c9⟩, b2, b3⟩ := acquire_rel ha
    have hst := acquire_state_of_quiet env pf
    rw [ha] at hst
    simp only [PartialFile.sync, PartialFile.sync_flush, hc, ha, PartialFile.write_current_sector,
      ← c6, hpoke, if_true]
    exact ⟨_, rfl, c7.symm, c8.symm, c5.symm, c3.symm, rfl, hst, c2.symm.trans hc⟩

/-- C7 (amended): when the submission of a dispatched sector is refused, `write` returns false
(in whichever pass of its loop the dispatch happens); the latch is not set by this: it has the
value it had when the dispatch began, which is clear unless a completion callback reported a
failure meanwhile; the current sector stays in place and `current_offset` is not advanced. -/
theorem write_returns_false_when_submit_refused (env : Env) (pf0 pf : PartialFile)
    (data0 data : List Nat) (hw0 : pf0.write_error = false)
    (hpass : LoopPass env pf0 data0 pf data) (hd : data ≠ [])
    (h : pf.dispatches env data = true) (hpoke : env.lseek_ok pf.pokes = true)
    (hsub : env.submit_ok pf.submits = false) :
    ∃ q, pf0.write env data0 = WriteResult.returned false q ∧
      q.write_error = (pf.filled env data).2.1.write_error ∧
      (env.completionsOk → q.write_error = pf.write_error) ∧
      (pf.current_sector.isSome = true → q.write_error = pf.write_error) ∧
      q.current_sector = some (pf.filled env data).1 ∧
      q.current_offset = pf.current_offset ∧
      q.submits = pf.submits + 1 ∧ q.submitted = pf.submitted := by
  obtain ⟨⟨c1, c2, c3, c4, c5, c6, c7, c8, c9, c10⟩, d2⟩ := filled_opened h
  have hp : env.lseek_ok (pf.filled env data).2.1.pokes = true := by rw [← c5]; exact hpoke
  have hs : env.submit_ok (pf.filled env data).2.1.submits = false := by rw [← c6]; exact hsub
  have e : ((pf.filled env data).2.1.write_current_sector env (pf.filled env data).1).1
      = false := by
    simp only [PartialFile.write_current_sector, hp, hs, Bool.true_eq_false, if_false, if_true]
  have hl := write_loop_dispatch_refused env pf data hd h e
  obtain ⟨w1, w2, w3, -, -, -⟩ :=
    write_current_sector_frame env (pf.filled env data).2.1 (pf.filled env data).1
  refine ⟨_, ?_, w1, fun hc => w1.trans (c9 hc),
    fun hs2 => w1.trans (c10 hs2).2, w2.trans d2, w3.trans c2.symm, ?_, ?_⟩
  · rw [write_of_pass hw0 hpass]
    exact hl
  · simp only [PartialFile.write_current_sector, hp, hs, Bool.true_eq_false, if_false, if_true]
    rw [c6]
  · simp only [PartialFile.write_current_sector, hp, hs, Bool.true_eq_false, if_false, if_true]
    exact c7.symm

/-- C7 as stated fails: a one-byte write that fills the one-byte file is dispatched, the
submission is refused, `write` returns false, and `write_error` is still clear. -/
theorem submit_refused_counterexample :
    (PartialFile.init 4 100 (emptyState 1)).dispatches refusingEnv [7] = true ∧
    refusingEnv.submit_ok (PartialFile.init 4 100 (emptyState 1)).submits = false ∧
    ((PartialFile.init 4 100 (emptyState 1)).write refusingEnv [7]).returnedValue = some false ∧
    ((PartialFile.init 4 100 (emptyState 1)).write refusingEnv [7]).returnedFile.map
      (fun q => q.write_error) = some false := by
  refine ⟨by decide, by decide, ?_, ?_⟩
  · rw [PartialFile.write, PartialFile.write_loop]
    decide
  · rw [PartialFile.write, PartialFile.write_loop]
    decide

/-- Witness for C7 (amended): the one-byte write on a one-byte file with refused submissions. -/
theorem write_returns_false_when_submit_refused_witness :
    ((PartialFile.init 4 100 (emptyState 1)).write_error = false ∧ [7] ≠ ([] : List Nat) ∧
      (PartialFile.init 4 100 (emptyState 1)).dispatches refusingEnv [7] = true ∧
      refusingEnv.lseek_ok (PartialFile.init 4 100 (emptyState 1)).pokes = true ∧
      refusingEnv.submit_ok (PartialFile.init 4 100 (emptyState 1)).submits = false) ∧
    ∃ q, (PartialFile.init 4 100 (emptyState 1)).write refusingEnv [7]
        = WriteResult.returned false q ∧
      q.write_error = ((PartialFile.init 4 100 (emptyState 1)).filled
        refusingEnv [7]).2.1.write_error ∧
      (refusingEnv.completionsOk →
        q.write_error = (PartialFile.init 4 100 (emptyState 1)).write_error) ∧
      ((PartialFile.init 4 100 (emptyState 1)).current_sector.isSome = true →
        q.write_error = (PartialFile.init 4 100 (emptyState 1)).write_error) ∧
      q.current_sector = some ((PartialFile.init 4 100 (emptyState 1)).filled
        refusingEnv [7]).1 ∧
      q.current_offset = (PartialFile.init 4 100 (emptyState 1)).current_offset ∧
      q.submits = (PartialFile.init 4 100 (emptyState 1)).submits + 1 ∧
      q.submitted = (PartialFile.init 4 100 (emptyState 1)).submitted :=
  ⟨by decide,
   write_returns_false_when_submit_refused refusingEnv (PartialFile.init 4 100 (emptyState 1))
     (PartialFile.init 4 100 (emptyState 1)) [7] [7] (by decide) (LoopPass.first _ _)
     (by decide) (by decide) (by decide) (by decide)⟩

theorem write_loop_never_true_past_end (env : Env) (n : Nat) :
    ∀ (pf : PartialFile) (data : List Nat), data.length = n → data ≠ [] →
      pf.current_offset + data.length > pf.state.total_size →
      pf.current_offset + data.length < SIZE_MOD →
      pf.write_loop env data = WriteResult.fatal_error ∨
        ∃ q, pf.write_loop env data = WriteResult.returned false q := by
  induction n using Nat.strong_induction_on with
  | _ n ih =>
    intro pf data hlen hd hgt hlt
    rw [write_loop_unfold env pf data hd]
    split
    · rename_i r hr
      exact write_step_done hr
    · rename_i q rest hr
      obtain ⟨e1, e2, e3, e4⟩ := write_step_next hr
      have hpos : 0 < data.length := List.length_pos.2 hd
      have hmin : min data.length (SECTOR_SIZE - pf.current_offset % SECTOR_SIZE)
          ≤ data.length := Nat.min_le_left _ _
      have hmin0 : 0 < min data.length (SECTOR_SIZE - pf.current_offset % SECTOR_SIZE) := by
        simp only [SECTOR_SIZE]
        omega
      rw [Nat.mod_eq_of_lt (by omega)] at e2
      have hrl : rest.length
          = data.length - min data.length (SECTOR_SIZE - pf.current_offset % SECTOR_SIZE) := by
        rw [e1, List.length_drop]
      have hrest : rest ≠ [] := by
        intro h0
        rw [h0] at hrl
        simp only [List.length_nil] at hrl
        omega
      exact ih rest.length (by omega) q rest rfl hrest (by rw [e4]; omega) (by omega)

theorem write_loop_at_end (env : Env) (pf : PartialFile) (data : List Nat) (hd : data ≠ [])
    (hn : pf.current_sector = none) (hge : pf.current_offset ≥ pf.state.total_size) :
    pf.write_loop env data = WriteResult.returned false pf := by
  rw [write_loop_unfold env pf data hd]
  simp only [PartialFile.write_step, PartialFile.fill_sector, PartialFile.open_sector, hn,
    hge, if_true]

theorem write_loop_overrun (env : Env) (pf : PartialFile) (data : List Nat) (hd : data ≠ [])
    (h : pf.overruns env data = true) : pf.write_loop env data = WriteResult.fatal_error := by
  rw [write_loop_unfold env pf data hd]
  simp only [PartialFile.overruns] at h
  simp only [PartialFile.write_step]
  split at h
  · rename_i slot p ws hf
    simp only [decide_eq_true_eq] at h
    simp only [hf, if_pos h]
  · simp at h

/-- C9 (amended): a `write` with the latch clear that would store a byte at or beyond
`total_size` never returns true: it ends in `fatal_error` or returns false.  It returns false
in the pass that finds no current sector and `current_offset ≥ total_size`; it ends in
`fatal_error` in the pass whose copy into the open sector ends beyond `total_size`. -/
theorem write_past_end_never_succeeds (env : Env) (pf0 : PartialFile) (data0 : List Nat)
    (hw : pf0.write_error = false) (hd0 : data0 ≠ [])
    (hgt : pf0.current_offset + data0.length > pf0.state.total_size)
    (hlt : pf0.current_offset + data0.length < SIZE_MOD) :
    (pf0.write env data0 = WriteResult.fatal_error ∨
      ∃ q, pf0.write env data0 = WriteResult.returned false q) ∧
    (∀ pf data, LoopPass env pf0 data0 pf data → data ≠ [] → pf.current_sector = none →
      pf.current_offset ≥ pf.state.total_size →
      pf0.write env data0 = WriteResult.returned false pf) ∧
    (∀ pf data, LoopPass env pf0 data0 pf data → data ≠ [] → pf.overruns env data = true →
      pf0.write env data0 = WriteResult.fatal_error) := by
  have hwrite : pf0.write env data0 = pf0.write_loop env data0 := by
    simp only [PartialFile.write, hw, Bool.false_eq_true, if_false]
  refine ⟨?_, fun pf data hpass hd hn hge => ?_, fun pf data hpass hd hover => ?_⟩
  · rw [hwrite]
    exact write_loop_never_true_past_end env data0.length pf0 data0 rfl hd0 hgt hlt
  · rw [write_of_pass hw hpass]
    exact write_loop_at_end env pf data hd hn hge
  · rw [write_of_pass hw hpass]
    exact write_loop_overrun env pf data hd hover

/-- C9 as stated fails: after `seek(512)` on a fresh 512-byte file there is no current sector
and `current_offset = total_size`; writing one byte returns false, not `fatal_error`. -/
theorem write_at_end_counterexample :
    ((PartialFile.init 4 100 (emptyState 512)).seek 512).2.write_error = false ∧
    ((PartialFile.init 4 100 (emptyState 512)).seek 512).2.current_sector = none ∧
    ((PartialFile.init 4 100 (emptyState 512)).seek 512).2.current_offset
      ≥ ((PartialFile.init 4 100 (emptyState 512)).seek 512).2.state.total_size ∧
    ((PartialFile.init 4 100 (emptyState 512)).seek 512).2.write quietEnv [7]
      = WriteResult.returned false ((PartialFile.init 4 100 (emptyState 512)).seek 512).2 ∧
    ((PartialFile.init 4 100 (emptyState 512)).seek 512).2.write quietEnv [7]
      ≠ WriteResult.fatal_error := by
  have e : ((PartialFile.init 4 100 (emptyState 512)).seek 512).2.write quietEnv [7]
      = WriteResult.returned false ((PartialFile.init 4 100 (emptyState 512)).seek 512).2 := by
    have hw : ((PartialFile.init 4 100 (emptyState 512)).seek 512).2.write_error = false := by
      decide
    simp only [PartialFile.write, hw, Bool.false_eq_true, if_false]
    exact write_loop_at_end quietEnv _ [7] (by decide) (by decide) (by decide)
  refine ⟨by decide, by decide, by decide, e, ?_⟩
  rw [e]
  exact fun h => WriteResult.noConfusion h

/-- Witness for C9 (amended): one byte written at the end of a 512-byte file. -/
theorem write_past_end_never_succeeds_witness :
    (((PartialFile.init 4 100 (emptyState 512)).seek 512).2.write_error = false ∧
      [7] ≠ ([] : List Nat) ∧
      ((PartialFile.init 4 100 (emptyState 512)).seek 512).2.current_offset + [7].length
        > ((PartialFile.init 4 100 (emptyState 512)).seek 512).2.state.total_size ∧
      ((PartialFile.init 4 100 (emptyState 512)).seek 512).2.current_offset + [7].length
        < SIZE_MOD) ∧
    (((PartialFile.init 4 100 (emptyState 512)).seek 512).2.write quietEnv [7]
        = WriteResult.fatal_error ∨
      ∃ q, ((PartialFile.init 4 100 (emptyState 512)).seek 512).2.write quietEnv [7]
        = WriteResult.returned false q) :=
  ⟨by decide,
   (write_past_end_never_succeeds quietEnv ((PartialFile.init 4 100 (emptyState 512)).seek 512).2
     [7] (by decide) (by decide) (by decide) (by decide)).1⟩

theorem clear_bit_testBit (mask slot i : Nat) (hm : mask < 2 ^ 32) (hs : slot < 32) :
    (mask &&& (0xFFFFFFFF ^^^ ((1 <<< slot) % 2 ^ 32))).testBit i
      = (mask.testBit i && decide (i ≠ slot)) := by
  have h1 : (1 <<< slot) % 2 ^ 32 = 2 ^ slot := by
    rw [Nat.one_shiftLeft]
    exact Nat.mod_eq_of_lt (Nat.pow_lt_pow_right (by decide) hs)
  have h2 : (0xFFFFFFFF : Nat) = 2 ^ 32 - 1 := by decide
  rw [h1, h2, Nat.testBit_land, Nat.testBit_xor, Nat.testBit_two_pow_sub_one,
    Nat.testBit_two_pow]
  by_cases hi : i < 32
  · by_cases he : slot = i
    · subst he
      simp [hi]
    · have : ¬ i = slot := fun h => he h.symm
      simp [hi, he, this]
  · have hf : mask.testBit i = false :=
      Nat.testBit_lt_two_pow (lt_of_lt_of_le hm (Nat.pow_le_pow_right (by decide) (by omega)))
    simp [hf]

/-- C10: the completion callback for an acquired slot. With `USBH_OK` and the latch clear the
state becomes `extend_valid_part(future_extend[slot])` and the latch stays clear; otherwise
the state is unchanged and the latch is set.  In both cases exactly bit `slot` of the bitmap
is cleared and one permit is given back. -/
theorem usbh_msc_finished_spec (pf : PartialFile) (ok : Bool) (slot : Nat)
    (hslot : slot < 32) (hmask : pf.sector_pool.slot_mask < SIZE_MOD)
    (hsem : pf.sector_pool.semaphore < pf.sector_pool.size) :
    (ok = true ∧ pf.write_error = false →
      (pf.usbh_msc_finished ok slot).state
        = extend_valid_part pf.state (pf.future_extend.getD slot ⟨0, 0⟩) ∧
      (pf.usbh_msc_finished ok slot).write_error = false) ∧
    (ok = false ∨ pf.write_error = true →
      (pf.usbh_msc_finished ok slot).state = pf.state ∧
      (pf.usbh_msc_finished ok slot).write_error = true) ∧
    (∀ i, (pf.usbh_msc_finished ok slot).sector_pool.slot_mask.testBit i
      = (pf.sector_pool.slot_mask.testBit i && decide (i ≠ slot))) ∧
    (pf.usbh_msc_finished ok slot).sector_pool.semaphore = pf.sector_pool.semaphore + 1 := by
  have hbits : ∀ i, (pf.sector_pool.release slot).slot_mask.testBit i
      = (pf.sector_pool.slot_mask.testBit i && decide (i ≠ slot)) := fun i =>
    clear_bit_testBit pf.sector_pool.slot_mask slot i hmask hslot
  have hgive : (pf.sector_pool.release slot).semaphore = pf.sector_pool.semaphore + 1 := by
    simp only [SectorPool.release, SectorPool.xSemaphoreGive, if_pos hsem]
  by_cases h : ok = true ∧ ¬ pf.write_error = true
  · have e : pf.usbh_msc_finished ok slot =
        { pf with
          state := extend_valid_part pf.state (pf.future_extend.getD slot ⟨0, 0⟩),
          sector_pool := pf.sector_pool.release slot } := by
      simp only [PartialFile.usbh_msc_finished, if_pos h]
    rw [e]
    refine ⟨fun _ => ⟨rfl, ?_⟩, fun h2 => ?_, hbits, hgive⟩
    · simpa using h.2
    · rcases h2 with h2 | h2
      · rw [h.1] at h2
        simp at h2
      · exact absurd h2 h.2
  · have e : pf.usbh_msc_finished ok slot =
        { pf with write_error := true, sector_pool := pf.sector_pool.release slot } := by
      simp only [PartialFile.usbh_msc_finished, if_neg h]
    rw [e]
    refine ⟨fun h2 => ?_, fun _ => ⟨rfl, rfl⟩, hbits, hgive⟩
    exact absurd ⟨h2.1, by simp [h2.2]⟩ h

/-- Witness for C10: the completion of slot 0 of a four-slot pool with one sector in flight. -/
theorem usbh_msc_finished_spec_witness :
    ((0 : Nat) < 32 ∧ (0xFFFFFFF1 : Nat) < SIZE_MOD ∧ (3 : Nat) < 4) ∧
    (({ PartialFile.init 4 100 (emptyState 2048) with
        sector_pool := { SectorPool.init 4 with semaphore := 3, slot_mask := 0xFFFFFFF1 },
        future_extend := [⟨0, 512⟩, ⟨0, 0⟩, ⟨0, 0⟩, ⟨0, 0⟩] } : PartialFile).usbh_msc_finished
          true 0).sector_pool.semaphore = 3 + 1 :=
  ⟨by decide,
   (usbh_msc_finished_spec
     { PartialFile.init 4 100 (emptyState 2048) with
        sector_pool := { SectorPool.init 4 with semaphore := 3, slot_mask := 0xFFFFFFF1 },
        future_extend := [⟨0, 512⟩, ⟨0, 0⟩, ⟨0, 0⟩, ⟨0, 0⟩] }
     true 0 (by decide) (by decide) (by decide)).2.2.2⟩

/-- Witness for C6: a fresh file whose latch has been set. -/
theorem write_refused_while_latched_witness :
    ({ PartialFile.init 4 100 (emptyState 2048) with write_error := true } :
        PartialFile).write_error = true ∧
    ∀ data, ({ PartialFile.init 4 100 (emptyState 2048) with write_error := true } :
        PartialFile).write quietEnv data
      = WriteResult.returned false
          { PartialFile.init 4 100 (emptyState 2048) with write_error := true } :=
  ⟨rfl,
   (write_refused_while_latched quietEnv
     { PartialFile.init 4 100 (emptyState 2048) with write_error := true } rfl).1⟩

/-- Witness for C8: a one-byte write that fills a one-byte file while the poke fails. -/
theorem dispatch_aborted_when_poke_fails_witness :
    (swappedEnv.lseek_ok (PartialFile.init 4 100 (emptyState 1)).pokes = false ∧
      [7] ≠ ([] : List Nat) ∧ (PartialFile.init 4 100 (emptyState 1)).write_error = false ∧
      (PartialFile.init 4 100 (emptyState 1)).dispatches swappedEnv [7] = true) ∧
    (PartialFile.init 4 100 (emptyState 1)).write swappedEnv [7]
      = WriteResult.returned false
          { ((PartialFile.init 4 100 (emptyState 1)).filled swappedEnv [7]).2.1 with
            pokes := (PartialFile.init 4 100 (emptyState 1)).pokes + 1 } ∧
    ((PartialFile.init 4 100 (emptyState 1)).filled swappedEnv [7]).2.1.submits
      = (PartialFile.init 4 100 (emptyState 1)).submits :=
  ⟨by decide,
   ((dispatch_aborted_when_poke_fails swappedEnv (PartialFile.init 4 100 (emptyState 1))
      (by decide)).1 _ [7] [7] (by decide) (LoopPass.first _ _) (by decide) (by decide)).1,
   ((dispatch_aborted_when_poke_fails swappedEnv (PartialFile.init 4 100 (emptyState 1))
      (by decide)).1 _ [7] [7] (by decide) (LoopPass.first _ _) (by decide) (by decide)).2.1⟩

/-! ### Sector numbers and offsets -/

/-- C11 (amended): without 32-bit overflow, `get_offset(get_sector_nbr(n·SECTOR_SIZE))` is
`n·SECTOR_SIZE` for every sector that starts inside the file, and `(n+1)·SECTOR_SIZE` for
every `n·SECTOR_SIZE ≥ total_size`. -/
theorem get_offset_get_sector_nbr (pf : PartialFile) (n : Nat)
    (hfirst : pf.first_sector_nbr + n + 1 < SIZE_MOD)
    (hoff : (n + 1) * SECTOR_SIZE < SIZE_MOD) :
    (n * SECTOR_SIZE < pf.state.total_size →
      pf.get_offset (pf.get_sector_nbr (n * SECTOR_SIZE)) = n * SECTOR_SIZE) ∧
    (n * SECTOR_SIZE ≥ pf.state.total_size →
      pf.get_offset (pf.get_sector_nbr (n * SECTOR_SIZE)) = (n + 1) * SECTOR_SIZE) := by
  simp only [SIZE_MOD, SECTOR_SIZE] at hfirst hoff
  have hdiv : n * 512 / 512 = n := Nat.mul_div_cancel n (by decide)
  constructor
  · intro hlt
    have hnot : ¬ (n * 512 ≥ pf.state.total_size) := by
      simp only [SECTOR_SIZE] at hlt
      omega
    simp only [PartialFile.get_sector_nbr, PartialFile.get_offset, SIZE_MOD, SECTOR_SIZE, hdiv,
      if_neg hnot]
    omega
  · intro hge
    simp only [SECTOR_SIZE] at hge
    simp only [PartialFile.get_sector_nbr, PartialFile.get_offset, SIZE_MOD, SECTOR_SIZE, hdiv,
      if_pos hge]
    omega

/-- C11 as stated fails: for a 1024-byte file starting at sector 100, the offset 2·512 maps to
sector 103, whose offset is 3·512. -/
theorem get_offset_get_sector_nbr_counterexample :
    (100 + 2 + 1 < SIZE_MOD ∧ (2 + 1) * SECTOR_SIZE < SIZE_MOD) ∧
    (PartialFile.init 4 100 (emptyState 1024)).get_offset
        ((PartialFile.init 4 100 (emptyState 1024)).get_sector_nbr (2 * SECTOR_SIZE))
      ≠ 2 * SECTOR_SIZE := by
  decide

/-- Witness for C11 (amended): sector 1 of a 1024-byte file starting at sector 100. -/
theorem get_offset_get_sector_nbr_witness :
    ((PartialFile.init 4 100 (emptyState 1024)).first_sector_nbr + 1 + 1 < SIZE_MOD ∧
      (1 + 1) * SECTOR_SIZE < SIZE_MOD ∧
      1 * SECTOR_SIZE < (PartialFile.init 4 100 (emptyState 1024)).state.total_size) ∧
    (PartialFile.init 4 100 (emptyState 1024)).get_offset
        ((PartialFile.init 4 100 (emptyState 1024)).get_sector_nbr (1 * SECTOR_SIZE))
      = 1 * SECTOR_SIZE :=
  ⟨by decide,
   (get_offset_get_sector_nbr (PartialFile.init 4 100 (emptyState 1024)) 1 (by decide)
     (by decide)).1 (by decide)⟩

/-- C12: without 32-bit overflow `get_sector_nbr` is monotonic in the offset, and below
`total_size` it is `first_sector_nbr + offset / SECTOR_SIZE`. -/
theorem get_sector_nbr_monotonic (pf : PartialFile) (o1 o2 : Nat) (hle : o1 ≤ o2)
    (hno : pf.first_sector_nbr + o2 / SECTOR_SIZE + 1 < SIZE_MOD) :
    pf.get_sector_nbr o1 ≤ pf.get_sector_nbr o2 ∧
    (o1 < pf.state.total_size →
      pf.get_sector_nbr o1 = pf.first_sector_nbr + o1 / SECTOR_SIZE) := by
  simp only [SIZE_MOD, SECTOR_SIZE] at hno
  have hdiv : o1 / 512 ≤ o2 / 512 := Nat.div_le_div_right hle
  simp only [PartialFile.get_sector_nbr, SIZE_MOD, SECTOR_SIZE]
  constructor
  · split_ifs <;> omega
  · intro hlt
    have hnot : ¬ (o1 ≥ pf.state.total_size) := by omega
    simp only [if_neg hnot]
    omega

/-- Witness for C12: offsets 700 and 1500 of a 2048-byte file starting at sector 100. -/
theorem get_sector_nbr_monotonic_witness :
    ((700 : Nat) ≤ 1500 ∧
      (PartialFile.init 4 100 (emptyState 2048)).first_sector_nbr + 1500 / SECTOR_SIZE + 1
        < SIZE_MOD) ∧
    (PartialFile.init 4 100 (emptyState 2048)).get_sector_nbr 700
      ≤ (PartialFile.init 4 100 (emptyState 2048)).get_sector_nbr 1500 :=
  ⟨by decide,
   (get_sector_nbr_monotonic (PartialFile.init 4 100 (emptyState 2048)) 700 1500 (by decide)
     (by decide)).1⟩

/-! ### Readers of the valid ranges -/

theorem preMeet_collapsed (st : State) (new_part : ValidPart) :
    (preMeet st new_part).collapsed = true := by
  obtain ⟨hd, tl, n⟩ := st
  cases hd with
  | none =>
    by_cases hs : new_part.start = 0
    · by_cases he : new_part.«end» = n
      · simp [preMeet, State.collapsed, hs, he]
      · simp [preMeet, State.collapsed, hs, he]
    · simp [preMeet, State.collapsed, hs]
  | some h =>
    by_cases he : (h.merge new_part).«end» = n
    · simp [preMeet, State.collapsed, he]
    · simp [preMeet, State.collapsed, he]

theorem meetParts_collapsed (m : State) (hv : m.partsValid = true)
    (hc : m.collapsed = true) : (meetParts m).collapsed = true := by
  obtain ⟨hd, tl, n⟩ := m
  cases hd with
  | none => cases tl <;> simp [meetParts, State.collapsed]
  | some h =>
    cases tl with
    | none => simpa [meetParts] using hc
    | some t =>
      obtain ⟨hs, he⟩ := h
      obtain ⟨ts, te⟩ := t
      obtain ⟨h2s, h2e, eh2, f5, f6⟩ := ValidPart.merge_exists ⟨hs, he⟩ ⟨ts, te⟩
      simp only at f5 f6
      obtain ⟨t2s, t2e, et2, f7, f8⟩ := ValidPart.merge_exists ⟨ts, te⟩ ⟨h2s, h2e⟩
      simp only at f7 f8
      have key : meetParts ⟨some ⟨hs, he⟩, some ⟨ts, te⟩, n⟩
          = ⟨some ⟨h2s, h2e⟩, some ⟨t2s, t2e⟩, n⟩ := by
        simp only [meetParts, eh2, et2]
      rw [key]
      simp only [State.partsValid, ValidPart.within, Bool.and_eq_true, decide_eq_true_eq] at hv
      simp only [State.collapsed, Bool.or_eq_true, decide_eq_true_eq, Option.some.injEq,
        ValidPart.mk.injEq, ne_eq] at hc ⊢
      omega

theorem extend_valid_part_collapsed (st : State) (new_part : ValidPart)
    (hwf : st.wellFormed = true) (hnew : new_part.within st.total_size = true) :
    (extend_valid_part st new_part).collapsed = true := by
  rw [extend_valid_part_eq]
  exact meetParts_collapsed _ (preMeet_spec st new_part hwf hnew).1
    (preMeet_collapsed st new_part)

theorem applyParts_collapsed (parts : List ValidPart) (st : State)
    (hwf : st.wellFormed = true) (hc : st.collapsed = true)
    (hp : ∀ p ∈ parts, p.within st.total_size = true) :
    (applyParts st parts).collapsed = true := by
  induction parts generalizing st with
  | nil => exact hc
  | cons p ps ih =>
    obtain ⟨a1, a2, -, -, -⟩ :=
      extend_valid_part_spec st p hwf (hp p (List.mem_cons_self _ _))
    have hp2 : ∀ q ∈ ps, q.within (extend_valid_part st p).total_size = true := by
      intro q hq
      rw [a2]
      exact hp q (List.mem_cons_of_mem _ hq)
    exact ih (extend_valid_part st p) a1
      (extend_valid_part_collapsed st p hwf (hp p (List.mem_cons_self _ _))) hp2

theorem sectorWrites_collapsed (total : Nat) (ks : List Nat)
    (hks : ∀ k ∈ ks, k * SECTOR_SIZE < total) : (sectorWrites total ks).collapsed = true := by
  have hp : ∀ p ∈ ks.map (sectorPart total), p.within (emptyState total).total_size = true := by
    intro p hp
    obtain ⟨k, hk, rfl⟩ := List.mem_map.1 hp
    exact sectorPart_within total k (hks k hk)
  exact applyParts_collapsed _ (emptyState total) (by simp [State.wellFormed, emptyState])
    (by simp [State.collapsed, emptyState]) hp

/-- For `1 ≤ bytes ≤ total_size`, in a well-formed state whose tail is collapsed onto a complete
head, `has_valid_tail(bytes)` holds exactly when every offset of the last `bytes` bytes is
covered. -/
theorem has_valid_tail_iff_covered (pf : PartialFile) (bytes : Nat)
    (hwf : pf.state.wellFormed = true) (hc : pf.state.collapsed = true)
    (hsz : pf.state.total_size < SIZE_MOD) (h1 : 1 ≤ bytes)
    (h2 : bytes ≤ pf.state.total_size) :
    pf.has_valid_tail bytes = true ↔
      ∀ o, pf.state.total_size - bytes ≤ o → o < pf.state.total_size →
        pf.state.covers o = true := by
  obtain ⟨hd, tl, n, hst⟩ : ∃ hd tl n, pf.state = ⟨hd, tl, n⟩ := ⟨_, _, _, rfl⟩
  rw [hst] at hwf hc hsz h2
  simp only at hsz h2
  have hsub : (n + SIZE_MOD - bytes) % SIZE_MOD = n - bytes := by
    simp only [SIZE_MOD] at hsz ⊢
    omega
  simp only [PartialFile.has_valid_tail, PartialFile.get_state, hst, hsub]
  cases tl with
  | none =>
    simp only [Bool.false_eq_true, false_iff, not_forall]
    refine ⟨n - 1, by omega, by omega, ?_⟩
    cases hd with
    | none => simp [State.covers]
    | some h =>
      obtain ⟨hs, he⟩ := h
      simp only [State.wellFormed, ValidPart.within, Bool.and_eq_true, decide_eq_true_eq,
        Bool.and_true] at hwf
      simp only [State.collapsed, Bool.or_eq_true, decide_eq_true_eq, reduceCtorEq,
        decide_False, Bool.false_eq_true, or_false, ne_eq] at hc
      simp only [State.covers, ValidPart.contains, Bool.or_false, Bool.and_eq_true,
        decide_eq_true_eq, not_and, not_lt]
      omega
  | some t =>
    obtain ⟨ts, te⟩ := t
    simp only [Bool.and_eq_true, decide_eq_true_eq]
    cases hd with
    | none =>
      simp only [State.wellFormed, ValidPart.within, Bool.and_eq_true, decide_eq_true_eq,
        Bool.true_and, Bool.and_true] at hwf
      simp only [State.covers, ValidPart.contains, Bool.false_or, Bool.and_eq_true,
        decide_eq_true_eq]
      constructor
      · intro h o ho1 ho2
        omega
      · intro h
        have a := h (n - 1) (by omega) (by omega)
        have b := h (n - bytes) (by omega) (by omega)
        omega
    | some h =>
      obtain ⟨hs, he⟩ := h
      simp only [State.wellFormed, ValidPart.within, Bool.and_eq_true, decide_eq_true_eq,
        Bool.or_eq_true, ValidPart.mk.injEq] at hwf
      simp only [State.collapsed, Bool.or_eq_true, decide_eq_true_eq, Option.some.injEq,
        ValidPart.mk.injEq, ne_eq] at hc
      simp only [State.covers, ValidPart.contains, Bool.or_eq_true, Bool.and_eq_true,
        decide_eq_true_eq]
      constructor
      · intro h o ho1 ho2
        omega
      · intro h
        have a := h (n - 1) (by omega) (by omega)
        have b := h (n - bytes) (by omega) (by omega)
        have c := h (max he (n - bytes))
        rcases Nat.lt_or_ge he ts with hlt | hge
        · by_cases hts : ts ≤ n - bytes
          · omega
          · have c2 := c (by omega) (by omega)
            omega
        · omega

/-- C13: the code at an input beyond the file size. After sector 1 of a 1024-byte file only
`{512, 1024}` is valid, yet `has_valid_tail(2000)` is true: `total_size - bytes` wraps. -/
theorem has_valid_tail_wraps_beyond_total_size :
    (∀ k ∈ [1], k * SECTOR_SIZE < 1024) ∧
    sectorWrites 1024 [1] = ⟨none, some ⟨512, 1024⟩, 1024⟩ ∧
    (PartialFile.init 4 100 (sectorWrites 1024 [1])).has_valid_tail 2000 = true ∧
    ¬ (2000 ≤ (PartialFile.init 4 100 (sectorWrites 1024 [1])).state.total_size) ∧
    (PartialFile.init 4 100 (sectorWrites 1024 [1])).state.covers 0 = false ∧
    (PartialFile.init 4 100 (sectorWrites 1024 [1])).has_valid_head 2000 = false := by
  decide

/-! ### The download order policies -/

theorem plainGcode_step_rank (HeadSize TailSize : Nat) (o : PlainGcodeDownloadOrder)
    (file : PartialFile) :
    o.state.rank ≤ (o.step HeadSize TailSize file).2.state.rank ∧
    ((o.step HeadSize TailSize file).1 = Transfer.Action.RangeJump →
      o.state.rank ≤ 1 ∧ (o.step HeadSize TailSize file).2.state.rank = o.state.rank + 1) := by
  obtain ⟨s⟩ := o
  cases s <;> simp only [PlainGcodeDownloadOrder.step] <;> (try split_ifs) <;>
    simp [PlainGcodeDownloadOrder.State.rank]

theorem plainGcode_run_bound (HeadSize TailSize : Nat) (files : List PartialFile) :
    ∀ o : PlainGcodeDownloadOrder,
      (PlainGcodeDownloadOrder.run HeadSize TailSize o files).1.count Transfer.Action.RangeJump
          + min o.state.rank 2 ≤ 2 ∧
      o.state.rank ≤ (PlainGcodeDownloadOrder.run HeadSize TailSize o files).2.state.rank := by
  induction files with
  | nil =>
    intro o
    simp only [PlainGcodeDownloadOrder.run, List.count_nil, Nat.zero_add]
    exact ⟨Nat.min_le_right _ _, le_refl _⟩
  | cons f fs ih =>
    intro o
    obtain ⟨a1, a2⟩ := plainGcode_step_rank HeadSize TailSize o f
    obtain ⟨b1, b2⟩ := ih (o.step HeadSize TailSize f).2
    simp only [PlainGcodeDownloadOrder.run]
    refine ⟨?_, le_trans a1 b2⟩
    by_cases hj : (o.step HeadSize TailSize f).1 = Transfer.Action.RangeJump
    · obtain ⟨c1, c2⟩ := a2 hj
      rw [hj, List.count_cons_self]
      rw [c2] at b1
      omega
    · rw [List.count_cons_of_ne (fun h => hj h.symm)]
      omega

/-- C14: the transition table of `PlainGcodeDownloadOrder::step`; a step never moves backwards
in the chain of states, and a run returns `RangeJump` at most twice. -/
theorem plainGcode_step_table (HeadSize TailSize : Nat) (file : PartialFile) :
    ((⟨PlainGcodeDownloadOrder.State.DownloadingHeader⟩ : PlainGcodeDownloadOrder).step
        HeadSize TailSize file
      = if file.has_valid_head HeadSize = true then
          (Transfer.Action.RangeJump, ⟨PlainGcodeDownloadOrder.State.DownloadingTail⟩)
        else (Transfer.Action.Continue, ⟨PlainGcodeDownloadOrder.State.DownloadingHeader⟩)) ∧
    ((⟨PlainGcodeDownloadOrder.State.DownloadingTail⟩ : PlainGcodeDownloadOrder).step
        HeadSize TailSize file
      = if file.has_valid_tail TailSize = true then
          (Transfer.Action.RangeJump, ⟨PlainGcodeDownloadOrder.State.DownloadedBase⟩)
        else (Transfer.Action.Continue, ⟨PlainGcodeDownloadOrder.State.DownloadingTail⟩)) ∧
    ((⟨PlainGcodeDownloadOrder.State.DownloadedBase⟩ : PlainGcodeDownloadOrder).step
        HeadSize TailSize file
      = (Transfer.Action.Continue, ⟨PlainGcodeDownloadOrder.State.DownloadingBody⟩)) ∧
    ((⟨PlainGcodeDownloadOrder.State.DownloadingBody⟩ : PlainGcodeDownloadOrder).step
        HeadSize TailSize file
      = if file.get_state.get_valid_size = file.final_size then
          (Transfer.Action.Finished, ⟨PlainGcodeDownloadOrder.State.Finished⟩)
        else (Transfer.Action.Continue, ⟨PlainGcodeDownloadOrder.State.DownloadingBody⟩)) ∧
    ((⟨PlainGcodeDownloadOrder.State.Finished⟩ : PlainGcodeDownloadOrder).step
        HeadSize TailSize file
      = (Transfer.Action.Finished, ⟨PlainGcodeDownloadOrder.State.Finished⟩)) ∧
    (∀ o : PlainGcodeDownloadOrder,
      o.state.rank ≤ (o.step HeadSize TailSize file).2.state.rank) ∧
    (∀ (o : PlainGcodeDownloadOrder) (files : List PartialFile),
      (PlainGcodeDownloadOrder.run HeadSize TailSize o files).1.count Transfer.Action.RangeJump
        ≤ 2 ∧
      o.state.rank ≤ (PlainGcodeDownloadOrder.run HeadSize TailSize o files).2.state.rank) := by
  refine ⟨rfl, rfl, rfl, ?_, rfl, fun o => (plainGcode_step_rank HeadSize TailSize o file).1,
    fun o files => ⟨?_, (plainGcode_run_bound HeadSize TailSize files o).2⟩⟩
  · simp only [PlainGcodeDownloadOrder.step]
    by_cases h : file.get_state.get_valid_size = file.final_size
    · rw [if_pos h, if_pos h.symm]
    · rw [if_neg h, if_neg (fun h2 => h h2.symm)]
  · have := (plainGcode_run_bound HeadSize TailSize files o).1
    omega

/-- C18: `GenericFileDownloadOrder::step` returns `Finished` exactly when the valid size is the
total size and `Continue` otherwise, never `RangeJump`; the next offset is the end of the head,
or 0 without a head. -/
theorem genericFile_order_spec (o : GenericFileDownloadOrder) (file : PartialFile) :
    (o.step file = Transfer.Action.Finished ↔
      file.get_state.get_valid_size = file.get_state.total_size) ∧
    (o.step file = Transfer.Action.Continue ↔
      file.get_state.get_valid_size ≠ file.get_state.total_size) ∧
    o.step file ≠ Transfer.Action.RangeJump ∧
    (∀ head, file.get_state.valid_head = some head → o.get_next_offset file = head.«end») ∧
    (file.get_state.valid_head = none → o.get_next_offset file = 0) := by
  simp only [GenericFileDownloadOrder.step, PartialFile.final_size, PartialFile.get_state,
    GenericFileDownloadOrder.get_next_offset, PartialFile.get_valid_head]
  refine ⟨?_, ?_, ?_, ?_, ?_⟩
  · by_cases h : file.state.total_size = file.state.get_valid_size
    · simp [h]
    · simp only [if_neg h]
      constructor
      · intro h2
        cases h2
      · intro h2
        exact absurd h2.symm h
  · by_cases h : file.state.total_size = file.state.get_valid_size
    · simp [h]
    · simp only [if_neg h]
      constructor
      · intro _ h2
        exact h h2.symm
      · intro _
        trivial
  · split_ifs <;> simp
  · intro head hh
    simp [hh]
  · intro hh
    simp [hh]

theorem extend_valid_part_head_isSome (st : State) (new_part : ValidPart)
    (h : st.valid_head.isSome = true) :
    (extend_valid_part st new_part).valid_head.isSome = true := by
  obtain ⟨hd, tl, n⟩ := st
  cases hd with
  | none => simp at h
  | some h0 =>
    rw [extend_valid_part_eq]
    simp only [preMeet, meetParts]
    split <;> simp_all

theorem applyParts_head_isSome (parts : List ValidPart) (st : State)
    (h : st.valid_head.isSome = true) : (applyParts st parts).valid_head.isSome = true := by
  induction parts generalizing st with
  | nil => exact h
  | cons p ps ih => exact ih _ (extend_valid_part_head_isSome st p h)

theorem plainGcode_new_table (HeadSize TailSize : Nat) (file : PartialFile) :
    ((PlainGcodeDownloadOrder.new HeadSize TailSize file).state
        = PlainGcodeDownloadOrder.State.DownloadingHeader ↔
      file.has_valid_head HeadSize = false) ∧
    ((PlainGcodeDownloadOrder.new HeadSize TailSize file).state
        = PlainGcodeDownloadOrder.State.DownloadingTail ↔
      file.has_valid_head HeadSize = true ∧ file.has_valid_tail TailSize = false) ∧
    ((PlainGcodeDownloadOrder.new HeadSize TailSize file).state
        = PlainGcodeDownloadOrder.State.Finished ↔
      file.has_valid_head HeadSize = true ∧ file.has_valid_tail TailSize = true ∧
        file.get_state.get_valid_size = file.final_size) ∧
    ((PlainGcodeDownloadOrder.new HeadSize TailSize file).state
        = PlainGcodeDownloadOrder.State.DownloadedBase ↔
      file.has_valid_head HeadSize = true ∧ file.has_valid_tail TailSize = true ∧
        file.get_state.get_valid_size ≠ file.final_size) := by
  simp only [PlainGcodeDownloadOrder.new]
  by_cases h1 : file.has_valid_head HeadSize = true <;>
    by_cases h2 : file.has_valid_tail TailSize = true <;>
    by_cases h3 : file.get_state.get_valid_size = file.final_size <;>
    simp [h1, h2, h3]

theorem plainGcode_new_finished_iff (HeadSize TailSize : Nat) (file : PartialFile)
    (hwf : file.state.wellFormed = true) (hc : file.state.collapsed = true)
    (hsz : file.state.total_size < SIZE_MOD) (hhs : HeadSize ≤ file.state.total_size) :
    (PlainGcodeDownloadOrder.new HeadSize TailSize file).state
        = PlainGcodeDownloadOrder.State.Finished ↔
      file.state.valid_head = some ⟨0, file.state.total_size⟩ := by
  rw [(plainGcode_new_table HeadSize TailSize file).2.2.1]
  obtain ⟨hd, tl, n, hst⟩ : ∃ hd tl n, file.state = ⟨hd, tl, n⟩ := ⟨_, _, _, rfl⟩
  rw [hst] at hwf hc hsz hhs
  simp only at hsz hhs
  simp only [PartialFile.has_valid_head, PartialFile.has_valid_tail, PartialFile.get_state,
    PartialFile.final_size, State.get_valid_size, hst]
  cases hd with
  | none => simp
  | some h =>
    obtain ⟨hs, he⟩ := h
    cases tl with
    | none =>
      simp only [State.wellFormed, State.collapsed, ValidPart.within, Bool.and_eq_true,
        Bool.or_eq_true, decide_eq_true_eq, Bool.true_and, Bool.and_true] at hwf hc
      simp only [SIZE_MOD] at hsz ⊢
      simp only [Option.some.injEq, ValidPart.mk.injEq, Bool.and_eq_true, decide_eq_true_eq]
      constructor
      · rintro ⟨-, h2, -⟩
        cases h2
      · rintro ⟨rfl, rfl⟩
        simp at hc
    | some t =>
      obtain ⟨ts, te⟩ := t
      simp only [State.wellFormed, State.collapsed, ValidPart.within, Bool.and_eq_true,
        Bool.or_eq_true, decide_eq_true_eq, Bool.true_and, Bool.and_true, Option.some.injEq,
        ValidPart.mk.injEq, ne_eq] at hwf hc
      simp only [SIZE_MOD] at hsz ⊢
      simp only [Option.some.injEq, ValidPart.mk.injEq, Bool.and_eq_true, decide_eq_true_eq]
      constructor
      · rintro ⟨⟨a1, a2⟩, ⟨a3, a4⟩, a5⟩
        refine ⟨a1, ?_⟩
        split_ifs at a5 <;> omega
      · rintro ⟨b1, b2⟩
        have b3 : ts = 0 ∧ te = n := by omega
        refine ⟨⟨b1, by omega⟩, ⟨by omega, b3.2⟩, ?_⟩
        split_ifs <;> omega

/-- C15 (as stated) fails for a freshly initialised order: for a 2048-byte file with
`HeadSize = TailSize = 512`, `valid_head = {0, 512}` and no tail the constructor selects `DownloadingTail` at once, and
`step` returns `Continue`, not `RangeJump`. -/
theorem plainGcode_fresh_order_counterexample :
    (PartialFile.init 4 100 (sectorWrites 2048 [0])).state.valid_head
      = some ⟨0, 512⟩ ∧
    (PartialFile.init 4 100 (sectorWrites 2048 [0])).state.valid_tail = none ∧
    ((PlainGcodeDownloadOrder.new 512 512
        (PartialFile.init 4 100 (sectorWrites 2048 [0]))).step 512 512
        (PartialFile.init 4 100 (sectorWrites 2048 [0]))).1
      ≠ Transfer.Action.RangeJump ∧
    ((PlainGcodeDownloadOrder.new 512 512
        (PartialFile.init 4 100 (sectorWrites 2048 [0]))).step 512 512
        (PartialFile.init 4 100 (sectorWrites 2048 [0]))).1
      = Transfer.Action.Continue := by
  decide

/-- C15 (amended): for a file whose valid_head is `{0, HeadSize}` and which has no valid tail,
an order in `DownloadingHeader` returns `RangeJump` from `step` and `get_next_offset` afterwards
returns `final_size − TailSize` (in `size_t` arithmetic; the plain difference when
`TailSize ≤ final_size < 2^32`); an order freshly initialised from that file starts in
`DownloadingTail`, its `step` returns `Continue` and leaves it there, and `get_next_offset`
returns the same `final_size − TailSize`. -/
theorem plainGcode_head_done_no_tail (HeadSize TailSize : Nat) (file : PartialFile)
    (hhead : file.state.valid_head = some ⟨0, HeadSize⟩)
    (htail : file.state.valid_tail = none) :
    ((⟨PlainGcodeDownloadOrder.State.DownloadingHeader⟩ : PlainGcodeDownloadOrder).step
        HeadSize TailSize file).1 = Transfer.Action.RangeJump ∧
    ((⟨PlainGcodeDownloadOrder.State.DownloadingHeader⟩ : PlainGcodeDownloadOrder).step
        HeadSize TailSize file).2.get_next_offset TailSize file
      = some ((file.final_size + SIZE_MOD - TailSize) % SIZE_MOD) ∧
    (PlainGcodeDownloadOrder.new HeadSize TailSize file).state
      = PlainGcodeDownloadOrder.State.DownloadingTail ∧
    (PlainGcodeDownloadOrder.new HeadSize TailSize file).step HeadSize TailSize file
      = (Transfer.Action.Continue, PlainGcodeDownloadOrder.new HeadSize TailSize file) ∧
    (PlainGcodeDownloadOrder.new HeadSize TailSize file).get_next_offset TailSize file
      = some ((file.final_size + SIZE_MOD - TailSize) % SIZE_MOD) ∧
    (TailSize ≤ file.final_size → file.final_size < SIZE_MOD →
      (file.final_size + SIZE_MOD - TailSize) % SIZE_MOD = file.final_size - TailSize) := by
  have h1 : file.has_valid_head HeadSize = true := by
    simp [PartialFile.has_valid_head, PartialFile.get_state, hhead]
  have h2 : file.has_valid_tail TailSize = false := by
    simp [PartialFile.has_valid_tail, PartialFile.get_state, htail]
  have h3 : file.get_valid_tail = none := by
    simp [PartialFile.get_valid_tail, htail]
  have h4 : PlainGcodeDownloadOrder.new HeadSize TailSize file
      = ⟨PlainGcodeDownloadOrder.State.DownloadingTail⟩ := by
    simp [PlainGcodeDownloadOrder.new, h1, h2]
  refine ⟨?_, ?_, ?_, ?_, ?_, ?_⟩
  · simp [PlainGcodeDownloadOrder.step, h1]
  · simp [PlainGcodeDownloadOrder.step, h1, PlainGcodeDownloadOrder.get_next_offset, h3]
  · rw [h4]
  · rw [h4]
    simp [PlainGcodeDownloadOrder.step, h2]
  · rw [h4]
    simp [PlainGcodeDownloadOrder.get_next_offset, h3]
  · intro a b
    simp only [SIZE_MOD] at b ⊢
    omega

/-- Witness for C15 (amended): a 2048-byte file with the first 512 bytes valid. -/
theorem plainGcode_head_done_no_tail_witness :
    ((PartialFile.init 4 100 (sectorWrites 2048 [0])).state.valid_head
        = some ⟨0, 512⟩ ∧
      (PartialFile.init 4 100 (sectorWrites 2048 [0])).state.valid_tail = none) ∧
    ((⟨PlainGcodeDownloadOrder.State.DownloadingHeader⟩ : PlainGcodeDownloadOrder).step
        512 512 (PartialFile.init 4 100 (sectorWrites 2048 [0]))).1
      = Transfer.Action.RangeJump :=
  ⟨⟨by decide, by decide⟩,
   (plainGcode_head_done_no_tail 512 512
     (PartialFile.init 4 100 (sectorWrites 2048 [0])) (by decide) (by decide)).1⟩

/-- C16 (as stated) fails for a file shorter than `HeadSize`: the 512-byte file is complete,
`valid_head = {0, final_size}`, yet the constructor selects `DownloadingHeader`. -/
theorem plainGcode_new_short_file_counterexample :
    (∀ k ∈ [0], k * SECTOR_SIZE < 512) ∧
    (PartialFile.init 4 100 (sectorWrites 512 [0])).state.valid_head
      = some ⟨0, (PartialFile.init 4 100 (sectorWrites 512 [0])).final_size⟩ ∧
    (PlainGcodeDownloadOrder.new 4096 4096 (PartialFile.init 4 100 (sectorWrites 512 [0]))).state
      ≠ PlainGcodeDownloadOrder.State.Finished ∧
    (PlainGcodeDownloadOrder.new 4096 4096 (PartialFile.init 4 100 (sectorWrites 512 [0]))).state
      = PlainGcodeDownloadOrder.State.DownloadingHeader := by
  decide

/-- C16 (amended): the constructor selects `DownloadingHeader` iff not
`has_valid_head(HeadSize)`, `DownloadingTail` iff `has_valid_head(HeadSize)` and not
`has_valid_tail(TailSize)`, `Finished` iff both hold and `get_valid_size() == final_size`,
`DownloadedBase` iff both hold and the sizes differ; for a file of at least `HeadSize` (and
less than 2^32) bytes whose state is reached by sector completions, the selected state is
`Finished` exactly when `valid_head = {0, final_size}`. -/
theorem plainGcode_new_selects_state (HeadSize TailSize total : Nat) (ks : List Nat)
    (file : PartialFile) (hks : ∀ k ∈ ks, k * SECTOR_SIZE < total)
    (hst : file.state = sectorWrites total ks) (hsz : total < SIZE_MOD)
    (hhs : HeadSize ≤ total) :
    (∀ f : PartialFile,
      ((PlainGcodeDownloadOrder.new HeadSize TailSize f).state
          = PlainGcodeDownloadOrder.State.DownloadingHeader ↔
        f.has_valid_head HeadSize = false) ∧
      ((PlainGcodeDownloadOrder.new HeadSize TailSize f).state
          = PlainGcodeDownloadOrder.State.DownloadingTail ↔
        f.has_valid_head HeadSize = true ∧ f.has_valid_tail TailSize = false) ∧
      ((PlainGcodeDownloadOrder.new HeadSize TailSize f).state
          = PlainGcodeDownloadOrder.State.Finished ↔
        f.has_valid_head HeadSize = true ∧ f.has_valid_tail TailSize = true ∧
          f.get_state.get_valid_size = f.final_size) ∧
      ((PlainGcodeDownloadOrder.new HeadSize TailSize f).state
          = PlainGcodeDownloadOrder.State.DownloadedBase ↔
        f.has_valid_head HeadSize = true ∧ f.has_valid_tail TailSize = true ∧
          f.get_state.get_valid_size ≠ f.final_size)) ∧
    ((PlainGcodeDownloadOrder.new HeadSize TailSize file).state
        = PlainGcodeDownloadOrder.State.Finished ↔
      file.state.valid_head = some ⟨0, file.final_size⟩) := by
  obtain ⟨a1, a2, -⟩ := sectorWrites_spec total ks hks
  have a3 := sectorWrites_collapsed total ks hks
  rw [← hst] at a1 a2 a3
  refine ⟨fun f => plainGcode_new_table HeadSize TailSize f, ?_⟩
  exact plainGcode_new_finished_iff HeadSize TailSize file a1 a3 (by rw [a2]; exact hsz)
    (by rw [a2]; exact hhs)

/-- Witness for C16 (amended): the complete 1024-byte file with `HeadSize = 512`. -/
theorem plainGcode_new_selects_state_witness :
    ((∀ k ∈ [0, 1], k * SECTOR_SIZE < 1024) ∧
      (PartialFile.init 4 100 (sectorWrites 1024 [0, 1])).state = sectorWrites 1024 [0, 1] ∧
      1024 < SIZE_MOD ∧ 512 ≤ 1024) ∧
    ((PlainGcodeDownloadOrder.new 512 512
          (PartialFile.init 4 100 (sectorWrites 1024 [0, 1]))).state
        = PlainGcodeDownloadOrder.State.Finished ↔
      (PartialFile.init 4 100 (sectorWrites 1024 [0, 1])).state.valid_head
        = some ⟨0, (PartialFile.init 4 100 (sectorWrites 1024 [0, 1])).final_size⟩) :=
  ⟨⟨by decide, rfl, by decide, by decide⟩,
   (plainGcode_new_selects_state 512 512 1024 [0, 1]
     (PartialFile.init 4 100 (sectorWrites 1024 [0, 1])) (by decide) rfl (by decide)
     (by decide)).2⟩

theorem has_valid_head_isSome (file : PartialFile) (bytes : Nat)
    (h : file.has_valid_head bytes = true) : file.state.valid_head.isSome = true := by
  simp only [PartialFile.has_valid_head, PartialFile.get_state] at h
  cases hh : file.state.valid_head with
  | none => simp [hh] at h
  | some x => rfl

theorem plainGcode_new_head (HeadSize TailSize : Nat) (file : PartialFile)
    (h : 1 ≤ (PlainGcodeDownloadOrder.new HeadSize TailSize file).state.rank) :
    file.state.valid_head.isSome = true := by
  by_cases h1 : file.has_valid_head HeadSize = true
  · exact has_valid_head_isSome file HeadSize h1
  · simp [PlainGcodeDownloadOrder.new, h1, PlainGcodeDownloadOrder.State.rank] at h

theorem plainGcode_step_head (HeadSize TailSize : Nat) (o : PlainGcodeDownloadOrder)
    (file : PartialFile) (hinv : 1 ≤ o.state.rank → file.state.valid_head.isSome = true)
    (h : 1 ≤ (o.step HeadSize TailSize file).2.state.rank) :
    file.state.valid_head.isSome = true := by
  obtain ⟨s⟩ := o
  cases s
  · by_cases h1 : file.has_valid_head HeadSize = true
    · exact has_valid_head_isSome file HeadSize h1
    · simp [PlainGcodeDownloadOrder.step, h1, PlainGcodeDownloadOrder.State.rank] at h
  all_goals exact hinv (by simp [PlainGcodeDownloadOrder.State.rank])

theorem grownFrom_head (a b : PartialFile) (hg : a.grownFrom b)
    (h : a.state.valid_head.isSome = true) : b.state.valid_head.isSome = true := by
  obtain ⟨parts, hp⟩ := hg
  rw [hp]
  exact applyParts_head_isSome parts a.state h

theorem plainGcode_run_head (HeadSize TailSize : Nat) (fs : List PartialFile) :
    ∀ (f0 : PartialFile) (o : PlainGcodeDownloadOrder), growing f0 fs →
      (1 ≤ o.state.rank → f0.state.valid_head.isSome = true) →
      1 ≤ (PlainGcodeDownloadOrder.run HeadSize TailSize o fs).2.state.rank →
      (lastSnapshot f0 fs).state.valid_head.isSome = true := by
  induction fs with
  | nil =>
    intro f0 o _ hinv h
    exact hinv h
  | cons g gs ih =>
    intro f0 o hgrow hinv h
    obtain ⟨hg1, hg2⟩ := hgrow
    simp only [PlainGcodeDownloadOrder.run] at h
    simp only [lastSnapshot]
    refine ih g (o.step HeadSize TailSize g).2 hg2 ?_ h
    intro h2
    exact plainGcode_step_head HeadSize TailSize o g
      (fun h3 => grownFrom_head f0 g hg1 (hinv h3)) h2

/-- C17: the value of `PlainGcodeDownloadOrder::get_next_offset` in each order state; and for
an order made by the constructor and advanced by `step` over the snapshots of a file whose
valid ranges only grow, a valid head is present once the order has left `DownloadingHeader`, in
particular in `DownloadedBase`, `DownloadingBody` and `Finished`, so the value is defined and is
`valid_head.end`. -/
theorem plainGcode_get_next_offset_spec (HeadSize TailSize : Nat) (f0 : PartialFile)
    (fs : List PartialFile) (g : PartialFile) (hgrow : growing f0 fs)
    (hg : (lastSnapshot f0 fs).grownFrom g) :
    (∀ file : PartialFile,
      (⟨PlainGcodeDownloadOrder.State.DownloadingHeader⟩ :
          PlainGcodeDownloadOrder).get_next_offset TailSize file
        = (match file.state.valid_head with
          | some head => some head.«end»
          | none => some 0) ∧
      (⟨PlainGcodeDownloadOrder.State.DownloadingTail⟩ :
          PlainGcodeDownloadOrder).get_next_offset TailSize file
        = (match file.state.valid_tail with
          | some tail => some tail.«end»
          | none => some ((file.state.total_size + SIZE_MOD - TailSize) % SIZE_MOD)) ∧
      (∀ s, s = PlainGcodeDownloadOrder.State.DownloadedBase ∨
          s = PlainGcodeDownloadOrder.State.DownloadingBody ∨
          s = PlainGcodeDownloadOrder.State.Finished →
        (⟨s⟩ : PlainGcodeDownloadOrder).get_next_offset TailSize file
          = file.state.valid_head.map (fun head => head.«end»))) ∧
    (1 ≤ (PlainGcodeDownloadOrder.run HeadSize TailSize
          (PlainGcodeDownloadOrder.new HeadSize TailSize f0) fs).2.state.rank →
      ∃ head, g.state.valid_head = some head ∧
        (2 ≤ (PlainGcodeDownloadOrder.run HeadSize TailSize
            (PlainGcodeDownloadOrder.new HeadSize TailSize f0) fs).2.state.rank →
          (PlainGcodeDownloadOrder.run HeadSize TailSize
            (PlainGcodeDownloadOrder.new HeadSize TailSize f0) fs).2.get_next_offset TailSize g
            = some head.«end»)) := by
  constructor
  · intro file
    refine ⟨?_, ?_, ?_⟩
    · simp only [PlainGcodeDownloadOrder.get_next_offset, PartialFile.get_valid_head]
    · simp only [PlainGcodeDownloadOrder.get_next_offset, PartialFile.get_valid_tail,
        PartialFile.final_size]
      cases file.state.valid_tail <;> simp
    · intro s hs
      rcases hs with rfl | rfl | rfl <;>
        simp only [PlainGcodeDownloadOrder.get_next_offset, PartialFile.get_valid_head] <;>
        cases file.state.valid_head <;> rfl
  · intro h
    have h1 := plainGcode_run_head HeadSize TailSize fs f0
      (PlainGcodeDownloadOrder.new HeadSize TailSize f0) hgrow
      (plainGcode_new_head HeadSize TailSize f0) h
    have h2 := grownFrom_head _ g hg h1
    obtain ⟨head, hh⟩ := Option.isSome_iff_exists.1 h2
    refine ⟨head, hh, ?_⟩
    intro h3
    generalize (PlainGcodeDownloadOrder.run HeadSize TailSize
      (PlainGcodeDownloadOrder.new HeadSize TailSize f0) fs).2 = o at h3
    obtain ⟨s⟩ := o
    cases s <;>
      simp [PlainGcodeDownloadOrder.State.rank, PlainGcodeDownloadOrder.get_next_offset,
        PartialFile.get_valid_head, hh] at h3 ⊢

/-- Witness for C17: a 1024-byte file with `HeadSize = TailSize = 512` whose sector 0 is valid
when the order is made, and whose sector 1 completes before the first `step`. -/
theorem plainGcode_get_next_offset_spec_witness :
    (growing (PartialFile.init 4 100 (sectorWrites 1024 [0]))
        [PartialFile.init 4 100 (sectorWrites 1024 [0, 1])] ∧
      (lastSnapshot (PartialFile.init 4 100 (sectorWrites 1024 [0]))
          [PartialFile.init 4 100 (sectorWrites 1024 [0, 1])]).grownFrom
        (PartialFile.init 4 100 (sectorWrites 1024 [0, 1]))) ∧
    (PlainGcodeDownloadOrder.run 512 512
        (PlainGcodeDownloadOrder.new 512 512 (PartialFile.init 4 100 (sectorWrites 1024 [0])))
        [PartialFile.init 4 100 (sectorWrites 1024 [0, 1])]).2.state
      = PlainGcodeDownloadOrder.State.DownloadedBase ∧
    ∃ head, (PartialFile.init 4 100 (sectorWrites 1024 [0, 1])).state.valid_head = some head ∧
      (2 ≤ (PlainGcodeDownloadOrder.run 512 512
          (PlainGcodeDownloadOrder.new 512 512
            (PartialFile.init 4 100 (sectorWrites 1024 [0])))
          [PartialFile.init 4 100 (sectorWrites 1024 [0, 1])]).2.state.rank →
        (PlainGcodeDownloadOrder.run 512 512
          (PlainGcodeDownloadOrder.new 512 512
            (PartialFile.init 4 100 (sectorWrites 1024 [0])))
          [PartialFile.init 4 100 (sectorWrites 1024 [0, 1])]).2.get_next_offset 512
            (PartialFile.init 4 100 (sectorWrites 1024 [0, 1]))
          = some head.«end») :=
  ⟨⟨⟨⟨[sectorPart 1024 1], rfl⟩, trivial⟩, ⟨[], rfl⟩⟩, by decide,
   (plainGcode_get_next_offset_spec 512 512 (PartialFile.init 4 100 (sectorWrites 1024 [0]))
     [PartialFile.init 4 100 (sectorWrites 1024 [0, 1])]
     (PartialFile.init 4 100 (sectorWrites 1024 [0, 1]))
     ⟨⟨[sectorPart 1024 1], rfl⟩, trivial⟩ ⟨[], rfl⟩).2 (by decide)⟩

/-! ### The transfer controller -/

theorem merge_start_aligned (a b : ValidPart) (ha : a.start % SECTOR_SIZE = 0)
    (hb : b.start % SECTOR_SIZE = 0) : (a.merge b).start % SECTOR_SIZE = 0 := by
  simp only [ValidPart.merge]
  split_ifs <;> assumption

theorem preMeet_aligned (st : State) (new_part : ValidPart)
    (h : st.startsAligned = true) (hn : new_part.start % SECTOR_SIZE = 0) :
    (preMeet st new_part).startsAligned = true := by
  obtain ⟨hd, tl, n⟩ := st
  cases hd with
  | none =>
    cases tl with
    | none =>
      by_cases c1 : new_part.start = 0 <;> by_cases c2 : new_part.«end» = n <;>
        by_cases c3 : new_part.start > new_part.«end» <;>
        by_cases c4 : new_part.start > 0 <;>
        simp [preMeet, State.startsAligned, c1, c2, c3, c4, hn]
    | some t =>
      have ht : t.start % SECTOR_SIZE = 0 := by
        simpa [State.startsAligned] using h
      have hm := merge_start_aligned t new_part ht hn
      by_cases c1 : new_part.start = 0 <;> by_cases c2 : new_part.«end» = n <;>
        simp [preMeet, State.startsAligned, c1, c2, hn, hm]
  | some hh =>
    have h1 : hh.start % SECTOR_SIZE = 0 := by
      cases tl <;> simp [State.startsAligned] at h
      · exact h
      · exact h.1
    have hm := merge_start_aligned hh new_part h1 hn
    cases tl with
    | none =>
      by_cases c2 : (hh.merge new_part).«end» = n <;>
        by_cases c3 : new_part.start > (hh.merge new_part).«end» <;>
        simp [preMeet, State.startsAligned, c2, c3, hn, hm]
    | some t =>
      have ht : t.start % SECTOR_SIZE = 0 := by
        simp [State.startsAligned] at h
        exact h.2
      have hm2 := merge_start_aligned t new_part ht hn
      by_cases c2 : (hh.merge new_part).«end» = n <;>
        simp [preMeet, State.startsAligned, c2, hn, hm, hm2]

theorem meetParts_aligned (st : State) (h : st.startsAligned = true) :
    (meetParts st).startsAligned = true := by
  obtain ⟨hd, tl, n⟩ := st
  cases hd with
  | none => cases tl <;> exact h
  | some hh =>
    cases tl with
    | none => exact h
    | some t =>
      simp only [State.startsAligned, Bool.and_eq_true, decide_eq_true_eq] at h
      have hm := merge_start_aligned hh t h.1 h.2
      have hm2 := merge_start_aligned t (hh.merge t) h.2 hm
      simp [meetParts, State.startsAligned, hm, hm2]

theorem extend_valid_part_aligned (st : State) (new_part : ValidPart)
    (h : st.startsAligned = true) (hn : new_part.start % SECTOR_SIZE = 0) :
    (extend_valid_part st new_part).startsAligned = true := by
  rw [extend_valid_part_eq]
  exact meetParts_aligned _ (preMeet_aligned st new_part h hn)

theorem applyParts_aligned (parts : List ValidPart) (st : State)
    (h : st.startsAligned = true) (hp : ∀ p ∈ parts, p.start % SECTOR_SIZE = 0) :
    (applyParts st parts).startsAligned = true := by
  induction parts generalizing st with
  | nil => exact h
  | cons p ps ih =>
    exact ih _ (extend_valid_part_aligned st p h (hp p (List.mem_cons_self _ _)))
      (fun q hq => hp q (List.mem_cons_of_mem _ hq))

theorem sectorWrites_aligned (total : Nat) (ks : List Nat) :
    (sectorWrites total ks).startsAligned = true := by
  apply applyParts_aligned
  · simp [State.startsAligned, emptyState]
  · intro p hp
    obtain ⟨k, -, rfl⟩ := List.mem_map.1 hp
    simp [sectorPart]

theorem restart_download_range_position (o : Nat) (pf : PartialFile) (ho : o < SIZE_MOD) :
    (Transfer.restart_download_range o pf).position = o / SECTOR_SIZE * SECTOR_SIZE := by
  have h : o % SIZE_MOD / SECTOR_SIZE * SECTOR_SIZE % SIZE_MOD = o / SECTOR_SIZE * SECTOR_SIZE := by
    simp only [SIZE_MOD, SECTOR_SIZE] at ho ⊢
    omega
  simp only [Transfer.restart_download_range, h]
  split
  · split_ifs <;> rfl
  · rfl

/-- C19: `restart_download` requests the range that starts at the largest multiple of
`SECTOR_SIZE` not above the next offset; `end_range` is set, to `valid_tail.start − 1`, exactly
when a valid tail is present that ends at `final_size` and starts after `position`; then the
subtraction does not underflow, `position ≤ end_range`, and no byte of the tail lies in the
requested range.  For file states reached by sector completions the assertion on the tail start
holds. -/
theorem restart_download_range_spec (o : Nat) (pf : PartialFile) (ho : o < SIZE_MOD)
    (hts : ∀ tail, pf.state.valid_tail = some tail → tail.start < SIZE_MOD) :
    ((Transfer.restart_download_range o pf).position % SECTOR_SIZE = 0 ∧
      (Transfer.restart_download_range o pf).position ≤ o ∧
      ∀ m, m % SECTOR_SIZE = 0 → m ≤ o → m ≤ (Transfer.restart_download_range o pf).position) ∧
    ((Transfer.restart_download_range o pf).end_range.isSome = true ↔
      ∃ tail, pf.state.valid_tail = some tail ∧ tail.«end» = pf.state.total_size ∧
        (Transfer.restart_download_range o pf).position < tail.start) ∧
    (∀ tail, pf.state.valid_tail = some tail → tail.«end» = pf.state.total_size →
      (Transfer.restart_download_range o pf).position < tail.start →
      (Transfer.restart_download_range o pf).end_range = some (tail.start - 1) ∧
      1 ≤ tail.start ∧
      (Transfer.restart_download_range o pf).position ≤ tail.start - 1 ∧
      ∀ b, (Transfer.restart_download_range o pf).position ≤ b → b ≤ tail.start - 1 →
        tail.contains b = false) ∧
    (∀ total ks, pf.state = sectorWrites total ks →
      (Transfer.restart_download_range o pf).tail_aligned = true) := by
  have hpos := restart_download_range_position o pf ho
  refine ⟨?_, ?_, ?_, ?_⟩
  · rw [hpos]
    simp only [SECTOR_SIZE]
    refine ⟨by omega, by omega, ?_⟩
    intro m h1 h2
    omega
  · rw [hpos]
    simp only [Transfer.restart_download_range, PartialFile.get_valid_tail,
      PartialFile.final_size]
    cases htl : pf.state.valid_tail with
    | none => simp
    | some t =>
      have hlt := hts t htl
      have h : o % SIZE_MOD / SECTOR_SIZE * SECTOR_SIZE % SIZE_MOD
          = o / SECTOR_SIZE * SECTOR_SIZE := by
        simp only [SIZE_MOD, SECTOR_SIZE] at ho ⊢
        omega
      simp only [Option.isSome_some, if_true, h, Option.some.injEq, exists_eq_left']
      split_ifs with hc
      · simp only [Option.isSome_some, true_iff]
        exact hc
      · simp only [Option.isSome_none, Bool.false_eq_true, false_iff]
        exact hc
  · intro tail htl hend hlt
    have hlt2 := hts tail htl
    have h : o % SIZE_MOD / SECTOR_SIZE * SECTOR_SIZE % SIZE_MOD
        = o / SECTOR_SIZE * SECTOR_SIZE := by
      simp only [SIZE_MOD, SECTOR_SIZE] at ho ⊢
      omega
    rw [hpos] at hlt ⊢
    have hsub : (tail.start + SIZE_MOD - 1) % SIZE_MOD = tail.start - 1 := by
      simp only [SIZE_MOD] at hlt2 ⊢
      omega
    refine ⟨?_, by omega, by omega, ?_⟩
    · simp only [Transfer.restart_download_range, PartialFile.get_valid_tail,
        PartialFile.final_size, htl, Option.isSome_some, if_true, h]
      rw [if_pos ⟨hend, hlt⟩, hsub]
    · intro b _ hb
      simp only [ValidPart.contains, Bool.and_eq_false_imp, decide_eq_true_eq,
        decide_eq_false_iff_not]
      intro hb2
      omega
  · intro total ks hst
    have ha := sectorWrites_aligned total ks
    rw [← hst] at ha
    simp only [Transfer.restart_download_range, PartialFile.get_valid_tail]
    cases htl : pf.state.valid_tail with
    | none => simp
    | some t =>
      have hal : t.start % SECTOR_SIZE = 0 := by
        cases hhd : pf.state.valid_head <;>
          simp [State.startsAligned, htl, hhd] at ha
        · exact ha
        · exact ha.2
      simp only [Option.isSome_some, if_true]
      split_ifs
      · simp [hal]
      · rfl

/-- Witness for C19: a 4096-byte file whose sectors 0 and 7 are valid; the next offset 700 is
rounded down to 512 and the range ends at 3583. -/
theorem restart_download_range_spec_witness :
    ((700 : Nat) < SIZE_MOD ∧
      ∀ tail, (PartialFile.init 4 100 (sectorWrites 4096 [0, 7])).state.valid_tail = some tail →
        tail.start < SIZE_MOD) ∧
    ((Transfer.restart_download_range 700
        (PartialFile.init 4 100 (sectorWrites 4096 [0, 7]))).end_range.isSome = true ↔
      ∃ tail, (PartialFile.init 4 100 (sectorWrites 4096 [0, 7])).state.valid_tail = some tail ∧
        tail.«end» = (PartialFile.init 4 100 (sectorWrites 4096 [0, 7])).state.total_size ∧
        (Transfer.restart_download_range 700
          (PartialFile.init 4 100 (sectorWrites 4096 [0, 7]))).position < tail.start) ∧
    Transfer.restart_download_range 700 (PartialFile.init 4 100 (sectorWrites 4096 [0, 7]))
      = ⟨512, some 3583, true⟩ :=
  ⟨⟨by decide, by
      intro tail h
      have h2 : (PartialFile.init 4 100 (sectorWrites 4096 [0, 7])).state.valid_tail
          = some ⟨3584, 4096⟩ := by decide
      rw [h2] at h
      cases h
      decide⟩,
   (restart_download_range_spec 700 (PartialFile.init 4 100 (sectorWrites 4096 [0, 7]))
     (by decide) (by
      intro tail h
      have h2 : (PartialFile.init 4 100 (sectorWrites 4096 [0, 7])).state.valid_tail
          = some ⟨3584, 4096⟩ := by decide
      rw [h2] at h
      cases h
      decide)).2.1,
   by decide⟩

/-- C20: for a Transfer in state `Downloading` or `Retrying` (where the partial file is set),
`recoverable_failure(is_printing)` returns; with `retries_left > 0` the state becomes
`Retrying`, the download and `restart_requested_by_jump` are cleared, and `retries_left` drops
by exactly 1 when not printing and is kept when printing; with `retries_left == 0` the result
is that of `done(Failed, Error)`, in state `Failed`.  `retries_left` never increases. -/
theorem recoverable_failure_spec (t : Transfer) (is_printing : Bool)
    (hstate : t.state = Transfer.State.Downloading ∨ t.state = Transfer.State.Retrying)
    (hpf : t.partial_file.isSome = true) :
    ∃ t2, t.recoverable_failure is_printing = some t2 ∧
      (0 < t.retries_left →
        t2.state = Transfer.State.Retrying ∧ t2.download = none ∧
        t2.restart_requested_by_jump = false ∧ t2.partial_file = t.partial_file ∧
        (is_printing = false → t2.retries_left + 1 = t.retries_left) ∧
        (is_printing = true → t2.retries_left = t.retries_left)) ∧
      (t.retries_left = 0 →
        t2 = t.done Transfer.State.Failed Monitor.Outcome.Error ∧
        t2.state = Transfer.State.Failed ∧ t2.download = none ∧ t2.partial_file = none ∧
        t2.retries_left = 0) ∧
      t2.retries_left ≤ t.retries_left ∧
      (∀ s oc, (t.done s oc).retries_left = t.retries_left ∧ (t.done s oc).state = s) := by
  have hdone : ∀ s oc, (t.done s oc).retries_left = t.retries_left ∧ (t.done s oc).state = s ∧
      (t.done s oc).download = none ∧ (t.done s oc).partial_file = none := by
    intro s oc
    simp only [Transfer.done]
    split_ifs <;> exact ⟨rfl, rfl, rfl, rfl⟩
  obtain ⟨pf, hpf2⟩ := Option.isSome_iff_exists.1 hpf
  by_cases hr : t.retries_left > 0
  · obtain ⟨st, dl, ord, pfo, r, j, ip, eff⟩ := t
    simp only at hpf2 hr
    subst hpf2
    cases is_printing with
    | false =>
      refine ⟨⟨Transfer.State.Retrying, none, ord, some pf, r - 1, false, ip,
          eff ++ [Transfer.Effect.slot_progress pf.get_state true]⟩,
        by simp [Transfer.recoverable_failure, hr], ?_, ?_, ?_,
        fun s oc => ⟨(hdone s oc).1, (hdone s oc).2.1⟩⟩
      · intro _
        refine ⟨rfl, rfl, rfl, rfl, ?_, ?_⟩
        · intro _
          show r - 1 + 1 = r
          omega
        · intro h
          cases h
      · intro h0
        simp only at h0
        omega
      · show r - 1 ≤ r
        omega
    | true =>
      refine ⟨⟨Transfer.State.Retrying, none, ord, some pf, r, false, ip,
          eff ++ [Transfer.Effect.slot_progress pf.get_state true]⟩,
        by simp [Transfer.recoverable_failure, hr], ?_, ?_, ?_,
        fun s oc => ⟨(hdone s oc).1, (hdone s oc).2.1⟩⟩
      · intro _
        refine ⟨rfl, rfl, rfl, rfl, ?_, ?_⟩
        · intro h
          cases h
        · intro _
          rfl
      · intro h0
        simp only at h0
        omega
      · exact le_refl _
  · refine ⟨t.done Transfer.State.Failed Monitor.Outcome.Error,
      by simp only [Transfer.recoverable_failure, if_neg hr], ?_, ?_, ?_,
      fun s oc => ⟨(hdone s oc).1, (hdone s oc).2.1⟩⟩
    · intro h0
      exact absurd h0 hr
    · intro h0
      obtain ⟨a1, a2, a3, a4⟩ := hdone Transfer.State.Failed Monitor.Outcome.Error
      exact ⟨rfl, a2, a3, a4, a1.trans h0⟩
    · exact le_of_eq (hdone _ _).1

/-- Witness for C20: a retrying transfer of an empty 1024-byte file with two retries left,
while not printing. -/
theorem recoverable_failure_spec_witness :
    (((⟨Transfer.State.Retrying, none, none, some (PartialFile.init 4 100 (emptyState 1024)), 2,
          true, true, []⟩ : Transfer).state = Transfer.State.Downloading ∨
        (⟨Transfer.State.Retrying, none, none, some (PartialFile.init 4 100 (emptyState 1024)),
          2, true, true, []⟩ : Transfer).state = Transfer.State.Retrying) ∧
      (⟨Transfer.State.Retrying, none, none, some (PartialFile.init 4 100 (emptyState 1024)), 2,
        true, true, []⟩ : Transfer).partial_file.isSome = true) ∧
    ∃ t2, (⟨Transfer.State.Retrying, none, none, some (PartialFile.init 4 100 (emptyState 1024)),
        2, true, true, []⟩ : Transfer).recoverable_failure false = some t2 ∧
      t2.state = Transfer.State.Retrying ∧ t2.retries_left = 1 ∧
      t2.restart_requested_by_jump = false :=
  ⟨⟨Or.inr rfl, rfl⟩,
   (recoverable_failure_spec ⟨Transfer.State.Retrying, none, none,
      some (PartialFile.init 4 100 (emptyState 1024)), 2, true, true, []⟩ false (Or.inr rfl)
      rfl).elim (fun t2 h => ⟨t2, h.1, (h.2.1 (by decide)).1,
        by have := (h.2.1 (by decide)).2.2.2.2.1 rfl; simp only at this; omega,
        (h.2.1 (by decide)).2.2.1⟩)⟩

/-! ### Monotone merging of the valid ranges -/

/-- Counting the offsets below `n` that lie in `[0, he)` or in `[ts, te)`, for separated
ranges. -/
theorem card_filter_range_parts (n he ts te : Nat) (h1 : he ≤ ts) (h2 : ts ≤ te)
    (h3 : te ≤ n) :
    ((Finset.range n).filter (fun o => o < he ∨ (ts ≤ o ∧ o < te))).card = he + (te - ts) := by
  have : (Finset.range n).filter (fun o => o < he ∨ (ts ≤ o ∧ o < te))
      = Finset.range he ∪ Finset.Ico ts te := by
    ext o
    simp only [Finset.mem_filter, Finset.mem_range, Finset.mem_union, Finset.mem_Ico]
    omega
  rw [this, Finset.card_union_of_disjoint, Finset.card_range, Nat.card_Ico]
  rw [Finset.disjoint_left]
  intro o
  simp only [Finset.mem_range, Finset.mem_Ico]
  omega

/-- In a well-formed state `get_valid_size()` counts the covered offsets. -/
theorem get_valid_size_of_wellFormed (st : State) (hwf : st.wellFormed = true)
    (hsz : st.total_size < SIZE_MOD) : st.get_valid_size = st.coveredCount := by
  obtain ⟨hd, tl, n⟩ := st
  simp only at hsz
  simp only [SIZE_MOD] at hsz
  cases hd with
  | none =>
    cases tl with
    | none => simp [State.get_valid_size, State.coveredCount, State.covers, SIZE_MOD]
    | some t =>
      obtain ⟨ts, te⟩ := t
      simp only [State.wellFormed, ValidPart.within, Bool.and_eq_true, decide_eq_true_eq,
        Bool.true_and, Bool.and_true] at hwf
      have hc := card_filter_range_parts n 0 ts te (Nat.zero_le _) (by omega) (by omega)
      simp only [Nat.not_lt_zero, false_or, Nat.zero_add] at hc
      simp only [State.coveredCount, State.covers, ValidPart.contains, Bool.false_or,
        Bool.and_eq_true, decide_eq_true_eq, State.get_valid_size, hc, SIZE_MOD]
      omega
  | some h =>
    obtain ⟨hs, he⟩ := h
    cases tl with
    | none =>
      simp only [State.wellFormed, ValidPart.within, Bool.and_eq_true, decide_eq_true_eq,
        Bool.true_and, Bool.and_true] at hwf
      obtain ⟨⟨h1, h2⟩, h3⟩ := hwf
      subst h3
      have hc := card_filter_range_parts n he n n (by omega) (le_refl _) (le_refl _)
      have hf : (Finset.range n).filter (fun o => 0 ≤ o ∧ o < he)
          = (Finset.range n).filter (fun o => o < he ∨ (n ≤ o ∧ o < n)) := by
        ext o
        simp only [Finset.mem_filter, Finset.mem_range]
        omega
      simp only [State.coveredCount, State.covers, ValidPart.contains, Bool.or_false,
        Bool.and_eq_true, decide_eq_true_eq, State.get_valid_size, hf, hc, SIZE_MOD]
      omega
    | some t =>
      obtain ⟨ts, te⟩ := t
      simp only [State.wellFormed, ValidPart.within, Bool.and_eq_true, decide_eq_true_eq,
        Bool.or_eq_true, ValidPart.mk.injEq] at hwf
      obtain ⟨⟨⟨⟨h1, h2⟩, h3⟩, h4, h5⟩, h6⟩ := hwf
      subst h3
      simp only [State.coveredCount, State.covers, ValidPart.contains, Bool.or_eq_true,
        Bool.and_eq_true, decide_eq_true_eq, State.get_valid_size]
      rcases h6 with h6 | ⟨h6, h7⟩
      · have hc := card_filter_range_parts n he ts te (by omega) (by omega) (by omega)
        have hf : (Finset.range n).filter (fun o => (0 ≤ o ∧ o < he) ∨ (ts ≤ o ∧ o < te))
            = (Finset.range n).filter (fun o => o < he ∨ (ts ≤ o ∧ o < te)) := by
          ext o
          simp only [Finset.mem_filter, Finset.mem_range]
          omega
        rw [hf, hc]
        simp only [SIZE_MOD]
        split_ifs <;> omega
      · subst h6 h7
        have hc := card_filter_range_parts n he n n (by omega) (le_refl _) (le_refl _)
        have hf : (Finset.range n).filter (fun o => (0 ≤ o ∧ o < he) ∨ (0 ≤ o ∧ o < he))
            = (Finset.range n).filter (fun o => o < he ∨ (n ≤ o ∧ o < n)) := by
          ext o
          simp only [Finset.mem_filter, Finset.mem_range]
          omega
        rw [hf, hc]
        simp only [SIZE_MOD]
        split_ifs <;> omega

theorem coveredCount_le_total (st : State) : st.coveredCount ≤ st.total_size := by
  simp only [State.coveredCount]
  exact (Finset.card_filter_le _ _).trans (le_of_eq (Finset.card_range _))

theorem coveredCount_mono (a b : State) (hn : b.total_size = a.total_size)
    (h : ∀ o, a.covers o = true → b.covers o = true) : a.coveredCount ≤ b.coveredCount := by
  simp only [State.coveredCount, hn]
  apply Finset.card_le_card
  intro o
  simp only [Finset.mem_filter, Finset.mem_range]
  exact fun ⟨h1, h2⟩ => ⟨h1, h o h2⟩

/-- C26: `extend_valid_part` preserves the well-formedness of the tracker (present parts have
`start < end ≤ total_size`, the head starts at 0, head and tail are strictly separated or the
same part) for every new part with `start < end ≤ total_size`, and keeps `total_size`. -/
theorem extend_valid_part_preserves_wellFormed (st : State) (new_part : ValidPart)
    (hwf : st.wellFormed = true) (hnew : new_part.within st.total_size = true) :
    (extend_valid_part st new_part).wellFormed = true ∧
    (extend_valid_part st new_part).total_size = st.total_size := by
  obtain ⟨a1, a2, -, -, -⟩ := extend_valid_part_spec st new_part hwf hnew
  exact ⟨a1, a2⟩

/-- Witness for C26: the part `{512, 1024}` closes the gap between head `{0, 512}` and tail
`{1024, 2048}` of a 2048-byte file. -/
theorem extend_valid_part_preserves_wellFormed_witness :
    ((⟨some ⟨0, 512⟩, some ⟨1024, 2048⟩, 2048⟩ : State).wellFormed = true ∧
      (⟨512, 1024⟩ : ValidPart).within 2048 = true) ∧
    (extend_valid_part ⟨some ⟨0, 512⟩, some ⟨1024, 2048⟩, 2048⟩ ⟨512, 1024⟩).wellFormed = true ∧
    extend_valid_part ⟨some ⟨0, 512⟩, some ⟨1024, 2048⟩, 2048⟩ ⟨512, 1024⟩
      = ⟨some ⟨0, 2048⟩, some ⟨0, 2048⟩, 2048⟩ :=
  ⟨⟨by decide, by decide⟩,
   (extend_valid_part_preserves_wellFormed ⟨some ⟨0, 512⟩, some ⟨1024, 2048⟩, 2048⟩ ⟨512, 1024⟩
     (by decide) (by decide)).1, by decide⟩

/-- C28: in a well-formed state of a file below 2^32 bytes, `extend_valid_part` with a part
`start < end ≤ total_size` keeps every covered offset covered, and `get_valid_size()` does not
decrease and stays at most `total_size`. -/
theorem extend_valid_part_monotone (st : State) (new_part : ValidPart)
    (hwf : st.wellFormed = true) (hnew : new_part.within st.total_size = true)
    (hsz : st.total_size < SIZE_MOD) :
    (∀ o, st.covers o = true → (extend_valid_part st new_part).covers o = true) ∧
    st.get_valid_size ≤ (extend_valid_part st new_part).get_valid_size ∧
    (extend_valid_part st new_part).get_valid_size ≤ st.total_size := by
  obtain ⟨a1, a2, -, a4, -⟩ := extend_valid_part_spec st new_part hwf hnew
  have e1 := get_valid_size_of_wellFormed st hwf hsz
  have e2 := get_valid_size_of_wellFormed _ a1 (by rw [a2]; exact hsz)
  refine ⟨a4, ?_, ?_⟩
  · rw [e1, e2]
    exact coveredCount_mono _ _ a2 a4
  · rw [e2, ← a2]
    exact coveredCount_le_total _

/-- Witness for C28: sector 1 extends the head `{0, 512}` of a 2048-byte file whose tail is
`{1536, 2048}`; the valid size grows from 1024 to 1536. -/
theorem extend_valid_part_monotone_witness :
    ((⟨some ⟨0, 512⟩, some ⟨1536, 2048⟩, 2048⟩ : State).wellFormed = true ∧
      (⟨512, 1024⟩ : ValidPart).within 2048 = true ∧ 2048 < SIZE_MOD) ∧
    (⟨some ⟨0, 512⟩, some ⟨1536, 2048⟩, 2048⟩ : State).get_valid_size = 1024 ∧
    (extend_valid_part ⟨some ⟨0, 512⟩, some ⟨1536, 2048⟩, 2048⟩ ⟨512, 1024⟩).get_valid_size
      = 1536 ∧
    (⟨some ⟨0, 512⟩, some ⟨1536, 2048⟩, 2048⟩ : State).get_valid_size
      ≤ (extend_valid_part ⟨some ⟨0, 512⟩, some ⟨1536, 2048⟩, 2048⟩
          ⟨512, 1024⟩).get_valid_size :=
  ⟨⟨by decide, by decide, by decide⟩, by decide, by decide,
   (extend_valid_part_monotone ⟨some ⟨0, 512⟩, some ⟨1536, 2048⟩, 2048⟩ ⟨512, 1024⟩
     (by decide) (by decide) (by decide)).2.1⟩

/-! ### The sector pool -/

theorem countr_one_aux_spec (w : Nat) : ∀ m : Nat,
    countr_one_aux w m ≤ w ∧
    (∀ j, j < countr_one_aux w m → m.testBit j = true) ∧
    (countr_one_aux w m < w → m.testBit (countr_one_aux w m) = false) := by
  induction w with
  | zero =>
    intro m
    simp [countr_one_aux]
  | succ w ih =>
    intro m
    by_cases h : m % 2 = 1
    · obtain ⟨a1, a2, a3⟩ := ih (m / 2)
      simp only [countr_one_aux, if_pos h]
      refine ⟨by omega, ?_, ?_⟩
      · intro j hj
        cases j with
        | zero => simp [Nat.testBit_zero, h]
        | succ j =>
          rw [Nat.testBit_succ]
          exact a2 j (by omega)
      · intro hlt
        rw [Nat.testBit_succ]
        exact a3 (by omega)
    · simp only [countr_one_aux, if_neg h]
      refine ⟨Nat.zero_le _, fun j hj => absurd hj (Nat.not_lt_zero _), fun _ => ?_⟩
      simp [Nat.testBit_zero, h]

theorem set_bit_testBit (mask slot i : Nat) (hm : mask < 2 ^ 32) (hs : slot < 32) :
    ((mask ||| (1 <<< slot)) % 2 ^ 32).testBit i = (mask.testBit i || decide (i = slot)) := by
  rw [Nat.one_shiftLeft, Nat.testBit_mod_two_pow, Nat.testBit_or, Nat.testBit_two_pow]
  by_cases hi : i < 32
  · by_cases he : slot = i
    · subst he
      simp [hi]
    · have : ¬ i = slot := fun h => he h.symm
      simp [hi, he, this]
  · have hf : mask.testBit i = false :=
      Nat.testBit_lt_two_pow (lt_of_lt_of_le hm (Nat.pow_le_pow_right (by decide) (by omega)))
    have : ¬ i = slot := by omega
    simp [hi, hf, this]

theorem set_bit_lt (mask slot : Nat) : (mask ||| (1 <<< slot)) % 2 ^ 32 < 2 ^ 32 :=
  Nat.mod_lt _ (by decide)

theorem clear_bit_lt (mask x : Nat) (hm : mask < 2 ^ 32) : mask &&& x < 2 ^ 32 :=
  lt_of_le_of_lt Nat.and_le_left hm

theorem acquiredCount_set (p : SectorPool) (mask : Nat) (slot : Nat) (hs : slot < p.size)
    (hc : p.slot_mask.testBit slot = false)
    (hm : ∀ i, mask.testBit i = (p.slot_mask.testBit i || decide (i = slot))) :
    ((Finset.range p.size).filter (fun i => mask.testBit i = true)).card
      = p.acquiredCount + 1 := by
  have : (Finset.range p.size).filter (fun i => mask.testBit i = true)
      = insert slot ((Finset.range p.size).filter (fun i => p.slot_mask.testBit i = true)) := by
    ext i
    simp only [Finset.mem_filter, Finset.mem_range, Finset.mem_insert, hm, Bool.or_eq_true,
      decide_eq_true_eq]
    constructor
    · rintro ⟨h1, h2 | h2⟩
      · exact Or.inr ⟨h1, h2⟩
      · exact Or.inl h2
    · rintro (h | ⟨h1, h2⟩)
      · exact ⟨h ▸ hs, Or.inr h⟩
      · exact ⟨h1, Or.inl h2⟩
  rw [this, Finset.card_insert_of_not_mem, SectorPool.acquiredCount]
  simp [hc]

theorem acquiredCount_clear (p : SectorPool) (mask : Nat) (slot : Nat) (hs : slot < p.size)
    (hc : p.slot_mask.testBit slot = true)
    (hm : ∀ i, mask.testBit i = (p.slot_mask.testBit i && decide (i ≠ slot))) :
    ((Finset.range p.size).filter (fun i => mask.testBit i = true)).card + 1
      = p.acquiredCount := by
  have : (Finset.range p.size).filter (fun i => mask.testBit i = true)
      = ((Finset.range p.size).filter (fun i => p.slot_mask.testBit i = true)).erase slot := by
    ext i
    simp only [Finset.mem_filter, Finset.mem_range, Finset.mem_erase, hm, Bool.and_eq_true,
      decide_eq_true_eq]
    constructor
    · rintro ⟨h1, h2, h3⟩
      exact ⟨h3, h1, h2⟩
    · rintro ⟨h3, h1, h2⟩
      exact ⟨h1, h2, h3⟩
  have hmem : slot ∈ (Finset.range p.size).filter (fun i => p.slot_mask.testBit i = true) := by
    simp [hs, hc]
  rw [this, Finset.card_erase_of_mem hmem, SectorPool.acquiredCount]
  have := Finset.card_pos.2 ⟨slot, hmem⟩
  omega

theorem exists_clear_of_count_lt (p : SectorPool) (h : p.acquiredCount < p.size) :
    ∃ i, i < p.size ∧ p.slot_mask.testBit i = false := by
  by_contra hn
  have hall : ∀ i, i < p.size → p.slot_mask.testBit i = true := by
    intro i hi
    by_contra hc
    exact hn ⟨i, hi, by simpa using hc⟩
  have : (Finset.range p.size).filter (fun i => p.slot_mask.testBit i = true)
      = Finset.range p.size := by
    ext i
    simp only [Finset.mem_filter, Finset.mem_range]
    exact ⟨fun h => h.1, fun h => ⟨h, hall i h⟩⟩
  simp only [SectorPool.acquiredCount, this, Finset.card_range] at h
  omega

theorem init_consistent (N : Nat) (hN : N < 32) :
    (SectorPool.init N).consistent ∧ (SectorPool.init N).acquiredCount = 0 := by
  have hbit : ∀ i, ((0xFFFFFFFF <<< N) % SIZE_MOD).testBit i
      = (decide (i < 32) && decide (N ≤ i)) := by
    intro i
    have h2 : (0xFFFFFFFF : Nat) = 2 ^ 32 - 1 := by decide
    have h3 : SIZE_MOD = 2 ^ 32 := by decide
    rw [h3, Nat.testBit_mod_two_pow, Nat.testBit_shiftLeft, h2, Nat.testBit_two_pow_sub_one]
    by_cases h4 : i < 32 <;> by_cases h5 : N ≤ i <;> simp [h4, h5]
    omega
  have hcount : (SectorPool.init N).acquiredCount = 0 := by
    simp only [SectorPool.acquiredCount, SectorPool.init, Finset.card_eq_zero]
    ext i
    simp only [Finset.mem_filter, Finset.mem_range, hbit, Bool.and_eq_true, decide_eq_true_eq,
      Finset.not_mem_empty, iff_false]
    omega
  refine ⟨⟨hN, ?_, ?_, ?_⟩, hcount⟩
  · simp only [SectorPool.init]
    exact Nat.mod_lt _ (by decide)
  · intro i h1 h2
    simp only [SectorPool.init, hbit, Bool.and_eq_true, decide_eq_true_eq]
    exact ⟨h2, h1⟩
  · rw [hcount]
    simp [SectorPool.init]

theorem SectorPool.acquire_spec (p : SectorPool) (hc : p.consistent) :
    (p.semaphore = 0 → p.acquire = (none, p)) ∧
    (0 < p.semaphore → ∃ slot q, p.acquire = (some slot, q) ∧
      slot < p.size ∧ p.slot_mask.testBit slot = false ∧
      (∀ j, j < slot → p.slot_mask.testBit j = true) ∧
      (∀ i, q.slot_mask.testBit i = (p.slot_mask.testBit i || decide (i = slot))) ∧
      q.semaphore + 1 = p.semaphore ∧ q.size = p.size ∧
      q.acquiredCount = p.acquiredCount + 1 ∧ q.consistent) := by
  obtain ⟨c1, c2, c3, c4⟩ := hc
  constructor
  · intro h0
    simp [SectorPool.acquire, h0]
  · intro hpos
    obtain ⟨a1, a2, a3⟩ := countr_one_aux_spec 32 p.slot_mask
    obtain ⟨i, hi1, hi2⟩ := exists_clear_of_count_lt p (by omega)
    have hle : countr_one_aux 32 p.slot_mask ≤ i := by
      by_contra hn
      have := a2 i (by omega)
      rw [hi2] at this
      cases this
    have hslot : countr_one_aux 32 p.slot_mask < p.size := by omega
    have hclear := a3 (by omega)
    have hm : SIZE_MOD = 2 ^ 32 := by decide
    have hbits : ∀ j, ((p.slot_mask ||| (1 <<< countr_one_aux 32 p.slot_mask)) % SIZE_MOD).testBit j
        = (p.slot_mask.testBit j || decide (j = countr_one_aux 32 p.slot_mask)) := by
      intro j
      rw [hm]
      exact set_bit_testBit _ _ _ (by rw [← hm]; exact c2) (by omega)
    have hcount := acquiredCount_set p _ _ hslot hclear hbits
    refine ⟨countr_one_aux 32 p.slot_mask,
      { size := p.size, semaphore := p.semaphore - 1,
        slot_mask := (p.slot_mask ||| (1 <<< countr_one_aux 32 p.slot_mask)) % SIZE_MOD,
        pool := p.pool.modify (fun r => { r with data := List.replicate SECTOR_SIZE 0 })
          (countr_one_aux 32 p.slot_mask) }, by
      simp only [SectorPool.acquire, if_pos hpos, SectorPool.get_available_slot, countr_one],
      hslot, hclear, a2, hbits, ?_, rfl, hcount, c1, ?_, ?_, ?_⟩
    · show p.semaphore - 1 + 1 = p.semaphore
      omega
    · exact Nat.mod_lt _ (by decide)
    · intro j h1 h2
      show ((p.slot_mask ||| (1 <<< countr_one_aux 32 p.slot_mask)) % SIZE_MOD).testBit j = true
      rw [hbits, c3 j h1 h2]
      rfl
    · show ((Finset.range p.size).filter (fun i =>
          ((p.slot_mask ||| (1 <<< countr_one_aux 32 p.slot_mask)) % SIZE_MOD).testBit i
            = true)).card + (p.semaphore - 1) = p.size
      rw [hcount]
      omega

theorem SectorPool.release_spec (p : SectorPool) (hc : p.consistent) (slot : Nat)
    (ha : p.acquired slot = true) :
    (∀ i, (p.release slot).slot_mask.testBit i
      = (p.slot_mask.testBit i && decide (i ≠ slot))) ∧
    (p.release slot).semaphore = p.semaphore + 1 ∧ (p.release slot).size = p.size ∧
    (p.release slot).acquiredCount + 1 = p.acquiredCount ∧ (p.release slot).consistent := by
  obtain ⟨c1, c2, c3, c4⟩ := hc
  simp only [SectorPool.acquired, Bool.and_eq_true, decide_eq_true_eq] at ha
  obtain ⟨h1, h2⟩ := ha
  have hm : SIZE_MOD = 2 ^ 32 := by decide
  have hbits : ∀ i, (p.slot_mask &&& (0xFFFFFFFF ^^^ ((1 <<< slot) % SIZE_MOD))).testBit i
      = (p.slot_mask.testBit i && decide (i ≠ slot)) := by
    intro i
    rw [hm]
    exact clear_bit_testBit _ _ _ (by rw [← hm]; exact c2) (by omega)
  have hcount := acquiredCount_clear p _ _ h1 h2 hbits
  have hpos : 0 < p.acquiredCount := by
    rw [← hcount]
    exact Nat.succ_pos _
  have hsem : p.semaphore < p.size := by omega
  refine ⟨hbits, ?_, rfl, hcount, c1, ?_, ?_, ?_⟩
  · simp [SectorPool.release, SectorPool.xSemaphoreGive, hsem]
  · exact lt_of_le_of_lt Nat.and_le_left c2
  · intro j h3 h4
    show (p.slot_mask &&& (0xFFFFFFFF ^^^ ((1 <<< slot) % SIZE_MOD))).testBit j = true
    have h3' : p.size ≤ j := h3
    rw [hbits, c3 j h3' h4]
    have : j ≠ slot := by omega
    simp [this]
  · show ((Finset.range p.size).filter (fun i =>
        (p.slot_mask &&& (0xFFFFFFFF ^^^ ((1 <<< slot) % SIZE_MOD))).testBit i = true)).card
        + (SectorPool.release p slot).semaphore = p.size
    have : (SectorPool.release p slot).semaphore = p.semaphore + 1 := by
      simp [SectorPool.release, SectorPool.xSemaphoreGive, hsem]
    rw [this]
    omega

theorem SectorPool.run_consistent (calls : List SectorPool.Call) :
    ∀ p : SectorPool, p.consistent → p.legal calls →
      (p.run calls).consistent ∧ (p.run calls).size = p.size := by
  induction calls with
  | nil => exact fun p hc _ => ⟨hc, rfl⟩
  | cons c cs ih =>
    intro p hc hl
    cases c with
    | acquire =>
      have hq : (p.call SectorPool.Call.acquire).consistent ∧
          (p.call SectorPool.Call.acquire).size = p.size := by
        simp only [SectorPool.call]
        by_cases h0 : p.semaphore = 0
        · rw [(SectorPool.acquire_spec p hc).1 h0]
          exact ⟨hc, rfl⟩
        · obtain ⟨slot, q, e, -, -, -, -, -, hs, -, hq⟩ :=
            (SectorPool.acquire_spec p hc).2 (by omega)
          rw [e]
          exact ⟨hq, hs⟩
      obtain ⟨b1, b2⟩ := ih _ hq.1 hl
      exact ⟨b1, b2.trans hq.2⟩
    | release slot =>
      obtain ⟨hl1, hl2⟩ := hl
      obtain ⟨-, -, hs, -, hq⟩ := SectorPool.release_spec p hc slot hl1
      obtain ⟨b1, b2⟩ := ih _ hq hl2
      exact ⟨b1, b2.trans hs⟩

theorem acquire_of_pool (env : Env) (pf : PartialFile) (h : env.completions pf.takes = []) :
    (pf.acquire env).1 = pf.sector_pool.acquire.1 ∧
    (pf.acquire env).2.sector_pool = pf.sector_pool.acquire.2 := by
  simp only [PartialFile.acquire, PartialFile.xSemaphoreTake, h, List.foldl_nil,
    SectorPool.acquire]
  by_cases hs : 0 < pf.sector_pool.semaphore <;> simp [hs]

/-- C25: the pool of capacity `N` after any sequence of `acquire()` and `release(i)` calls in
which every release targets an acquired slot.  The acquired slots are at most `N` and are `N`
minus the count of the semaphore; a successful `acquire` returns the lowest slot whose bit is
clear, below `N`, sets that bit and takes one permit; `acquire` returns null exactly when no
permit is there; `release(i)` clears bit `i` and gives one permit back.  `acquire` of the write
path is this `acquire` when no completion runs during the take. -/
theorem sectorPool_acquire_release_spec (N : Nat) (hN : N < 32) (calls : List SectorPool.Call)
    (hl : (SectorPool.init N).legal calls) :
    (((SectorPool.init N).run calls).acquiredCount ≤ N ∧
      ((SectorPool.init N).run calls).acquiredCount
        + ((SectorPool.init N).run calls).semaphore = N) ∧
    (∀ slot q, ((SectorPool.init N).run calls).acquire = (some slot, q) →
      slot < N ∧ ((SectorPool.init N).run calls).slot_mask.testBit slot = false ∧
      (∀ j, j < slot → ((SectorPool.init N).run calls).slot_mask.testBit j = true) ∧
      (∀ i, q.slot_mask.testBit i
        = (((SectorPool.init N).run calls).slot_mask.testBit i || decide (i = slot))) ∧
      q.semaphore + 1 = ((SectorPool.init N).run calls).semaphore) ∧
    (((SectorPool.init N).run calls).acquire.1 = none ↔
      ((SectorPool.init N).run calls).semaphore = 0) ∧
    (∀ i, ((SectorPool.init N).run calls).acquired i = true →
      (∀ j, (((SectorPool.init N).run calls).release i).slot_mask.testBit j
        = (((SectorPool.init N).run calls).slot_mask.testBit j && decide (j ≠ i))) ∧
      (((SectorPool.init N).run calls).release i).semaphore
        = ((SectorPool.init N).run calls).semaphore + 1) ∧
    (∀ (env : Env) (pf : PartialFile), env.completions pf.takes = [] →
      (pf.acquire env).1 = pf.sector_pool.acquire.1 ∧
      (pf.acquire env).2.sector_pool = pf.sector_pool.acquire.2) := by
  obtain ⟨hc, hs⟩ := SectorPool.run_consistent calls _ (init_consistent N hN).1 hl
  have hsize : ((SectorPool.init N).run calls).size = N := hs
  generalize (SectorPool.init N).run calls = p at hc hsize
  have hc4 := hc.2.2.2
  rw [hsize] at hc4
  refine ⟨⟨by omega, hc4⟩, ?_, ?_, ?_, acquire_of_pool⟩
  · intro slot q hq
    by_cases h0 : p.semaphore = 0
    · rw [(SectorPool.acquire_spec p hc).1 h0] at hq
      cases hq
    · obtain ⟨slot2, q2, e, a1, a2, a3, a4, a5, -⟩ :=
        (SectorPool.acquire_spec p hc).2 (by omega)
      rw [e] at hq
      simp only [Prod.mk.injEq, Option.some.injEq] at hq
      obtain ⟨rfl, rfl⟩ := hq
      exact ⟨hsize ▸ a1, a2, a3, a4, a5⟩
  · constructor
    · intro hn
      by_contra h0
      obtain ⟨slot2, q2, e, -⟩ := (SectorPool.acquire_spec p hc).2 (by omega)
      rw [e] at hn
      cases hn
    · intro h0
      rw [(SectorPool.acquire_spec p hc).1 h0]
  · intro i hi
    obtain ⟨b1, b2, -⟩ := SectorPool.release_spec p hc i hi
    exact ⟨b1, b2⟩

/-- Witness for C25: a pool of 4 slots after two acquires, the release of slot 0 and another
acquire: slots 0 and 1 are acquired and two permits are left. -/
theorem sectorPool_acquire_release_spec_witness :
    ((4 : Nat) < 32 ∧
      (SectorPool.init 4).legal [SectorPool.Call.acquire, SectorPool.Call.acquire,
        SectorPool.Call.release 0, SectorPool.Call.acquire]) ∧
    ((SectorPool.init 4).run [SectorPool.Call.acquire, SectorPool.Call.acquire,
        SectorPool.Call.release 0, SectorPool.Call.acquire]).acquiredCount
      + ((SectorPool.init 4).run [SectorPool.Call.acquire, SectorPool.Call.acquire,
        SectorPool.Call.release 0, SectorPool.Call.acquire]).semaphore = 4 ∧
    ((SectorPool.init 4).run [SectorPool.Call.acquire, SectorPool.Call.acquire,
        SectorPool.Call.release 0, SectorPool.Call.acquire]).semaphore = 2 ∧
    ((SectorPool.init 4).run [SectorPool.Call.acquire, SectorPool.Call.acquire,
        SectorPool.Call.release 0, SectorPool.Call.acquire]).acquire.1 = some 2 :=
  ⟨⟨by decide, by simp only [SectorPool.legal]; exact ⟨by decide, trivial⟩⟩,
   (sectorPool_acquire_release_spec 4 (by decide) [SectorPool.Call.acquire,
      SectorPool.Call.acquire, SectorPool.Call.release 0, SectorPool.Call.acquire]
      (by simp only [SectorPool.legal]; exact ⟨by decide, trivial⟩)).1.2,
   by decide, by decide⟩

/-! ### Cleanup of the transfers on the drive -/

theorem Fs.remove_frame (fs : Fs) (n m : FsName) (h : m ≠ n) : (fs.remove n).2 m = fs m := by
  simp only [Fs.remove]
  split <;> simp [Fs.set, h]

theorem Fs.remove_false (fs : Fs) (n : FsName) (h : (fs.remove n).1 = false) :
    (fs.remove n).2 = fs := by
  simp only [Fs.remove] at h ⊢
  split <;> simp_all

theorem Fs.remove_true_iff (fs : Fs) (n : FsName) :
    (fs.remove n).1 = true ↔ ∃ size, fs n = some (Node.file size false) := by
  simp only [Fs.remove]
  split
  · rename_i size h
    simp [h]
  · rename_i h
    simp only [Bool.false_eq_true, false_iff, not_exists]
    exact fun size hs => h size hs

theorem Fs.remove_true (fs : Fs) (n : FsName) (h : (fs.remove n).1 = true) :
    (fs.remove n).2 n = none := by
  obtain ⟨size, hs⟩ := (Fs.remove_true_iff fs n).1 h
  simp [Fs.remove, hs, Fs.set]

theorem Fs.rmdir_false (fs : Fs) (n : FsName) (h : (fs.rmdir n).1 = false) :
    (fs.rmdir n).2 = fs := by
  simp only [Fs.rmdir] at h ⊢
  split
  · split_ifs at h ⊢ <;> simp_all
  · rfl

theorem Fs.rmdir_frame (fs : Fs) (n m : FsName) (h : m ≠ n) : (fs.rmdir n).2 m = fs m := by
  simp only [Fs.rmdir]
  split
  · split_ifs <;> simp [Fs.set, h]
  · rfl

theorem Fs.rmdir_destination_true_iff (fs : Fs) (d : Nat) :
    (fs.rmdir (FsName.destination d)).1 = true ↔
      fs (FsName.destination d) = some (Node.dir false) ∧
      fs (FsName.partial_file d) = none ∧ fs (FsName.backup_file d) = none := by
  simp only [Fs.rmdir, Fs.has_children]
  split
  · rename_i h
    by_cases hc : ((fs (FsName.partial_file d)).isSome
        || (fs (FsName.backup_file d)).isSome) = true
    · simp only [if_pos hc, Bool.false_eq_true, false_iff]
      rintro ⟨-, a, b⟩
      simp [a, b] at hc
    · simp only [if_neg hc, true_iff]
      simp only [Bool.or_eq_true, not_or, Bool.not_eq_true, Option.not_isSome,
        Option.isNone_iff_eq_none] at hc
      exact ⟨h, hc.1, hc.2⟩
  · rename_i h
    simp only [Bool.false_eq_true, false_iff, not_and]
    exact fun a => absurd a h

theorem Fs.rmdir_true (fs : Fs) (n : FsName) (h : (fs.rmdir n).1 = true) :
    (fs.rmdir n).2 n = none := by
  simp only [Fs.rmdir] at h ⊢
  split at h
  · by_cases hc : fs.has_children n = true
    · simp [hc] at h
    · simp [hc, Fs.set]
  · simp at h

theorem cleanup_remove_cases (w : World) (path : Path) :
    ((w.fs.remove path.as_partial).1 = false ∧ Transfer.cleanup_remove w path = (false, w)) ∨
    ((w.fs.remove path.as_partial).1 = true ∧
      ((w.fs.remove path.as_partial).2.remove path.as_backup).1 = false ∧
      Transfer.cleanup_remove w path
        = (false, { w with fs := (w.fs.remove path.as_partial).2 })) ∨
    ((w.fs.remove path.as_partial).1 = true ∧
      ((w.fs.remove path.as_partial).2.remove path.as_backup).1 = true ∧
      ((((w.fs.remove path.as_partial).2.remove path.as_backup).2.rmdir
        path.as_destination).1 = false) ∧
      Transfer.cleanup_remove w path
        = (false, { w with
            fs := ((w.fs.remove path.as_partial).2.remove path.as_backup).2 })) ∨
    ((w.fs.remove path.as_partial).1 = true ∧
      ((w.fs.remove path.as_partial).2.remove path.as_backup).1 = true ∧
      ((((w.fs.remove path.as_partial).2.remove path.as_backup).2.rmdir
        path.as_destination).1 = true) ∧
      Transfer.cleanup_remove w path
        = (true, { fs := (((w.fs.remove path.as_partial).2.remove path.as_backup).2.rmdir
                      path.as_destination).2,
                   events := w.events ++ [(path.dir, ChangedPath.Incident.Deleted)] })) := by
  rcases h1 : w.fs.remove path.as_partial with ⟨b1, fs1⟩
  cases b1 with
  | false =>
    left
    have := Fs.remove_false w.fs path.as_partial (by rw [h1])
    rw [h1] at this
    simp only at this
    subst this
    simp [Transfer.cleanup_remove, h1]
  | true =>
    right
    rcases h2 : fs1.remove path.as_backup with ⟨b2, fs2⟩
    cases b2 with
    | false =>
      left
      have := Fs.remove_false fs1 path.as_backup (by rw [h2])
      rw [h2] at this
      simp only at this
      subst this
      simp [Transfer.cleanup_remove, h1, h2]
    | true =>
      right
      rcases h3 : fs2.rmdir path.as_destination with ⟨b3, fs3⟩
      cases b3 with
      | false =>
        left
        have := Fs.rmdir_false fs2 path.as_destination (by rw [h3])
        rw [h3] at this
        simp only at this
        subst this
        simp [Transfer.cleanup_remove, h1, h2, h3]
      | true =>
        right
        simp [Transfer.cleanup_remove, h1, h2, h3]

/-- C23: `cleanup_remove` removes the partial file, the backup and the directory in this order
and stops at the first failure.  If removing `D/p` fails the drive is untouched (so `D/b` and
`D` are), no notification is sent and the result is false; if removing `D/b` fails the
directory is untouched; the result is true iff the three removals succeeded, which is when
`D/p` and `D/b` are regular files not in use in the empty-but-for-them directory `D`, and
`Deleted` is sent exactly then, once. -/
theorem cleanup_remove_spec (w : World) (path : Path) :
    ((w.fs.remove path.as_partial).1 = false →
      (Transfer.cleanup_remove w path).1 = false ∧
      (Transfer.cleanup_remove w path).2.fs = w.fs ∧
      (Transfer.cleanup_remove w path).2.events = w.events) ∧
    ((w.fs.remove path.as_partial).1 = true →
      ((w.fs.remove path.as_partial).2.remove path.as_backup).1 = false →
      (Transfer.cleanup_remove w path).1 = false ∧
      (Transfer.cleanup_remove w path).2.fs path.as_partial = none ∧
      (Transfer.cleanup_remove w path).2.fs path.as_backup = w.fs path.as_backup ∧
      (Transfer.cleanup_remove w path).2.fs path.as_destination = w.fs path.as_destination ∧
      (Transfer.cleanup_remove w path).2.events = w.events) ∧
    ((Transfer.cleanup_remove w path).1 = true ↔
      (w.fs.remove path.as_partial).1 = true ∧
      ((w.fs.remove path.as_partial).2.remove path.as_backup).1 = true ∧
      (((w.fs.remove path.as_partial).2.remove path.as_backup).2.rmdir
        path.as_destination).1 = true) ∧
    ((Transfer.cleanup_remove w path).1 = true ↔
      (∃ size, w.fs path.as_partial = some (Node.file size false)) ∧
      (∃ size, w.fs path.as_backup = some (Node.file size false)) ∧
      w.fs path.as_destination = some (Node.dir false)) ∧
    ((Transfer.cleanup_remove w path).1 = true →
      (Transfer.cleanup_remove w path).2.events
        = w.events ++ [(path.dir, ChangedPath.Incident.Deleted)] ∧
      (Transfer.cleanup_remove w path).2.fs path.as_partial = none ∧
      (Transfer.cleanup_remove w path).2.fs path.as_backup = none ∧
      (Transfer.cleanup_remove w path).2.fs path.as_destination = none) ∧
    ((Transfer.cleanup_remove w path).1 = false →
      (Transfer.cleanup_remove w path).2.events = w.events) := by
  have hpb : path.as_backup ≠ path.as_partial := by
    simp [Path.as_backup, Path.as_partial]
  have hpd : path.as_destination ≠ path.as_partial := by
    simp [Path.as_destination, Path.as_partial]
  have hbd : path.as_destination ≠ path.as_backup := by
    simp [Path.as_destination, Path.as_backup]
  have f1 := Fs.remove_frame w.fs path.as_partial path.as_backup hpb
  have f2 := Fs.remove_frame w.fs path.as_partial path.as_destination hpd
  have f3 := Fs.remove_frame (w.fs.remove path.as_partial).2 path.as_backup
    path.as_destination hbd
  have f4 := Fs.remove_frame (w.fs.remove path.as_partial).2 path.as_backup
    path.as_partial hpb.symm
  have s1 := Fs.remove_true_iff w.fs path.as_partial
  have s2 := Fs.remove_true_iff (w.fs.remove path.as_partial).2 path.as_backup
  have s3 := Fs.rmdir_destination_true_iff
    ((w.fs.remove path.as_partial).2.remove path.as_backup).2 path.dir
  have hstruct : ((w.fs.remove path.as_partial).1 = true ∧
      ((w.fs.remove path.as_partial).2.remove path.as_backup).1 = true ∧
      (((w.fs.remove path.as_partial).2.remove path.as_backup).2.rmdir
        path.as_destination).1 = true) ↔
      ((∃ size, w.fs path.as_partial = some (Node.file size false)) ∧
      (∃ size, w.fs path.as_backup = some (Node.file size false)) ∧
      w.fs path.as_destination = some (Node.dir false)) := by
    constructor
    · rintro ⟨a, b, c⟩
      refine ⟨s1.1 a, ?_, ?_⟩
      · rw [← f1]
        exact s2.1 b
      · have := (s3.1 c).1
        rw [← f2, ← f3]
        exact this
    · rintro ⟨a, b, c⟩
      have a1 := s1.2 a
      have b1 : ((w.fs.remove path.as_partial).2.remove path.as_backup).1 = true := by
        apply s2.2
        rw [f1]
        exact b
      refine ⟨a1, b1, s3.2 ⟨?_, ?_, ?_⟩⟩
      · show ((w.fs.remove path.as_partial).2.remove path.as_backup).2
          path.as_destination = _
        rw [f3, f2]
        exact c
      · show ((w.fs.remove path.as_partial).2.remove path.as_backup).2 path.as_partial = _
        rw [f4]
        exact Fs.remove_true _ _ a1
      · exact Fs.remove_true _ _ b1
  rcases cleanup_remove_cases w path with ⟨a, e⟩ | ⟨a, b, e⟩ | ⟨a, b, c, e⟩ | ⟨a, b, c, e⟩
  · rw [e]
    refine ⟨fun _ => ⟨rfl, rfl, rfl⟩, fun h => ?_, ?_, ?_, ?_, fun _ => rfl⟩
    · rw [a] at h
      cases h
    · simp [a]
    · rw [← hstruct]
      simp [a]
    · intro h
      cases h
  · rw [e]
    refine ⟨fun h => ?_, fun _ _ => ⟨rfl, Fs.remove_true _ _ a, f1, f2, rfl⟩, ?_, ?_, ?_,
      fun _ => rfl⟩
    · rw [a] at h
      cases h
    · simp [b]
    · rw [← hstruct]
      simp [b]
    · intro h
      cases h
  · rw [e]
    refine ⟨fun h => ?_, fun _ h => ?_, ?_, ?_, ?_, fun _ => rfl⟩
    · rw [a] at h
      cases h
    · rw [b] at h
      cases h
    · simp [c]
    · rw [← hstruct]
      simp [c]
    · intro h
      cases h
  · rw [e]
    refine ⟨fun h => ?_, fun _ h => ?_, ?_, ?_, ?_, fun h => ?_⟩
    · rw [a] at h
      cases h
    · rw [b] at h
      cases h
    · simp [a, b, c]
    · rw [← hstruct]
      simp [a, b, c]
    · intro _
      refine ⟨rfl, ?_, ?_, Fs.rmdir_true _ _ c⟩
      · show (((w.fs.remove path.as_partial).2.remove path.as_backup).2.rmdir
          path.as_destination).2 path.as_partial = none
        rw [Fs.rmdir_frame _ _ _ hpd.symm, f4]
        exact Fs.remove_true _ _ a
      · show (((w.fs.remove path.as_partial).2.remove path.as_backup).2.rmdir
          path.as_destination).2 path.as_backup = none
        rw [Fs.rmdir_frame _ _ _ hbd.symm]
        exact Fs.remove_true _ _ b
    · cases h

theorem cleanup_case_ok_cases (sfn_crc : Fs → Nat → Nat) (all_ok can_cleanup : Bool) (w : World)
    (path : Path) :
    (w.fs.is_regular path.as_partial = true ∧ w.fs.is_regular path.as_backup = false →
      Transfer.cleanup_case_ok sfn_crc all_ok can_cleanup w path
        = (all_ok && (Transfer.cleanup_finalize sfn_crc w path).1, can_cleanup,
            (Transfer.cleanup_finalize sfn_crc w path).2)) ∧
    (w.fs.is_regular path.as_partial = true ∧ w.fs.is_regular path.as_backup = true ∧
        w.fs.st_size path.as_backup = 0 →
      Transfer.cleanup_case_ok sfn_crc all_ok can_cleanup w path
        = (all_ok && (Transfer.cleanup_remove w path).1, can_cleanup,
            (Transfer.cleanup_remove w path).2)) ∧
    (w.fs.is_regular path.as_partial = true ∧ w.fs.is_regular path.as_backup = true ∧
        0 < w.fs.st_size path.as_backup →
      Transfer.cleanup_case_ok sfn_crc all_ok can_cleanup w path = (all_ok, false, w)) ∧
    (w.fs.is_regular path.as_partial = false →
      Transfer.cleanup_case_ok sfn_crc all_ok can_cleanup w path = (all_ok, can_cleanup, w)) ∧
    (∀ reads, Transfer.cleanup_loop sfn_crc (IndexIter.Ok path :: reads) all_ok can_cleanup w
      = Transfer.cleanup_loop sfn_crc reads
          (Transfer.cleanup_case_ok sfn_crc all_ok can_cleanup w path).1
          (Transfer.cleanup_case_ok sfn_crc all_ok can_cleanup w path).2.1
          (Transfer.cleanup_case_ok sfn_crc all_ok can_cleanup w path).2.2) := by
  refine ⟨?_, ?_, ?_, ?_, fun reads => rfl⟩
  · rintro ⟨h1, h2⟩
    simp only [Transfer.cleanup_case_ok, h1, h2, Bool.not_false, Bool.and_self, if_true]
    rcases h : Transfer.cleanup_finalize sfn_crc w path with ⟨b, w1⟩
    cases b <;> simp
  · rintro ⟨h1, h2, h3⟩
    simp only [Transfer.cleanup_case_ok, h1, h2, h3, Bool.not_true, Bool.and_false,
      Bool.false_eq_true, if_false, decide_True, Bool.and_self, if_true]
    rcases h : Transfer.cleanup_remove w path with ⟨b, w1⟩
    cases b <;> simp
  · rintro ⟨h1, h2, h3⟩
    have h4 : ¬ w.fs.st_size path.as_backup = 0 := by omega
    simp [Transfer.cleanup_case_ok, h1, h2, h4]
  · intro h1
    simp [Transfer.cleanup_case_ok, h1]

/-- C22: for an entry `D` read from the index, `cleanup_transfers` chooses by (partial is a
regular file, backup is a regular file, backup size): partial present and backup absent, it
runs `cleanup_finalize(D)`; partial present and backup of size 0, it runs `cleanup_remove(D)`;
partial present and backup of size above 0, the drive is unchanged and the entry counts as in
progress; partial absent, nothing is changed.  The loop goes on with the next result. -/
theorem cleanup_case_ok_spec (sfn_crc : Fs → Nat → Nat) (all_ok can_cleanup : Bool) (w : World)
    (path : Path) :
    (w.fs.is_regular path.as_partial = true ∧ w.fs.is_regular path.as_backup = false →
      Transfer.cleanup_case_ok sfn_crc all_ok can_cleanup w path
        = (all_ok && (Transfer.cleanup_finalize sfn_crc w path).1, can_cleanup,
            (Transfer.cleanup_finalize sfn_crc w path).2)) ∧
    (w.fs.is_regular path.as_partial = true ∧ w.fs.is_regular path.as_backup = true ∧
        w.fs.st_size path.as_backup = 0 →
      Transfer.cleanup_case_ok sfn_crc all_ok can_cleanup w path
        = (all_ok && (Transfer.cleanup_remove w path).1, can_cleanup,
            (Transfer.cleanup_remove w path).2)) ∧
    (w.fs.is_regular path.as_partial = true ∧ w.fs.is_regular path.as_backup = true ∧
        0 < w.fs.st_size path.as_backup →
      Transfer.cleanup_case_ok sfn_crc all_ok can_cleanup w path = (all_ok, false, w)) ∧
    (w.fs.is_regular path.as_partial = false →
      Transfer.cleanup_case_ok sfn_crc all_ok can_cleanup w path = (all_ok, can_cleanup, w)) ∧
    (∀ reads, Transfer.cleanup_loop sfn_crc (IndexIter.Ok path :: reads) all_ok can_cleanup w
      = Transfer.cleanup_loop sfn_crc reads
          (Transfer.cleanup_case_ok sfn_crc all_ok can_cleanup w path).1
          (Transfer.cleanup_case_ok sfn_crc all_ok can_cleanup w path).2.1
          (Transfer.cleanup_case_ok sfn_crc all_ok can_cleanup w path).2.2) :=
  cleanup_case_ok_cases sfn_crc all_ok can_cleanup w path

theorem Fs.rename_frame (fs : Fs) (a b m : FsName) (ha : m ≠ a) (hb : m ≠ b) :
    (fs.rename a b).2 m = fs m := by
  simp only [Fs.rename]
  split
  · split_ifs <;> simp [Fs.set, ha, hb]
  · rfl

theorem cleanup_remove_index (w : World) (path : Path) :
    (Transfer.cleanup_remove w path).2.fs FsName.transfer_index
      = w.fs FsName.transfer_index := by
  have h1 : FsName.transfer_index ≠ path.as_partial := by simp [Path.as_partial]
  have h2 : FsName.transfer_index ≠ path.as_backup := by simp [Path.as_backup]
  have h3 : FsName.transfer_index ≠ path.as_destination := by simp [Path.as_destination]
  rcases cleanup_remove_cases w path with ⟨-, e⟩ | ⟨-, -, e⟩ | ⟨-, -, -, e⟩ | ⟨-, -, -, e⟩ <;>
    rw [e] <;>
    simp only [Fs.rmdir_frame _ _ _ h3, Fs.remove_frame _ _ _ h2, Fs.remove_frame _ _ _ h1]

theorem cleanup_finalize_index (sfn_crc : Fs → Nat → Nat) (w : World) (path : Path) :
    (Transfer.cleanup_finalize sfn_crc w path).2.fs FsName.transfer_index
      = w.fs FsName.transfer_index := by
  have h1 : FsName.transfer_index ≠ path.as_partial := by simp [Path.as_partial]
  have h3 : FsName.transfer_index ≠ path.as_destination := by simp [Path.as_destination]
  have h4 : FsName.transfer_index ≠ FsName.temporary := by simp
  have e0 := Fs.remove_frame w.fs FsName.temporary _ h4
  simp only [Transfer.cleanup_finalize]
  split
  · rename_i fs1 hr1
    have e1 := Fs.rename_frame (w.fs.remove FsName.temporary).2 path.as_partial
      FsName.temporary _ h1 h4
    rw [hr1] at e1
    exact e1.trans e0
  · rename_i fs1 hr1
    have e1 := Fs.rename_frame (w.fs.remove FsName.temporary).2 path.as_partial
      FsName.temporary _ h1 h4
    rw [hr1] at e1
    split
    · rename_i fs2 hr2
      have e2 := Fs.rmdir_frame fs1 path.as_destination _ h3
      rw [hr2] at e2
      exact e2.trans (e1.trans e0)
    · rename_i fs2 hr2
      have e2 := Fs.rmdir_frame fs1 path.as_destination _ h3
      rw [hr2] at e2
      split
      · rename_i fs3 hr3
        have e3 := Fs.rename_frame fs2 FsName.temporary path.as_destination _ h4 h3
        rw [hr3] at e3
        exact e3.trans (e2.trans (e1.trans e0))
      · rename_i fs3 hr3
        have e3 := Fs.rename_frame fs2 FsName.temporary path.as_destination _ h4 h3
        rw [hr3] at e3
        split_ifs <;> exact e3.trans (e2.trans (e1.trans e0))

theorem cleanup_loop_records (sfn_crc : Fs → Nat → Nat) (reads : List IndexIter) :
    ∀ (all_ok can_cleanup : Bool) (w : World),
      (Transfer.cleanup_loop sfn_crc reads all_ok can_cleanup w).1
        = (all_ok && (cleanupRecords sfn_crc reads w).all (fun r => !r.failed)) ∧
      (Transfer.cleanup_loop sfn_crc reads all_ok can_cleanup w).2.1
        = (can_cleanup && (cleanupRecords sfn_crc reads w).all (fun r => !r.in_progress)) ∧
      (Transfer.cleanup_loop sfn_crc reads all_ok can_cleanup w).2.2.fs FsName.transfer_index
        = w.fs FsName.transfer_index := by
  induction reads with
  | nil =>
    intro a c w
    simp [Transfer.cleanup_loop, cleanupRecords]
  | cons r reads ih =>
    intro a c w
    cases r with
    | Skip =>
      simp only [Transfer.cleanup_loop, cleanupRecords, List.all_cons, Bool.not_false,
        Bool.true_and]
      exact ih a c w
    | IndividualError =>
      obtain ⟨i1, i2, i3⟩ := ih false c w
      simp only [Transfer.cleanup_loop, cleanupRecords, List.all_cons, Bool.not_true,
        Bool.false_and, Bool.and_false, Bool.not_false, Bool.true_and]
      exact ⟨by rw [i1]; rfl, i2, i3⟩
    | FatalError => simp [Transfer.cleanup_loop, cleanupRecords]
    | Eof => simp [Transfer.cleanup_loop, cleanupRecords]
    | Ok path =>
      simp only [Transfer.cleanup_loop]
      by_cases hp : w.fs.is_regular path.as_partial = true
      · by_cases hb : w.fs.is_regular path.as_backup = true
        · by_cases hz : w.fs.st_size path.as_backup = 0
          · have hact : CleanupAction.of w.fs path = CleanupAction.remove := by
              simp [CleanupAction.of, hp, hb, hz]
            have hcase := (cleanup_case_ok_cases sfn_crc a c w path).2.1 ⟨hp, hb, hz⟩
            obtain ⟨i1, i2, i3⟩ := ih (a && (Transfer.cleanup_remove w path).1) c
              (Transfer.cleanup_remove w path).2
            rw [hcase]
            simp only [cleanupRecords, hact, List.all_cons, Bool.not_not, Bool.not_false,
              Bool.true_and]
            refine ⟨by rw [i1, Bool.and_assoc], i2, ?_⟩
            rw [i3, cleanup_remove_index]
          · have hact : CleanupAction.of w.fs path = CleanupAction.leave_in_progress := by
              simp [CleanupAction.of, hp, hb, hz]
            have hcase := (cleanup_case_ok_cases sfn_crc a c w path).2.2.1
              ⟨hp, hb, by omega⟩
            obtain ⟨i1, i2, i3⟩ := ih a false w
            rw [hcase]
            simp only [cleanupRecords, hact, List.all_cons, Bool.not_false, Bool.true_and,
              Bool.not_true, Bool.false_and, Bool.and_false]
            exact ⟨i1, by rw [i2]; rfl, i3⟩
        · have hb2 : w.fs.is_regular path.as_backup = false := by simpa using hb
          have hact : CleanupAction.of w.fs path = CleanupAction.finalize := by
            simp [CleanupAction.of, hp, hb2]
          have hcase := (cleanup_case_ok_cases sfn_crc a c w path).1 ⟨hp, hb2⟩
          obtain ⟨i1, i2, i3⟩ := ih (a && (Transfer.cleanup_finalize sfn_crc w path).1) c
            (Transfer.cleanup_finalize sfn_crc w path).2
          rw [hcase]
          simp only [cleanupRecords, hact, List.all_cons, Bool.not_not, Bool.not_false,
            Bool.true_and]
          refine ⟨by rw [i1, Bool.and_assoc], i2, ?_⟩
          rw [i3, cleanup_finalize_index]
      · have hp2 : w.fs.is_regular path.as_partial = false := by simpa using hp
        have hact : CleanupAction.of w.fs path = CleanupAction.nothing := by
          simp [CleanupAction.of, hp2]
        have hcase := (cleanup_case_ok_cases sfn_crc a c w path).2.2.2.1 hp2
        rw [hcase]
        simp only [cleanupRecords, hact, List.all_cons, Bool.not_false, Bool.true_and]
        exact ih a c w

/-- C24: `cleanup_transfers` returns false and changes nothing when the index cannot be opened.
Otherwise it returns true iff no result of reading the index was an individual or fatal error
and no `cleanup_finalize` or `cleanup_remove` it ran failed, whether or not entries are still in
progress; and it deletes the index file (a regular file not in use elsewhere) iff moreover no
entry was still in progress.  In every other case the index file is left as it was. -/
theorem cleanup_transfers_spec (sfn_crc : Fs → Nat → Nat) (reads : List IndexIter)
    (w : World) :
    (w.fs.is_regular FsName.transfer_index = false →
      Transfer.cleanup_transfers sfn_crc reads w = (false, w)) ∧
    (w.fs.is_regular FsName.transfer_index = true →
      ((Transfer.cleanup_transfers sfn_crc reads w).1 = true ↔
        ∀ r ∈ cleanupRecords sfn_crc reads w, r.failed = false) ∧
      (∀ size, w.fs FsName.transfer_index = some (Node.file size false) →
        ((Transfer.cleanup_transfers sfn_crc reads w).2.fs FsName.transfer_index = none ↔
          (∀ r ∈ cleanupRecords sfn_crc reads w, r.failed = false) ∧
          (∀ r ∈ cleanupRecords sfn_crc reads w, r.in_progress = false))) ∧
      ((Transfer.cleanup_transfers sfn_crc reads w).2.fs FsName.transfer_index ≠ none →
        (Transfer.cleanup_transfers sfn_crc reads w).2.fs FsName.transfer_index
          = w.fs FsName.transfer_index)) := by
  constructor
  · intro h
    simp [Transfer.cleanup_transfers, h]
  · intro h
    obtain ⟨i1, i2, i3⟩ := cleanup_loop_records sfn_crc reads true true w
    simp only [Bool.true_and] at i1 i2
    have hall1 : (cleanupRecords sfn_crc reads w).all (fun r => !r.failed) = true ↔
        ∀ r ∈ cleanupRecords sfn_crc reads w, r.failed = false := by
      simp [List.all_eq_true]
    have hall2 : (cleanupRecords sfn_crc reads w).all (fun r => !r.in_progress) = true ↔
        ∀ r ∈ cleanupRecords sfn_crc reads w, r.in_progress = false := by
      simp [List.all_eq_true]
    have hne : ¬ (w.fs.is_regular FsName.transfer_index = false) := by simp [h]
    by_cases hc : ((Transfer.cleanup_loop sfn_crc reads true true w).1
        && (Transfer.cleanup_loop sfn_crc reads true true w).2.1) = true
    · have e : Transfer.cleanup_transfers sfn_crc reads w
          = ((Transfer.cleanup_loop sfn_crc reads true true w).1,
              { (Transfer.cleanup_loop sfn_crc reads true true w).2.2 with
                fs := ((Transfer.cleanup_loop sfn_crc reads true true w).2.2.fs.remove
                  FsName.transfer_index).2 }) := by
        simp only [Transfer.cleanup_transfers, if_neg hne, if_pos hc]
      have hc2 := hc
      simp only [Bool.and_eq_true] at hc2
      rw [e]
      refine ⟨?_, ?_, ?_⟩
      · rw [← hall1, ← i1]
      · intro size hs
        rw [← hall1, ← hall2, ← i1, ← i2]
        simp only [hc2.1, hc2.2, and_self, iff_true]
        apply Fs.remove_true
        rw [Fs.remove_true_iff]
        exact ⟨size, by rw [i3]; exact hs⟩
      · intro hn
        simp only at hn ⊢
        by_cases hr : ((Transfer.cleanup_loop sfn_crc reads true true w).2.2.fs.remove
            FsName.transfer_index).1 = true
        · exact absurd (Fs.remove_true _ _ hr) hn
        · rw [Fs.remove_false _ _ (by simpa using hr), i3]
    · have e : Transfer.cleanup_transfers sfn_crc reads w
          = ((Transfer.cleanup_loop sfn_crc reads true true w).1,
              (Transfer.cleanup_loop sfn_crc reads true true w).2.2) := by
        simp only [Transfer.cleanup_transfers, if_neg hne, if_neg hc]
      rw [e]
      refine ⟨?_, ?_, ?_⟩
      · rw [← hall1, ← i1]
      · intro size hs
        rw [← hall1, ← hall2, ← i1, ← i2]
        simp only [i3, hs]
        constructor
        · intro hx
          cases hx
        · intro hx
          exact absurd (by simp [hx.1, hx.2]) hc
      · intro _
        exact i3

/-- The startup scenario: the index lists `D1` (partial present, backup absent) and `D2`
(partial present, backup empty).  After `cleanup_transfers`, `D1` is a regular file at its
destination, `D2` is removed and the index is deleted. -/
theorem cleanup_transfers_startup_scenario :
    (Transfer.cleanup_transfers (fun _ _ => 0) [IndexIter.Ok ⟨1⟩, IndexIter.Ok ⟨2⟩, IndexIter.Eof]
      ⟨fun n => match n with
        | FsName.destination 1 => some (Node.dir false)
        | FsName.partial_file 1 => some (Node.file 100 false)
        | FsName.destination 2 => some (Node.dir false)
        | FsName.partial_file 2 => some (Node.file 70 false)
        | FsName.backup_file 2 => some (Node.file 0 false)
        | FsName.transfer_index => some (Node.file 10 false)
        | _ => none, []⟩).1 = true ∧
    (Transfer.cleanup_transfers (fun _ _ => 0) [IndexIter.Ok ⟨1⟩, IndexIter.Ok ⟨2⟩, IndexIter.Eof]
      ⟨fun n => match n with
        | FsName.destination 1 => some (Node.dir false)
        | FsName.partial_file 1 => some (Node.file 100 false)
        | FsName.destination 2 => some (Node.dir false)
        | FsName.partial_file 2 => some (Node.file 70 false)
        | FsName.backup_file 2 => some (Node.file 0 false)
        | FsName.transfer_index => some (Node.file 10 false)
        | _ => none, []⟩).2.events
      = [(1, ChangedPath.Incident.Created), (2, ChangedPath.Incident.Deleted)] ∧
    ([FsName.destination 1, FsName.partial_file 1, FsName.destination 2,
        FsName.partial_file 2, FsName.backup_file 2, FsName.transfer_index,
        FsName.temporary].map
      (Transfer.cleanup_transfers (fun _ _ => 0)
        [IndexIter.Ok ⟨1⟩, IndexIter.Ok ⟨2⟩, IndexIter.Eof]
        ⟨fun n => match n with
          | FsName.destination 1 => some (Node.dir false)
          | FsName.partial_file 1 => some (Node.file 100 false)
          | FsName.destination 2 => some (Node.dir false)
          | FsName.partial_file 2 => some (Node.file 70 false)
          | FsName.backup_file 2 => some (Node.file 0 false)
          | FsName.transfer_index => some (Node.file 10 false)
          | _ => none, []⟩).2.fs)
      = [some (Node.file 100 false), none, none, none, none, none, none] := by
  decide

/-! ### The order of backup and data in `begin` -/

theorem Fs.mkdir_frame (fs : Fs) (n m : FsName) (h : m ≠ n) : (fs.mkdir n).2 m = fs m := by
  simp only [Fs.mkdir]
  split
  · split_ifs <;> simp [Fs.set, h]
  · rfl

theorem Fs.mkdir_true (fs : Fs) (n : FsName) (h : (fs.mkdir n).1 = true) :
    (fs.mkdir n).2 n = some (Node.dir false) := by
  simp only [Fs.mkdir] at h ⊢
  split at h
  · by_cases hp : fs.parent_ok n = true
    · simp [hp, Fs.set]
    · simp [hp] at h
  · simp at h

theorem Fs.append_frame (fs : Fs) (n m : FsName) (len : Nat) (h : m ≠ n) :
    (fs.append n len).2 m = fs m := by
  simp only [Fs.append]
  split
  · rfl
  · simp [Fs.set, h]
  · split_ifs <;> simp [Fs.set, h]

theorem store_transfer_index_frame (fs : Fs) (line : Nat) (m : FsName)
    (h : m ≠ FsName.transfer_index) : (Transfer.store_transfer_index fs line).2 m = fs m := by
  have := Fs.append_frame fs FsName.transfer_index m line h
  simp only [Transfer.store_transfer_index]
  split <;> rename_i heq <;> rw [heq] at this <;> exact this

theorem Fs.create_frame (fs : Fs) (n m : FsName) (ok : Bool) (h : m ≠ n) :
    (fs.create n ok).2 m = fs m := by
  cases ok with
  | false => rfl
  | true =>
    simp only [Fs.create, Bool.true_eq_false, if_false]
    split
    · rfl
    · rfl
    · split_ifs <;> simp [Fs.set, h]

theorem Fs.create_at (fs : Fs) (n : FsName) (ok : Bool) :
    (fs.create n ok).2 n = fs n ∨ (fs.create n ok).2 n = some (Node.file 0 false) := by
  cases ok with
  | false => exact Or.inl rfl
  | true =>
    simp only [Fs.create, Bool.true_eq_false, if_false]
    split
    · exact Or.inl rfl
    · exact Or.inl rfl
    · split_ifs
      · right
        simp [Fs.set]
      · exact Or.inl rfl

theorem Fs.create_true (fs : Fs) (n : FsName) (ok : Bool) (h : (fs.create n ok).1 = true) :
    (fs.create n ok).2 n = some (Node.file 0 false) := by
  cases ok with
  | false => simp [Fs.create] at h
  | true =>
    cases hn : fs n with
    | none =>
      by_cases hp : fs.parent_ok n = true
      · simp [Fs.create, hn, hp, Fs.set]
      · simp [Fs.create, hn, hp] at h
    | some v =>
      cases v with
      | file sz u =>
        cases u with
        | true => simp [Fs.create, hn] at h
        | false =>
          by_cases hp : fs.parent_ok n = true
          · simp [Fs.create, hn, hp, Fs.set]
          · simp [Fs.create, hn, hp] at h
      | dir o => simp [Fs.create, hn] at h

theorem Fs.create_absent (fs : Fs) (n : FsName) (h0 : fs n = none)
    (hp : fs.parent_ok n = true) : (fs.create n true).2 n = some (Node.file 0 false) := by
  simp [Fs.create, h0, hp, Fs.set]

theorem download_begin_backup (env : BeginEnv) (fs : Fs) (path : Path) :
    (Download.begin env fs path).2 path.as_backup = fs path.as_backup := by
  have hbp : path.as_backup ≠ path.as_partial := by simp [Path.as_backup, Path.as_partial]
  have hc := Fs.create_frame fs path.as_partial path.as_backup true hbp
  simp only [Download.begin]
  split
  · split
    · rename_i fs1 h
      rw [h] at hc
      simp only at hc
      simp [Fs.set, hbp, hc]
    · rename_i fs1 h
      rw [h] at hc
      exact hc
  · split
    · rfl
    · split
      · rename_i fs1 h
        rw [h] at hc
        simp only at hc
        simp [Fs.set, hbp, hc]
      · rename_i fs1 h
        rw [h] at hc
        exact hc

theorem download_begin_failed (env : BeginEnv) (fs : Fs) (path : Path)
    (h0 : fs path.as_partial = none) (hleft : ∀ size, env.partial_left ≠ some (size, true))
    (hf : (Download.begin env fs path).1 ≠ DownloadBegin.Download) :
    (Download.begin env fs path).2 path.as_partial = none ∨
    ∃ size, (Download.begin env fs path).2 path.as_partial = some (Node.file size false) := by
  have hc := Fs.create_at fs path.as_partial true
  rw [h0] at hc
  simp only [Download.begin] at hf ⊢
  split
  · rename_i hd
    simp only [hd] at hf
    split
    · rename_i fs1 h
      simp [h] at hf
    · rename_i fs1 h
      rw [h] at hc
      exact hc.elim Or.inl (fun h1 => Or.inr ⟨0, h1⟩)
  · split
    · exact Or.inl h0
    · rename_i size in_use hl
      cases in_use with
      | true => exact absurd hl (hleft size)
      | false =>
        split
        · right
          exact ⟨size, by simp [Fs.set]⟩
        · rename_i fs1 h
          rw [h] at hc
          exact hc.elim Or.inl (fun h1 => Or.inr ⟨0, h1⟩)

/-- The order of the calls in `begin` does what it is meant to when the calls succeed: if the
drive carries out the first `fopen` of the backup and a failed `Download::begin` leaves no
partial file that is in use, then in every state of the drive from the call to the return the
partial file is absent or the backup is a regular file. -/
theorem begin_trace_backed (env : BeginEnv) (fs0 : Fs) (path : Path) (hcons : fs0.consistent)
    (hfresh : fs0 path.as_destination = none) (hopen : env.backup_opened = true)
    (hleft : ∀ size, env.partial_left ≠ some (size, true)) :
    ∀ s ∈ (Transfer.begin env fs0 path).2, s.backed path := by
  have hbp : path.as_backup ≠ path.as_partial := by simp [Path.as_backup, Path.as_partial]
  have hpd : path.as_partial ≠ path.as_destination := by
    simp [Path.as_destination, Path.as_partial]
  have hbd : path.as_backup ≠ path.as_destination := by
    simp [Path.as_destination, Path.as_backup]
  have hdi : path.as_destination ≠ FsName.transfer_index := by simp [Path.as_destination]
  have hpi : path.as_partial ≠ FsName.transfer_index := by simp [Path.as_partial]
  have hbi : path.as_backup ≠ FsName.transfer_index := by simp [Path.as_backup]
  have hpar : fs0.parent_ok (FsName.partial_file path.dir) = false := by
    simp only [Path.as_destination] at hfresh
    simp [Fs.parent_ok, hfresh]
  obtain ⟨p0, b0⟩ := hcons path.dir hpar
  have p0' : fs0 path.as_partial = none := p0
  have b0' : fs0 path.as_backup = none := b0
  have k0 : fs0.backed path := Or.inl p0'
  intro s hs
  have hex : ¬ (fs0 path.as_destination).isSome = true := by simp [hfresh]
  simp only [Transfer.begin, hopen] at hs
  by_cases hslot : env.slot_available = false
  · rw [if_pos hslot] at hs
    simp only [List.mem_singleton] at hs
    rw [hs]
    exact k0
  · rw [if_neg hslot, if_neg hex] at hs
    split at hs
    · rename_i fs1 hm
      have e1 := Fs.mkdir_frame fs0 path.as_destination path.as_partial hpd
      rw [hm] at e1
      have k1 : fs1.backed path := Or.inl (e1.trans p0')
      simp only [List.mem_cons, List.mem_singleton, List.not_mem_nil, or_false] at hs
      rcases hs with rfl | rfl
      · exact k0
      · exact k1
    · rename_i fs1 hm
      have e1 := Fs.mkdir_frame fs0 path.as_destination path.as_partial hpd
      have e1b := Fs.mkdir_frame fs0 path.as_destination path.as_backup hbd
      have e1d := Fs.mkdir_true fs0 path.as_destination (by rw [hm])
      rw [hm] at e1 e1b e1d
      simp only at e1 e1b e1d
      have k1 : fs1.backed path := Or.inl (e1.trans p0')
      have e2 := store_transfer_index_frame fs1 env.index_line path.as_partial hpi
      have e2b := store_transfer_index_frame fs1 env.index_line path.as_backup hbi
      have e2d := store_transfer_index_frame fs1 env.index_line path.as_destination hdi
      split at hs
      · rename_i fs2 hst
        rw [hst] at e2
        have k2 : fs2.backed path := Or.inl (e2.trans (e1.trans p0'))
        simp only [List.mem_cons, List.mem_singleton, List.not_mem_nil, or_false] at hs
        rcases hs with rfl | rfl | rfl
        · exact k0
        · exact k1
        · exact k2
      · rename_i fs2 hst
        rw [hst] at e2 e2b e2d
        simp only at e2 e2b e2d
        have k2 : fs2.backed path := Or.inl (e2.trans (e1.trans p0'))
        have hpok : fs2.parent_ok path.as_backup = true := by
          have : fs2 (FsName.destination path.dir) = some (Node.dir false) :=
            e2d.trans e1d
          simp [Path.as_backup, Fs.parent_ok, this]
        have e3b := Fs.create_absent fs2 path.as_backup (e2b.trans (e1b.trans b0')) hpok
        have e3 := Fs.create_frame fs2 path.as_backup path.as_partial true hbp.symm
        have k3 : (fs2.create path.as_backup true).2.backed path := Or.inr ⟨_, _, e3b⟩
        have e4b := download_begin_backup env (fs2.create path.as_backup true).2 path
        have k4 : (Download.begin env (fs2.create path.as_backup true).2 path).2.backed path :=
          Or.inr ⟨_, _, e4b.trans e3b⟩
        split at hs
        · rename_i fs4 hd
          rw [hd] at k4 e4b
          simp only at k4 e4b
          have e5 := Fs.create_at fs4 path.as_backup env.backup_reopened
          rw [e4b.trans e3b] at e5
          have k6 : ∀ v : Fs, (v.set path.as_backup
              (some (Node.file env.backup_size false))).backed path := by
            intro v
            exact Or.inr ⟨env.backup_size, false, by simp [Fs.set]⟩
          split at hs
          · rename_i fs5 hc
            rw [hc] at e5
            have k5 : fs5.backed path := Or.inr ⟨_, _, e5.elim id id⟩
            simp only [List.mem_cons, List.mem_singleton, List.not_mem_nil, or_false] at hs
            rcases hs with rfl | rfl | rfl | rfl | rfl | rfl
            · exact k0
            · exact k1
            · exact k2
            · exact k3
            · exact k4
            · exact k5
          · rename_i fs5 hc
            rw [hc] at e5
            have k5 : fs5.backed path := Or.inr ⟨_, _, e5.elim id id⟩
            split_ifs at hs <;>
              simp only [List.mem_cons, List.mem_singleton, List.not_mem_nil, or_false] at hs
            all_goals
              rcases hs with rfl | rfl | rfl | rfl | rfl | rfl | rfl
              · exact k0
              · exact k1
              · exact k2
              · exact k3
              · exact k4
              · exact k5
              · exact k6 _
        · rename_i failure fs4 hnd hd
          have hfail : (Download.begin env (fs2.create path.as_backup true).2 path).1
              ≠ DownloadBegin.Download := by
            rw [hd]
            exact hnd
          have e4 := download_begin_failed env (fs2.create path.as_backup true).2 path
            (e3.trans (e2.trans (e1.trans p0'))) hleft hfail
          rw [hd] at k4 e4
          simp only at k4 e4
          have e5 : (fs4.remove path.as_partial).2 path.as_partial = none := by
            rcases e4 with e4 | ⟨size, e4⟩
            · simp [Fs.remove, e4]
            · simp [Fs.remove, e4, Fs.set]
          have k5 : (fs4.remove path.as_partial).2.backed path := Or.inl e5
          have e6 := Fs.remove_frame (fs4.remove path.as_partial).2 path.as_backup
            path.as_partial hbp.symm
          have k6 : ((fs4.remove path.as_partial).2.remove path.as_backup).2.backed path :=
            Or.inl (e6.trans e5)
          have e7 := Fs.rmdir_frame ((fs4.remove path.as_partial).2.remove path.as_backup).2
            path.as_destination path.as_partial hpd
          have k7 : (((fs4.remove path.as_partial).2.remove path.as_backup).2.rmdir
              path.as_destination).2.backed path := Or.inl (e7.trans (e6.trans e5))
          simp only [List.mem_cons, List.mem_singleton, List.not_mem_nil, or_false] at hs
          rcases hs with rfl | rfl | rfl | rfl | rfl | rfl | rfl | rfl
          · exact k0
          · exact k1
          · exact k2
          · exact k3
          · exact k4
          · exact k5
          · exact k6
          · exact k7

/-- A state of the drive in which the partial file is absent or the backup is a regular file is
never classified for finalizing. -/
theorem backed_not_finalize (s : Fs) (path : Path) (hb : s.backed path) :
    ((s path.as_partial).isSome = true → (s path.as_backup).isSome = true) ∧
    CleanupAction.of s path ≠ CleanupAction.finalize := by
  rcases hb with hb | ⟨size, in_use, hb⟩
  · refine ⟨fun h => ?_, ?_⟩
    · rw [hb] at h
      cases h
    · simp [CleanupAction.of, Fs.is_regular, hb]
  · refine ⟨fun _ => by rw [hb]; rfl, ?_⟩
    simp only [CleanupAction.of, Fs.is_regular, hb]
    split_ifs with h1 h2 h3
    · simp
    · exact absurd h2 (by simp)
    · simp
    · simp

/-- C21: the code where a call whose result `begin` does not look at fails.  On an empty drive,
for the destination `D` of number 1, with the states of `D/p` and `D/b` and the classification
of a cleanup after each operation of `begin`:
(1) the first `fopen` of the backup returns `NULL` and all else succeeds, `Download::begin`
with a partial file of 1024 bytes: `begin` returns a transfer, but from the return of
`Download::begin` until the second `fopen` the drive holds `D/p` without `D/b`, which a cleanup
would finalize;
(2) the second `fopen` returns `NULL` as well: `begin` returns `Storage` and leaves `D/p` on the
drive without `D/b`;
(3) `Download::begin` is refused and leaves a partial file that is in use: `remove(D/p)` fails,
`remove(D/b)` succeeds all the same, and `begin` returns with `D/p` on the drive and `D/b`
gone. -/
theorem begin_orphans_partial_file :
    Fs.consistent (fun _ => none) ∧
    (Transfer.begin ⟨true, 5, false, DownloadBegin.Download, none, 1024, true, true, 90⟩
        (fun _ => none) ⟨1⟩).1 = BeginResult.Transfer ∧
    (Transfer.begin ⟨true, 5, false, DownloadBegin.Download, none, 1024, true, true, 90⟩
        (fun _ => none) ⟨1⟩).2.map
      (fun s => (s (FsName.partial_file 1), s (FsName.backup_file 1), CleanupAction.of s ⟨1⟩))
      = [(none, none, CleanupAction.nothing), (none, none, CleanupAction.nothing),
         (none, none, CleanupAction.nothing), (none, none, CleanupAction.nothing),
         (some (Node.file 1024 true), none, CleanupAction.finalize),
         (some (Node.file 1024 true), some (Node.file 0 false), CleanupAction.remove),
         (some (Node.file 1024 true), some (Node.file 90 false),
           CleanupAction.leave_in_progress)] ∧
    (Transfer.begin ⟨true, 5, false, DownloadBegin.Download, none, 1024, false, true, 90⟩
        (fun _ => none) ⟨1⟩).1 = BeginResult.Storage ∧
    (Transfer.begin ⟨true, 5, false, DownloadBegin.Download, none, 1024, false, true, 90⟩
        (fun _ => none) ⟨1⟩).2.map
      (fun s => (s (FsName.partial_file 1), s (FsName.backup_file 1), CleanupAction.of s ⟨1⟩))
      = [(none, none, CleanupAction.nothing), (none, none, CleanupAction.nothing),
         (none, none, CleanupAction.nothing), (none, none, CleanupAction.nothing),
         (some (Node.file 1024 true), none, CleanupAction.finalize),
         (some (Node.file 1024 true), none, CleanupAction.finalize)] ∧
    (Transfer.begin
        ⟨true, 5, true, DownloadBegin.RefusedRequest, some (0, true), 1024, true, true, 90⟩
        (fun _ => none) ⟨1⟩).1 = BeginResult.RefusedRequest ∧
    (Transfer.begin
        ⟨true, 5, true, DownloadBegin.RefusedRequest, some (0, true), 1024, true, true, 90⟩
        (fun _ => none) ⟨1⟩).2.map
      (fun s => (s (FsName.partial_file 1), s (FsName.backup_file 1), CleanupAction.of s ⟨1⟩))
      = [(none, none, CleanupAction.nothing), (none, none, CleanupAction.nothing),
         (none, none, CleanupAction.nothing),
         (none, some (Node.file 0 false), CleanupAction.nothing),
         (some (Node.file 0 true), some (Node.file 0 false), CleanupAction.remove),
         (some (Node.file 0 true), some (Node.file 0 false), CleanupAction.remove),
         (some (Node.file 0 true), none, CleanupAction.finalize),
         (some (Node.file 0 true), none, CleanupAction.finalize)] :=
  ⟨fun _ _ => ⟨rfl, rfl⟩, by decide, by decide, by decide, by decide, by decide, by decide⟩

/-- The calls of `begin` succeeding: on an empty drive, with both `fopen` of the backup carried
out, the states of `D/p` and `D/b` along a download that starts and along one that is refused
after creating the partial file. -/
theorem begin_trace_examples :
    (Transfer.begin ⟨true, 5, true, DownloadBegin.Download, none, 1024, true, true, 90⟩
        (fun _ => none) ⟨1⟩).1 = BeginResult.Transfer ∧
    (Transfer.begin ⟨true, 5, true, DownloadBegin.Download, none, 1024, true, true, 90⟩
        (fun _ => none) ⟨1⟩).2.map
      (fun s => (s (FsName.partial_file 1), s (FsName.backup_file 1)))
      = [(none, none), (none, none), (none, none), (none, some (Node.file 0 false)),
         (some (Node.file 1024 true), some (Node.file 0 false)),
         (some (Node.file 1024 true), some (Node.file 0 false)),
         (some (Node.file 1024 true), some (Node.file 90 false))] ∧
    (Transfer.begin
        ⟨true, 5, true, DownloadBegin.RefusedRequest, some (0, false), 1024, true, true, 90⟩
        (fun _ => none) ⟨1⟩).2.map
      (fun s => (s (FsName.partial_file 1), s (FsName.backup_file 1),
        s (FsName.destination 1)))
      = [(none, none, none), (none, none, some (Node.dir false)),
         (none, none, some (Node.dir false)),
         (none, some (Node.file 0 false), some (Node.dir false)),
         (some (Node.file 0 false), some (Node.file 0 false), some (Node.dir false)),
         (none, some (Node.file 0 false), some (Node.dir false)),
         (none, none, some (Node.dir false)), (none, none, none)] :=
  ⟨by decide, by decide, by decide⟩

/-! ### Validity and the data supplied -/

/-- C29: the code at a `sync` after a short write.  On an empty 1024-byte file, 100 bytes are
written at offset 0 (nothing is valid yet, the sector is not dispatched), then `sync` dispatches
the sector and its completion arrives with `USBH_OK`: `sync` returns true and
`valid_head = {0, 512}`, so the offsets 100 to 511, which no write supplied, are valid. -/
theorem sync_marks_unwritten_bytes_valid :
    syncEnv.completionsOk ∧
    ∃ q1 q2,
      (PartialFile.init 4 100 (emptyState 1024)).write syncEnv (List.replicate 100 7)
        = WriteResult.returned true q1 ∧
      q1.current_offset = 100 ∧ q1.state = emptyState 1024 ∧
      q1.sync syncEnv = some (true, q2) ∧
      q2.state.valid_head = some ⟨0, 512⟩ ∧ q2.state.covers 100 = true ∧
      ¬ ((⟨0, 512⟩ : ValidPart).«end» ≤ 100) := by
  constructor
  · intro n c hc
    simp only [syncEnv] at hc
    split_ifs at hc
    · simp only [List.mem_singleton] at hc
      rw [hc]
    · cases hc
  · have hstep : ((PartialFile.init 4 100 (emptyState 1024)).write_step syncEnv
        (List.replicate 100 7)).isNext = true := by decide
    cases h : (PartialFile.init 4 100 (emptyState 1024)).write_step syncEnv
        (List.replicate 100 7) with
    | done r =>
      rw [h] at hstep
      cases hstep
    | next q rest =>
      have hq : ((PartialFile.init 4 100 (emptyState 1024)).write_step syncEnv
          (List.replicate 100 7)).nextFile = some q := by rw [h]; rfl
      have hrest : rest = [] := by
        rw [(write_step_next h).1]
        decide
      subst hrest
      have hw : (PartialFile.init 4 100 (emptyState 1024)).write syncEnv
          (List.replicate 100 7) = WriteResult.returned true q := by
        rw [PartialFile.write, if_neg (by decide),
          write_loop_unfold _ _ _ (by decide), h]
        exact write_loop_nil _ _
      have hsync : ((((PartialFile.init 4 100 (emptyState 1024)).write_step syncEnv
          (List.replicate 100 7)).nextFile.bind (fun p => p.sync syncEnv)).map
            (fun r => (r.1, r.2.state.valid_head, r.2.state.covers 100)))
          = some (true, some ⟨0, 512⟩, true) := by decide
      have hoff : (((PartialFile.init 4 100 (emptyState 1024)).write_step syncEnv
          (List.replicate 100 7)).nextFile.map
            (fun p => (p.current_offset, p.state.valid_head, p.state.valid_tail,
              p.state.total_size))) = some (100, none, none, 1024) := by decide
      rw [hq] at hsync hoff
      simp only [Option.map_some', Option.some.injEq, Prod.mk.injEq, Option.some_bind] at hoff
      simp only [Option.some_bind] at hsync
      cases hs : q.sync syncEnv with
      | none =>
        rw [hs] at hsync
        cases hsync
      | some r =>
        rw [hs] at hsync
        simp only [Option.map_some', Option.some.injEq, Prod.mk.injEq] at hsync
        obtain ⟨b, q2⟩ := r
        simp only at hsync
        obtain ⟨rfl, h1, h2⟩ := hsync
        refine ⟨q, q2, hw, hoff.1, ?_, hs, h1, h2, by decide⟩
        obtain ⟨hd, tl, n, hst⟩ : ∃ hd tl n, q.state = ⟨hd, tl, n⟩ := ⟨_, _, _, rfl⟩
        rw [hst] at hoff ⊢
        simp only at hoff
        simp [emptyState, hoff.2.1, hoff.2.2.1, hoff.2.2.2]

/-! ### A write whose acquires, pokes and submissions succeed -/

theorem request_modify (p : SectorPool) (f : UsbhMscRequest → UsbhMscRequest) (slot : Nat)
    (h : slot < p.pool.length) :
    ({ p with pool := p.pool.modify f slot } : SectorPool).request slot = f (p.request slot) := by
  simp only [SectorPool.request, List.getD_eq_getElem?_getD, List.getElem?_modify_eq,
    List.getElem?_eq_getElem h, Option.map_eq_map, Option.map_some', Option.getD_some]

theorem acquire_pool_length {env : Env} {pf q : PartialFile} {r : Option Nat}
    (h : pf.acquire env = (r, q)) : q.sector_pool.pool.length = pf.sector_pool.pool.length := by
  have hx := (xSemaphoreTake_frame env pf).2.2.1
  simp only [PartialFile.acquire] at h
  split at h
  · rename_i pf1 heq
    rw [heq] at hx
    simp only [Prod.mk.injEq] at h
    rw [← h.2]
    exact congrArg List.length hx
  · rename_i pf1 heq
    rw [heq] at hx
    simp only [Prod.mk.injEq] at h
    rw [← h.2]
    simp only [List.length_modify]
    exact congrArg List.length hx

theorem open_sector_ok (env : Env) (pf : PartialFile)
    (hlt : pf.current_offset < pf.state.total_size)
    (hfirst : pf.first_sector_nbr + pf.state.total_size / SECTOR_SIZE + 1 < SIZE_MOD)
    (hK : pf.sectorOpenOk)
    (hacq : pf.current_sector = none →
      ∃ slot q, pf.acquire env = (some slot, q) ∧ slot < q.sector_pool.pool.length) :
    ∃ slot pf1, pf.open_sector env = Sum.inr (slot, pf1) ∧
      pf1.current_sector = some slot ∧ slot < pf1.sector_pool.pool.length ∧
      (pf1.sector_pool.request slot).sector_nbr
        = pf.first_sector_nbr + pf.current_offset / SECTOR_SIZE ∧
      pf1.current_offset = pf.current_offset ∧
      pf1.first_sector_nbr = pf.first_sector_nbr ∧
      pf1.state.total_size = pf.state.total_size ∧ pf1.submitted = pf.submitted ∧
      pf1.future_extend = pf.future_extend ∧ pf1.pokes = pf.pokes ∧
      pf1.submits = pf.submits ∧
      pf1.sector_pool.pool.length = pf.sector_pool.pool.length := by
  cases hcur : pf.current_sector with
  | some s =>
    obtain ⟨k1, k2, k3⟩ := hK.2 s hcur
    exact ⟨s, pf, by simp [PartialFile.open_sector, hcur], hcur, k1, k3, rfl, rfl, rfl, rfl,
      rfl, rfl, rfl, rfl⟩
  | none =>
    obtain ⟨slot, q, hq, hs⟩ := hacq hcur
    obtain ⟨w1, w2, w3, w4, w5, w6, w7, w8, w9⟩ := (acquire_rel hq).1
    have hlen := acquire_pool_length hq
    have hge : ¬ pf.current_offset ≥ pf.state.total_size := by omega
    have hnbr : pf.get_sector_nbr pf.current_offset
        = pf.first_sector_nbr + pf.current_offset / SECTOR_SIZE := by
      simp only [PartialFile.get_sector_nbr, if_neg hge]
      simp only [SIZE_MOD, SECTOR_SIZE] at hfirst ⊢
      omega
    refine ⟨slot,
      { q with
        current_sector := some slot,
        sector_pool := { q.sector_pool with
          pool := q.sector_pool.pool.modify
            (fun r => { r with sector_nbr := pf.get_sector_nbr pf.current_offset }) slot } },
      by simp only [PartialFile.open_sector, hcur, if_neg hge, hq], rfl, ?_, ?_,
      w3.symm, w1.symm, w4.symm, w8.symm, w5.symm, w6.symm, w7.symm, ?_⟩
    · simp only [List.length_modify]
      exact hs
    · rw [request_modify _ _ _ hs, hnbr]
    · simp only [List.length_modify]
      exact hlen

theorem sectorEnd_facts (total c ws : Nat) (h1 : c + ws ≤ total) (h2 : 1 ≤ ws)
    (h3 : c % SECTOR_SIZE + ws ≤ SECTOR_SIZE) :
    c + ws ≤ sectorEnd total (c / SECTOR_SIZE) ∧
    (c + ws = sectorEnd total (c / SECTOR_SIZE) ↔
      (c + ws = total ∨ (c + ws) / SECTOR_SIZE = c / SECTOR_SIZE + 1)) ∧
    (c + ws < sectorEnd total (c / SECTOR_SIZE) →
      (c + ws) / SECTOR_SIZE = c / SECTOR_SIZE ∧ c + ws < total) := by
  simp only [sectorEnd, SECTOR_SIZE] at h3 ⊢
  refine ⟨by omega, by omega, by omega⟩

theorem flush_ok (env : Env) (pf pf2 : PartialFile) (data : List Nat) (slot ws : Nat)
    (hfill : pf.fill_sector env data = Sum.inr (slot, pf2, ws))
    (hcs : pf2.current_sector = some slot) (hslot : slot < pf2.sector_pool.pool.length)
    (hlen : pf2.future_extend.length = pf2.sector_pool.pool.length)
    (hnbr : (pf2.sector_pool.request slot).sector_nbr
      = pf2.first_sector_nbr + pf2.current_offset / SECTOR_SIZE)
    (hfit : pf2.current_offset + ws ≤ pf2.state.total_size) (hws : 1 ≤ ws)
    (hbuf : pf2.current_offset % SECTOR_SIZE + ws ≤ SECTOR_SIZE)
    (hsz : pf2.state.total_size < SIZE_MOD)
    (hfirst : pf2.first_sector_nbr + pf2.state.total_size / SECTOR_SIZE + 1 < SIZE_MOD)
    (hl : ∀ n, env.lseek_ok n = true) (hsub : ∀ n, env.submit_ok n = true) :
    ∃ q, pf.write_step env data = StepResult.next q (data.drop ws) ∧
      q.current_offset = pf2.current_offset + ws ∧
      q.first_sector_nbr = pf2.first_sector_nbr ∧
      q.state.total_size = pf2.state.total_size ∧ q.sectorOpenOk ∧
      ((pf2.current_offset + ws = sectorEnd pf2.state.total_size
            (pf2.current_offset / SECTOR_SIZE) ∧
          q.current_sector = none ∧
          q.submitted = pf2.submitted ++ [(slot, pf2.sector_pool.request slot)] ∧
          (pf2.state.total_size + SECTOR_SIZE ≤ SIZE_MOD →
            q.future_extend.getD slot ⟨0, 0⟩
              = ⟨pf2.current_offset / SECTOR_SIZE * SECTOR_SIZE,
                  sectorEnd pf2.state.total_size (pf2.current_offset / SECTOR_SIZE)⟩)) ∨
        (pf2.current_offset + ws < sectorEnd pf2.state.total_size
            (pf2.current_offset / SECTOR_SIZE) ∧
          q.current_sector = some slot ∧ q.submitted = pf2.submitted)) := by
  obtain ⟨s1, s2, s3⟩ := sectorEnd_facts pf2.state.total_size pf2.current_offset ws hfit hws hbuf
  have hno : (pf2.current_offset + ws) % SIZE_MOD = pf2.current_offset + ws := by
    apply Nat.mod_eq_of_lt
    omega
  have hnot : ¬ pf2.current_offset + ws > pf2.state.total_size := by omega
  by_cases hdue : pf2.current_offset + ws
      = sectorEnd pf2.state.total_size (pf2.current_offset / SECTOR_SIZE)
  · have hne : pf2.get_sector_nbr (pf2.current_offset + ws)
        ≠ (pf2.sector_pool.request slot).sector_nbr := by
      rw [hnbr]
      have := s2.1 hdue
      simp only [PartialFile.get_sector_nbr]
      simp only [SIZE_MOD, SECTOR_SIZE] at hfirst hsz this ⊢
      split_ifs <;> omega
    have hoff : pf2.get_offset (pf2.sector_pool.request slot).sector_nbr
        = pf2.current_offset / SECTOR_SIZE * SECTOR_SIZE := by
      rw [hnbr]
      simp only [PartialFile.get_offset]
      simp only [SIZE_MOD, SECTOR_SIZE] at hfirst hsz ⊢
      omega
    have hend : pf2.state.total_size + SECTOR_SIZE ≤ SIZE_MOD →
        min ((pf2.current_offset / SECTOR_SIZE * SECTOR_SIZE + SECTOR_SIZE) % SIZE_MOD)
          pf2.state.total_size
        = sectorEnd pf2.state.total_size (pf2.current_offset / SECTOR_SIZE) := by
      intro hbig
      have hm : (pf2.current_offset / SECTOR_SIZE * SECTOR_SIZE + SECTOR_SIZE) % SIZE_MOD
          = (pf2.current_offset / SECTOR_SIZE + 1) * SECTOR_SIZE := by
        simp only [SIZE_MOD, SECTOR_SIZE] at hbig hfit ⊢
        omega
      rw [hm]
      rfl
    have hslot2 : slot < pf2.future_extend.length := by
      rw [hlen]
      exact hslot
    refine ⟨{ pf2 with
        pokes := pf2.pokes + 1,
        future_extend := pf2.future_extend.set slot
          ⟨pf2.get_offset (pf2.sector_pool.request slot).sector_nbr,
            min ((pf2.get_offset (pf2.sector_pool.request slot).sector_nbr + SECTOR_SIZE)
              % SIZE_MOD) pf2.state.total_size⟩,
        submits := pf2.submits + 1,
        submitted := pf2.submitted ++ [(slot, pf2.sector_pool.request slot)],
        current_sector := none,
        current_offset := pf2.current_offset + ws }, by
      simp only [PartialFile.write_step, hfill, hno, hnot, if_false, hne, ne_eq,
        not_false_eq_true, if_true, PartialFile.write_current_sector, hl, hsub,
        Bool.true_eq_false, PartialFile.advance, PartialFile.seek,
        PartialFile.discard_current_sector], ?_, ?_, ?_, ?_, ?_⟩
    · rfl
    · rfl
    · rfl
    · refine ⟨?_, fun s hs => ?_⟩
      · show (pf2.future_extend.set slot _).length = pf2.sector_pool.pool.length
        rw [List.length_set]
        exact hlen
      · cases hs
    · left
      refine ⟨hdue, rfl, rfl, fun hbig => ?_⟩
      show (pf2.future_extend.set slot _).getD slot ⟨0, 0⟩ = _
      rw [List.getD_eq_getElem?_getD, List.getElem?_set_self hslot2, hoff, hend hbig]
      rfl
  · have hlt : pf2.current_offset + ws
        < sectorEnd pf2.state.total_size (pf2.current_offset / SECTOR_SIZE) := by omega
    obtain ⟨t1, t2⟩ := s3 hlt
    have heq : pf2.get_sector_nbr (pf2.current_offset + ws)
        = (pf2.sector_pool.request slot).sector_nbr := by
      rw [hnbr]
      simp only [PartialFile.get_sector_nbr]
      simp only [SIZE_MOD, SECTOR_SIZE] at hfirst hsz t1 ⊢
      split_ifs <;> omega
    refine ⟨{ pf2 with current_offset := pf2.current_offset + ws }, by
      simp only [PartialFile.write_step, hfill, hno, hnot, if_false, heq, ne_eq,
        not_true_eq_false, PartialFile.advance, PartialFile.seek, hcs, if_true], ?_, ?_, ?_,
      ?_, ?_⟩
    · rfl
    · rfl
    · rfl
    · refine ⟨hlen, fun s hs => ?_⟩
      have hs' : pf2.current_sector = some s := hs
      rw [hcs] at hs'
      cases hs'
      refine ⟨hslot, t2, ?_⟩
      show (pf2.sector_pool.request slot).sector_nbr
        = pf2.first_sector_nbr + (pf2.current_offset + ws) / SECTOR_SIZE
      rw [hnbr, t1]
    · right
      exact ⟨hlt, hcs, rfl⟩

theorem write_pass_ok (env : Env) (pf : PartialFile) (data : List Nat) (hd : data ≠ [])
    (hfit : pf.current_offset + data.length ≤ pf.state.total_size)
    (hsz : pf.state.total_size < SIZE_MOD)
    (hfirst : pf.first_sector_nbr + pf.state.total_size / SECTOR_SIZE + 1 < SIZE_MOD)
    (hK : pf.sectorOpenOk)
    (hl : ∀ n, env.lseek_ok n = true) (hsub : ∀ n, env.submit_ok n = true)
    (hacq : pf.current_sector = none →
      ∃ slot q, pf.acquire env = (some slot, q) ∧ slot < q.sector_pool.pool.length) :
    ∃ q slot, pf.write_step env data = StepResult.next q
        (data.drop (min data.length (SECTOR_SIZE - pf.current_offset % SECTOR_SIZE))) ∧
      1 ≤ min data.length (SECTOR_SIZE - pf.current_offset % SECTOR_SIZE) ∧
      pf.current_offset % SECTOR_SIZE
        + min data.length (SECTOR_SIZE - pf.current_offset % SECTOR_SIZE) ≤ SECTOR_SIZE ∧
      q.current_offset = pf.current_offset
        + min data.length (SECTOR_SIZE - pf.current_offset % SECTOR_SIZE) ∧
      q.first_sector_nbr = pf.first_sector_nbr ∧
      q.state.total_size = pf.state.total_size ∧ q.sectorOpenOk ∧
      ((pf.current_offset + min data.length (SECTOR_SIZE - pf.current_offset % SECTOR_SIZE)
            = sectorEnd pf.state.total_size (pf.current_offset / SECTOR_SIZE) ∧
          q.current_sector = none ∧
          (∃ req, q.submitted = pf.submitted ++ [(slot, req)] ∧
            req.sector_nbr = pf.first_sector_nbr + pf.current_offset / SECTOR_SIZE) ∧
          (pf.state.total_size + SECTOR_SIZE ≤ SIZE_MOD →
            q.future_extend.getD slot ⟨0, 0⟩
              = ⟨pf.current_offset / SECTOR_SIZE * SECTOR_SIZE,
                  sectorEnd pf.state.total_size (pf.current_offset / SECTOR_SIZE)⟩)) ∨
        (pf.current_offset + min data.length (SECTOR_SIZE - pf.current_offset % SECTOR_SIZE)
            < sectorEnd pf.state.total_size (pf.current_offset / SECTOR_SIZE) ∧
          q.current_sector = some slot ∧ q.submitted = pf.submitted)) := by
  have hlen0 : 0 < data.length := List.length_pos.2 hd
  have hlt : pf.current_offset < pf.state.total_size := by omega
  obtain ⟨slot, pf1, ho, a1, a2, a3, a4, a5, a6, a7, a8, a9, a10, a11⟩ :=
    open_sector_ok env pf hlt hfirst hK hacq
  have hws : 1 ≤ min data.length (SECTOR_SIZE - pf.current_offset % SECTOR_SIZE) := by
    simp only [SECTOR_SIZE]
    omega
  have hbuf : pf.current_offset % SECTOR_SIZE
      + min data.length (SECTOR_SIZE - pf.current_offset % SECTOR_SIZE) ≤ SECTOR_SIZE := by
    simp only [SECTOR_SIZE]
    omega
  cases hf : pf.fill_sector env data with
  | inl r => simp [PartialFile.fill_sector, ho] at hf
  | inr x =>
    obtain ⟨slot2, pf2, ws⟩ := x
    have hfill := hf
    simp only [PartialFile.fill_sector, ho, Sum.inr.injEq, Prod.mk.injEq, a4] at hf
    obtain ⟨rfl, hpf2, rfl⟩ := hf
    have p1 : pf2.current_sector = some slot := by rw [← hpf2]; exact a1
    have p2 : pf2.sector_pool.pool.length = pf1.sector_pool.pool.length := by
      rw [← hpf2]
      simp only [List.length_modify]
    have p3 : pf2.future_extend = pf.future_extend := by rw [← hpf2]; exact a8
    have p4 : (pf2.sector_pool.request slot).sector_nbr
        = pf.first_sector_nbr + pf.current_offset / SECTOR_SIZE := by
      rw [← hpf2, request_modify _ _ _ a2]
      exact a3
    have p5 : pf2.current_offset = pf.current_offset := by rw [← hpf2]
    have p6 : pf2.first_sector_nbr = pf.first_sector_nbr := by rw [← hpf2]; exact a5
    have p7 : pf2.state.total_size = pf.state.total_size := by rw [← hpf2]; exact a6
    have p8 : pf2.submitted = pf.submitted := by rw [← hpf2]; exact a7
    obtain ⟨q, e, b1, b2, b3, b4, b5⟩ := flush_ok env pf pf2 data slot _ hfill p1
      (by rw [p2]; exact a2) (by rw [p3, hK.1, p2, a11]) (by rw [p4, p5, p6])
      (by rw [p5, p7]; omega) hws (by rw [p5]; exact hbuf) (by rw [p7]; exact hsz)
      (by rw [p6, p7]; exact hfirst) hl hsub
    rw [p5] at b1
    rw [p6] at b2
    rw [p7] at b3
    rw [p5, p7, p8] at b5
    refine ⟨q, slot, e, hws, hbuf, b1, b2, b3, b4, ?_⟩
    rcases b5 with ⟨c1, c2, c3, c4⟩ | ⟨c1, c2, c3⟩
    · left
      exact ⟨c1, c2, ⟨_, c3, p4⟩, c4⟩
    · right
      exact ⟨c1, c2, c3⟩

theorem sectorDue_split (total c ws hi k : Nat) (hc : c < total) (hws : 1 ≤ ws)
    (hhi : c + ws ≤ hi) :
    (c + ws = sectorEnd total (c / SECTOR_SIZE) →
      (sectorDue total c hi k ↔ k = c / SECTOR_SIZE ∨ sectorDue total (c + ws) hi k) ∧
      (sectorDue total (c + ws) hi k → c / SECTOR_SIZE < k)) ∧
    (c + ws < sectorEnd total (c / SECTOR_SIZE) →
      (sectorDue total c hi k ↔ sectorDue total (c + ws) hi k)) := by
  simp only [sectorDue, sectorEnd, SECTOR_SIZE]
  refine ⟨fun h => ⟨?_, ?_⟩, fun h => ?_⟩
  · constructor
    · intro hk
      omega
    · intro hk
      omega
  · intro hk
    omega
  · constructor
    · intro hk
      omega
    · intro hk
      omega

theorem sectorDue_empty (total c k : Nat) : ¬ sectorDue total c c k := by
  simp only [sectorDue]
  omega

theorem write_loop_ok (env : Env) (hl : ∀ n, env.lseek_ok n = true)
    (hsub : ∀ n, env.submit_ok n = true) :
    ∀ (n : Nat) (pf : PartialFile) (data : List Nat), data.length = n →
      pf.current_offset + data.length ≤ pf.state.total_size →
      pf.state.total_size < SIZE_MOD →
      pf.first_sector_nbr + pf.state.total_size / SECTOR_SIZE + 1 < SIZE_MOD →
      pf.sectorOpenOk →
      (∀ q rest, LoopPass env pf data q rest → rest ≠ [] → q.current_sector = none →
        ∃ slot q2, q.acquire env = (some slot, q2) ∧ slot < q2.sector_pool.pool.length) →
      ∃ q ks, pf.write_loop env data = WriteResult.returned true q ∧
        q.current_offset = pf.current_offset + n ∧
        q.first_sector_nbr = pf.first_sector_nbr ∧
        q.state.total_size = pf.state.total_size ∧ q.sectorOpenOk ∧
        q.submitted = pf.submitted ++ ks ∧
        (ks.map (fun x => x.2.sector_nbr)).Pairwise (fun a b => a < b) ∧
        (∀ x ∈ ks.map (fun x => x.2.sector_nbr), ∃ k, x = pf.first_sector_nbr + k ∧
          sectorDue pf.state.total_size pf.current_offset (pf.current_offset + n) k) ∧
        (∀ k, sectorDue pf.state.total_size pf.current_offset (pf.current_offset + n) k →
          pf.first_sector_nbr + k ∈ ks.map (fun x => x.2.sector_nbr)) := by
  intro n
  induction n using Nat.strong_induction_on with
  | _ n ih =>
    intro pf data hn hfit hsz hfirst hK hacq
    by_cases hd : data = []
    · subst hd
      simp only [List.length_nil] at hn
      subst hn
      refine ⟨pf, [], write_loop_nil env pf, rfl, rfl, rfl, hK, by simp, by simp, by simp, ?_⟩
      intro k hk
      exact absurd hk (sectorDue_empty _ _ _)
    · obtain ⟨q1, slot, hs, w1, w2, w3, w4, w5, w6, w7⟩ :=
        write_pass_ok env pf data hd hfit hsz hfirst hK hl hsub
          (hacq pf data (LoopPass.first pf data) hd)
      have hlen0 : 0 < data.length := List.length_pos.2 hd
      have hlt : pf.current_offset < pf.state.total_size := by omega
      have hrest : (data.drop (min data.length
          (SECTOR_SIZE - pf.current_offset % SECTOR_SIZE))).length
          = n - min data.length (SECTOR_SIZE - pf.current_offset % SECTOR_SIZE) := by
        rw [List.length_drop, hn]
      have hwsle : min data.length (SECTOR_SIZE - pf.current_offset % SECTOR_SIZE) ≤ n := by
        rw [← hn]
        exact Nat.min_le_left _ _
      obtain ⟨q, ks, e, r1, r2, r3, r4, r5, r6, r7, r8⟩ :=
        ih (n - min data.length (SECTOR_SIZE - pf.current_offset % SECTOR_SIZE)) (by omega)
          q1 _ hrest (by rw [w3, w5, hrest]; omega) (by rw [w5]; exact hsz)
          (by rw [w4, w5]; exact hfirst) w6
          (fun p r hp => hacq p r (LoopPass.later hd hs hp))
      rw [w3, w4, w5] at r7 r8
      rw [w3] at r1
      have hsum : pf.current_offset + min data.length
          (SECTOR_SIZE - pf.current_offset % SECTOR_SIZE)
          + (n - min data.length (SECTOR_SIZE - pf.current_offset % SECTOR_SIZE))
          = pf.current_offset + n := by omega
      rw [hsum] at r1 r7 r8
      have hloop : pf.write_loop env data = WriteResult.returned true q := by
        rw [write_loop_unfold env pf data hd, hs]
        exact e
      rcases w7 with ⟨c1, c2, ⟨req, c3, c4⟩, -⟩ | ⟨c1, c2, c3⟩
      · refine ⟨q, (slot, req) :: ks, hloop, r1, r2.trans w4, r3.trans w5, r4, ?_, ?_, ?_, ?_⟩
        · rw [r5, c3, List.append_assoc]
          rfl
        · simp only [List.map_cons, List.pairwise_cons]
          refine ⟨fun x hx => ?_, r6⟩
          obtain ⟨k, rfl, hk⟩ := r7 x hx
          have := ((sectorDue_split _ _ _ (pf.current_offset + n) k hlt w1
            (by omega)).1 c1).2 hk
          rw [c4]
          omega
        · intro x hx
          simp only [List.map_cons, List.mem_cons] at hx
          rcases hx with rfl | hx
          · refine ⟨pf.current_offset / SECTOR_SIZE, c4, ?_⟩
            exact ((sectorDue_split _ _ _ (pf.current_offset + n) _ hlt w1
              (by omega)).1 c1).1.2 (Or.inl rfl)
          · obtain ⟨k, rfl, hk⟩ := r7 x hx
            exact ⟨k, rfl, ((sectorDue_split _ _ _ (pf.current_offset + n) k hlt w1
              (by omega)).1 c1).1.2 (Or.inr hk)⟩
        · intro k hk
          simp only [List.map_cons, List.mem_cons]
          rcases ((sectorDue_split _ _ _ (pf.current_offset + n) k hlt w1
            (by omega)).1 c1).1.1 hk with rfl | hk2
          · exact Or.inl c4.symm
          · exact Or.inr (r8 k hk2)
      · refine ⟨q, ks, hloop, r1, r2.trans w4, r3.trans w5, r4, ?_, r6, ?_, ?_⟩
        · rw [r5, c3]
        · intro x hx
          obtain ⟨k, rfl, hk⟩ := r7 x hx
          exact ⟨k, rfl, ((sectorDue_split _ _ _ (pf.current_offset + n) k hlt w1
            (by omega)).2 c1).2 hk⟩
        · intro k hk
          exact r8 k (((sectorDue_split _ _ _ (pf.current_offset + n) k hlt w1
            (by omega)).2 c1).1 hk)

theorem init_sectorOpenOk (size first_sector : Nat) (state : State) :
    (PartialFile.init size first_sector state).sectorOpenOk := by
  refine ⟨by simp [PartialFile.init, SectorPool.init], fun slot h => ?_⟩
  simp [PartialFile.init] at h

theorem seek_sectorOpenOk (pf : PartialFile) (offset : Nat) (hK : pf.sectorOpenOk)
    (hfirst : pf.first_sector_nbr + pf.state.total_size / SECTOR_SIZE + 1 < SIZE_MOD)
    (hoff : pf.first_sector_nbr + offset / SECTOR_SIZE + 1 < SIZE_MOD) :
    (pf.seek offset).2.sectorOpenOk := by
  cases hcur : pf.current_sector with
  | none =>
    refine ⟨?_, fun slot h => ?_⟩
    · simp only [PartialFile.seek, hcur, PartialFile.discard_current_sector]
      exact hK.1
    · simp [PartialFile.seek, hcur, PartialFile.discard_current_sector] at h
  | some s =>
    obtain ⟨k1, k2, k3⟩ := hK.2 s hcur
    by_cases hsame : (pf.sector_pool.request s).sector_nbr = pf.get_sector_nbr offset
    · have hnbr := hsame
      rw [k3] at hnbr
      simp only [PartialFile.get_sector_nbr] at hnbr
      have hfacts : offset < pf.state.total_size ∧
          offset / SECTOR_SIZE = pf.current_offset / SECTOR_SIZE := by
        simp only [SIZE_MOD, SECTOR_SIZE] at hfirst hoff hnbr ⊢
        split_ifs at hnbr <;> omega
      refine ⟨?_, fun slot h => ?_⟩
      · simp only [PartialFile.seek, hcur, hsame, if_true]
        exact hK.1
      · have e : (pf.seek offset).2 = { pf with current_offset := offset } := by
          simp only [PartialFile.seek, hcur]
          rw [if_pos hsame]
        rw [e] at h ⊢
        have h2 : pf.current_sector = some slot := h
        rw [hcur] at h2
        cases h2
        refine ⟨k1, hfacts.1, ?_⟩
        show (pf.sector_pool.request s).sector_nbr = pf.first_sector_nbr + offset / SECTOR_SIZE
        rw [k3, hfacts.2]
    · refine ⟨?_, fun slot h => ?_⟩
      · simp only [PartialFile.seek, hcur, if_neg hsame, PartialFile.discard_current_sector,
          SectorPool.release, SectorPool.xSemaphoreGive]
        exact hK.1
      · simp [PartialFile.seek, hcur, hsame, PartialFile.discard_current_sector] at h

theorem lastSectorFile_ok : lastSectorFile.sectorOpenOk := by
  refine ⟨by decide, fun slot h => ?_⟩
  have hn : lastSectorFile.current_sector = none := by decide
  rw [hn] at h
  cases h

theorem lastSectorFile_acquire :
    ∃ slot q, lastSectorFile.acquire quietEnv = (some slot, q) ∧
      slot < q.sector_pool.pool.length :=
  ⟨0, (lastSectorFile.acquire quietEnv).2,
    Prod.ext (by decide) rfl, by decide⟩

theorem lastSectorFile_passes (q : PartialFile) (rest : List Nat)
    (h : LoopPass quietEnv lastSectorFile (List.replicate 18 7) q rest) (hr : rest ≠ []) :
    q = lastSectorFile := by
  cases h with
  | first => rfl
  | later hd hs hp =>
    have hrest := (write_step_next hs).1
    have hnil : List.drop (min (List.replicate 18 7).length
        (SECTOR_SIZE - lastSectorFile.current_offset % SECTOR_SIZE))
        (List.replicate 18 7) = [] := by decide
    rw [hnil] at hrest
    subst hrest
    cases hp with
    | first => exact absurd rfl hr
    | later hd2 _ _ => exact absurd rfl hd2

/-- C30: a write with the latch clear that stays inside the file, starts with the open sector
(if any) being the one of `current_offset`, addresses sectors below 2^32, and in which every
acquire, poke and submission succeeds.  The call returns true, `current_offset` grows by
exactly `size`, every pass copies at least one byte and stays inside the sector buffer
(`sector_offset + write_size ≤ SECTOR_SIZE`), and the sectors submitted are exactly those whose
end offset `min((k+1)·512, total_size)` lies in `(old current_offset, old current_offset + size]`,
in ascending order and each once. -/
theorem write_succeeds_spec (env : Env) (pf : PartialFile) (data : List Nat)
    (hw : pf.write_error = false)
    (hfit : pf.current_offset + data.length ≤ pf.state.total_size)
    (hsz : pf.state.total_size < SIZE_MOD)
    (hfirst : pf.first_sector_nbr + pf.state.total_size / SECTOR_SIZE + 1 < SIZE_MOD)
    (hK : pf.sectorOpenOk)
    (hl : ∀ n, env.lseek_ok n = true) (hsub : ∀ n, env.submit_ok n = true)
    (hacq : ∀ q rest, LoopPass env pf data q rest → rest ≠ [] → q.current_sector = none →
      ∃ slot q2, q.acquire env = (some slot, q2) ∧ slot < q2.sector_pool.pool.length) :
    (∃ q ks, pf.write env data = WriteResult.returned true q ∧
      q.current_offset = pf.current_offset + data.length ∧ q.sectorOpenOk ∧
      q.submitted = pf.submitted ++ ks ∧
      (ks.map (fun x => x.2.sector_nbr)).Pairwise (fun a b => a < b) ∧
      (∀ x ∈ ks.map (fun x => x.2.sector_nbr), ∃ k, x = pf.first_sector_nbr + k ∧
        sectorDue pf.state.total_size pf.current_offset
          (pf.current_offset + data.length) k) ∧
      (∀ k, sectorDue pf.state.total_size pf.current_offset
          (pf.current_offset + data.length) k →
        pf.first_sector_nbr + k ∈ ks.map (fun x => x.2.sector_nbr))) ∧
    (∀ q rest slot p ws, LoopPass env pf data q rest → rest ≠ [] →
      q.fill_sector env rest = Sum.inr (slot, p, ws) →
      1 ≤ ws ∧ q.current_offset % SECTOR_SIZE + ws ≤ SECTOR_SIZE ∧
      (q.write_step env rest).isNext = true) := by
  constructor
  · obtain ⟨q, ks, e, r1, -, -, r4, r5, r6, r7, r8⟩ :=
      write_loop_ok env hl hsub data.length pf data rfl hfit hsz hfirst hK hacq
    refine ⟨q, ks, ?_, r1, r4, r5, r6, r7, r8⟩
    simp only [PartialFile.write, hw, Bool.false_eq_true, if_false]
    exact e
  · have key : ∀ (a : PartialFile) (d : List Nat) (q : PartialFile) (rest : List Nat),
        LoopPass env a d q rest →
        a.current_offset + d.length ≤ a.state.total_size → a.state.total_size < SIZE_MOD →
        a.first_sector_nbr + a.state.total_size / SECTOR_SIZE + 1 < SIZE_MOD →
        a.sectorOpenOk →
        (∀ q rest, LoopPass env a d q rest → rest ≠ [] → q.current_sector = none →
          ∃ slot q2, q.acquire env = (some slot, q2) ∧ slot < q2.sector_pool.pool.length) →
        rest ≠ [] → (q.write_step env rest).isNext = true := by
      intro a d q rest hp
      induction hp with
      | first a d =>
        intro h1 h2 h3 h4 h5 h6
        obtain ⟨q1, slot, hs, -⟩ := write_pass_ok env a d h6 h1 h2 h3 h4 hl hsub
          (h5 a d (LoopPass.first a d) h6)
        rw [hs]
        rfl
      | later hd hs hp ih =>
        rename_i a0 q0 p0 d0 rest0 r0
        intro h1 h2 h3 h4 h5 h6
        obtain ⟨q1, slot, hs2, w1, w2, w3, w4, w5, w6, -⟩ :=
          write_pass_ok env a0 d0 hd h1 h2 h3 h4 hl hsub
            (h5 a0 d0 (LoopPass.first a0 d0) hd)
        rw [hs] at hs2
        simp only [StepResult.next.injEq] at hs2
        obtain ⟨rfl, rfl⟩ := hs2
        have hlen0 : 0 < d0.length := List.length_pos.2 hd
        have hle := Nat.min_le_left d0.length (SECTOR_SIZE - a0.current_offset % SECTOR_SIZE)
        exact ih (by rw [w3, w5, List.length_drop]; omega) (by rw [w5]; exact h2)
          (by rw [w4, w5]; exact h3) w6
          (fun p r hpp => h5 p r (LoopPass.later hd hs hpp)) h6
    intro q rest slot p ws hp hr hf
    obtain ⟨-, -, f3, -⟩ := fill_sector_inr hf
    have hlen0 : 0 < rest.length := List.length_pos.2 hr
    refine ⟨?_, ?_, key pf data q rest hp hfit hsz hfirst hK hacq hr⟩
    · rw [f3]
      simp only [SECTOR_SIZE]
      omega
    · rw [f3]
      simp only [SECTOR_SIZE]
      omega

/-- Witness for C30: the 18 bytes of the last sector of a 530-byte file, written at offset
512: the write returns true at offset 530 and submits sector 101. -/
theorem write_succeeds_spec_witness :
    (lastSectorFile.write_error = false ∧
      lastSectorFile.current_offset + (List.replicate 18 7).length
        ≤ lastSectorFile.state.total_size ∧
      lastSectorFile.state.total_size < SIZE_MOD ∧
      lastSectorFile.first_sector_nbr + lastSectorFile.state.total_size / SECTOR_SIZE + 1
        < SIZE_MOD ∧
      lastSectorFile.sectorOpenOk ∧
      (∀ n, quietEnv.lseek_ok n = true) ∧ (∀ n, quietEnv.submit_ok n = true) ∧
      (∀ q rest, LoopPass quietEnv lastSectorFile (List.replicate 18 7) q rest → rest ≠ [] →
        q.current_sector = none →
        ∃ slot q2, q.acquire quietEnv = (some slot, q2) ∧
          slot < q2.sector_pool.pool.length)) ∧
    (lastSectorFile.current_offset = 512 ∧ lastSectorFile.first_sector_nbr = 100 ∧
      sectorDue lastSectorFile.state.total_size lastSectorFile.current_offset
        (lastSectorFile.current_offset + (List.replicate 18 7).length) 1) ∧
    ∃ q ks, lastSectorFile.write quietEnv (List.replicate 18 7)
        = WriteResult.returned true q ∧
      q.current_offset = lastSectorFile.current_offset + (List.replicate 18 7).length ∧
      q.sectorOpenOk ∧ q.submitted = lastSectorFile.submitted ++ ks ∧
      (ks.map (fun x => x.2.sector_nbr)).Pairwise (fun a b => a < b) ∧
      (∀ x ∈ ks.map (fun x => x.2.sector_nbr),
        ∃ k, x = lastSectorFile.first_sector_nbr + k ∧
          sectorDue lastSectorFile.state.total_size lastSectorFile.current_offset
            (lastSectorFile.current_offset + (List.replicate 18 7).length) k) ∧
      (∀ k, sectorDue lastSectorFile.state.total_size lastSectorFile.current_offset
          (lastSectorFile.current_offset + (List.replicate 18 7).length) k →
        lastSectorFile.first_sector_nbr + k ∈ ks.map (fun x => x.2.sector_nbr)) :=
  ⟨⟨by decide, by decide, by decide, by decide, lastSectorFile_ok, fun _ => rfl,
      fun _ => rfl,
      fun q rest hp hr _ => by
        rw [lastSectorFile_passes q rest hp hr]
        exact lastSectorFile_acquire⟩,
   ⟨by decide, by decide, by decide, by decide, by decide⟩,
   (write_succeeds_spec quietEnv lastSectorFile (List.replicate 18 7) (by decide) (by decide)
      (by decide) (by decide) lastSectorFile_ok (fun _ => rfl) (fun _ => rfl)
      (fun q rest hp hr _ => by
        rw [lastSectorFile_passes q rest hp hr]
        exact lastSectorFile_acquire)).1⟩

end transfers
